import Mathlib

/-!
# Linear regression engine: dataset, fitting strategies and session

A shallow embedding of `LinearRegression.h` / `LinearRegression.cpp` (the same classes are
repeated verbatim at the top of `main.cpp`).

Conventions of the embedding.

* The arithmetic of the models is embedded twice.  In the namespaces `RegressionModel`,
  `LeastSquaresModel`, `GradientDescentModel`, `Strategy` and `LinearRegression` a `double`
  operation is read as the exact operation: values that enter the program (samples, the
  gradient-descent configuration, prediction queries) are finite and are rationals `ℚ`;
  the one operation of the program that leaves the finite values under exact arithmetic is
  the unguarded division `numerator / denominator` of `LeastSquaresModel::train`; the fields
  of a model therefore have type `Double`, a rational or a non-finite value (infinity or
  NaN, which no operation of the program tells apart).  Rounding and overflow are not
  modelled there.
* In the namespace `IEEE` the methods of the models are embedded once more, every operation
  with its IEEE-754 binary64 meaning (type `Binary64`): rounding to the nearest value,
  overflow to an infinity, gradual underflow and NaN.  This is the arithmetic that the
  program runs with.  A theorem on `LeastSquaresModel.train` or `GradientDescentModel.train`
  is a statement in the exact reading; a theorem on `IEEE.LeastSquaresModel.train` or
  `IEEE.GradientDescentModel.train` is a statement in binary64 arithmetic.
* `int n = x_vals.size()` is the length of the list: datasets have fewer than `2^31` samples.
* A method that throws returns the state it leaves behind together with the error; a method
  that returns normally returns the state and `none`.
* The file system is the argument of `loadFromCSV`: `none` for a file that cannot be opened,
  `some text` for the characters of a file that can.  `std::stod` is a parameter.
-/

namespace LinReg

/-! ## Doubles -/

/-- A `double` under exact arithmetic: a finite rational value, or a non-finite value. -/
inductive Double where
  | finite (q : ℚ)
  | nonfinite
deriving DecidableEq

namespace Double

/-- Addition of doubles; a non-finite operand gives a non-finite sum. -/
def add : Double → Double → Double
  | finite a, finite b => finite (a + b)
  | _, _ => nonfinite

/-- Subtraction of doubles; a non-finite operand gives a non-finite difference. -/
def sub : Double → Double → Double
  | finite a, finite b => finite (a - b)
  | _, _ => nonfinite

/-- Multiplication of doubles; a non-finite operand gives a non-finite product
(`inf * 0` is NaN). -/
def mul : Double → Double → Double
  | finite a, finite b => finite (a * b)
  | _, _ => nonfinite

instance : Add Double := ⟨add⟩
instance : Sub Double := ⟨sub⟩
instance : Mul Double := ⟨mul⟩

/-- The quotient `a / b` of two finite doubles: non-finite when the divisor is zero
(`x / 0` is an infinity, `0 / 0` is NaN). -/
def quot (a b : ℚ) : Double :=
  if b = 0 then nonfinite else finite (a / b)

/-- A double divided by a finite double. -/
def divBy : Double → ℚ → Double
  | finite a, b => quot a b
  | nonfinite, _ => nonfinite

/-- Whether the value is finite. -/
def isFinite : Double → Bool
  | finite _ => true
  | nonfinite => false

end Double

/-! ## Errors -/

/-- The `runtime_error`s the classes throw, one constructor per throw site message. -/
inductive Error where
  /-- Message "Cannot open file: ...". -/
  | cannotOpenFile
  /-- Message "No valid data found in file: ...". -/
  | noValidData
  /-- Message "Dataset is empty". -/
  | datasetEmpty
  /-- Message "No regression model selected. ...". -/
  | noModelSelected
  /-- Message "Insufficient data for training. Need at least 2 data points.". -/
  | insufficientData
  /-- Message "Model not trained. Call trainModel() first.". -/
  | modelNotTrained
deriving DecidableEq

/-! ## Dataset -/

/-- The class `Dataset`. -/
structure Dataset where
  x_values : List ℚ
  y_values : List ℚ
  x_label : String
  y_label : String
deriving DecidableEq

namespace Dataset

/-- The constructor `Dataset::Dataset()`. -/
def new : Dataset :=
  { x_values := [], y_values := [], x_label := "X", y_label := "Y" }

/-- The lines that successive calls `getline(file, line)` deliver from the start of a
text: the text is cut at every newline, a final newline does not start a further line,
and reading the empty text delivers nothing. -/
def fileLines : List Char → List (List Char)
  | [] => []
  | c :: cs =>
    if c = Char.ofNat 10 then [] :: fileLines cs
    else
      match fileLines cs with
      | [] => [[c]]
      | l :: ls => (c :: l) :: ls

/-- One call `getline(stream, field, ',')` on the unread characters of a string stream:
it fails when nothing is left to read, and otherwise delivers the characters before the
first comma and leaves unread what follows that comma. -/
def getField : List Char → Option (List Char × List Char)
  | [] => none
  | c :: cs =>
    some ((c :: cs).takeWhile (fun ch => ch != ','),
          ((c :: cs).dropWhile (fun ch => ch != ',')).drop 1)

/-- The condition `getline(ss, x_str, ',') && getline(ss, y_str, ',')` on one line, with
the two fields it extracts. -/
def splitRow (line : List Char) : Option (List Char × List Char) :=
  match getField line with
  | none => none
  | some (x_str, rest) =>
    match getField rest with
    | none => none
    | some (y_str, _) => some (x_str, y_str)

/-- The body of the `while (getline(file, line))` loop of `loadFromCSV` for one line. -/
def readRow (stod : List Char → Option ℚ) (d : Dataset) (line : List Char) : Dataset :=
  match splitRow line with
  | none => d
  | some (x_str, y_str) =>
    match stod x_str with
    | none => d
    | some x =>
      match stod y_str with
      | none => d
      | some y => { d with x_values := d.x_values ++ [x], y_values := d.y_values ++ [y] }

/-- The method `Dataset::loadFromCSV`.  `stod s` is `none` when `std::stod` throws on `s`. -/
def loadFromCSV (stod : List Char → Option ℚ) (file : Option String) (d : Dataset) :
    Dataset × Option Error :=
  let cleared : Dataset := { d with x_values := [], y_values := [] }
  match file with
  | none => (cleared, some Error.cannotOpenFile)
  | some text =>
    let start : Dataset × List (List Char) :=
      match fileLines text.data with
      | [] => (cleared, [])
      | line :: rest =>
        match splitRow line with
        | some (x_header, y_header) =>
          ({ cleared with x_label := String.mk x_header, y_label := String.mk y_header }, rest)
        | none => (cleared, line :: rest)
    let loaded := start.2.foldl (readRow stod) start.1
    if loaded.x_values.isEmpty then (loaded, some Error.noValidData) else (loaded, none)

/-- The method `Dataset::addDataPoint`. -/
def addDataPoint (d : Dataset) (x y : ℚ) : Dataset :=
  { d with x_values := d.x_values ++ [x], y_values := d.y_values ++ [y] }

/-- The method `Dataset::getXValues`. -/
def getXValues (d : Dataset) : List ℚ := d.x_values

/-- The method `Dataset::getYValues`. -/
def getYValues (d : Dataset) : List ℚ := d.y_values

/-- The method `Dataset::getSize`. -/
def getSize (d : Dataset) : Nat := d.x_values.length

end Dataset

/-! ## Regression models -/

/-- The fields of the base class `RegressionModel`. -/
structure RegressionModel where
  slope : Double
  intercept : Double
  mse : Double
deriving DecidableEq

namespace RegressionModel

/-- The constructor `RegressionModel::RegressionModel()`. -/
def new : RegressionModel :=
  { slope := Double.finite 0, intercept := Double.finite 0, mse := Double.finite 0 }

/-- The method `RegressionModel::predict`. -/
def predict (m : RegressionModel) (x : ℚ) : Double :=
  m.slope * Double.finite x + m.intercept

/-- The method `RegressionModel::calculateMSE`.  The loop over the indices of `x_vals`
runs over the paired samples. -/
def calculateMSE (m : RegressionModel) (dataset : Dataset) : Double :=
  let x_vals := dataset.getXValues
  let y_vals := dataset.getYValues
  if x_vals.length ≠ y_vals.length ∨ x_vals.isEmpty then Double.finite 0
  else
    let sum_squared_errors :=
      (List.zip x_vals y_vals).foldl
        (fun acc xy =>
          let prediction := m.predict xy.1
          let error := Double.finite xy.2 - prediction
          acc + error * error)
        (Double.finite 0)
    sum_squared_errors.divBy x_vals.length

/-- The method `RegressionModel::getSlope`. -/
def getSlope (m : RegressionModel) : Double := m.slope

/-- The method `RegressionModel::getIntercept`. -/
def getIntercept (m : RegressionModel) : Double := m.intercept

/-- The method `RegressionModel::getMSE`. -/
def getMSE (m : RegressionModel) : Double := m.mse

end RegressionModel

/-! ## Least squares -/

namespace LeastSquaresModel

/-- The call `accumulate(v.begin(), v.end(), 0.0)`. -/
def accumulate (v : List ℚ) : ℚ :=
  v.foldl (fun acc a => acc + a) 0

/-- The loop of `LeastSquaresModel::train` that accumulates `numerator` and
`denominator`, returned as a pair. -/
def sums (x_vals y_vals : List ℚ) (x_mean y_mean : ℚ) : ℚ × ℚ :=
  (List.zip x_vals y_vals).foldl
    (fun acc xy =>
      (acc.1 + (xy.1 - x_mean) * (xy.2 - y_mean),
       acc.2 + (xy.1 - x_mean) * (xy.1 - x_mean)))
    (0, 0)

/-- The method `LeastSquaresModel::train`. -/
def train (m : RegressionModel) (dataset : Dataset) : RegressionModel × Option Error :=
  let x_vals := dataset.getXValues
  let y_vals := dataset.getYValues
  if x_vals.isEmpty then (m, some Error.datasetEmpty)
  else
    let n : ℚ := x_vals.length
    let x_mean := accumulate x_vals / n
    let y_mean := accumulate y_vals / n
    let numerator := (sums x_vals y_vals x_mean y_mean).1
    let denominator := (sums x_vals y_vals x_mean y_mean).2
    let slope := Double.quot numerator denominator
    let intercept := Double.finite y_mean - slope * Double.finite x_mean
    let fitted : RegressionModel := { m with slope := slope, intercept := intercept }
    ({ fitted with mse := fitted.calculateMSE dataset }, none)

end LeastSquaresModel

/-! ## Gradient descent -/

/-- The class `GradientDescentModel`: the base fields and the configuration. -/
structure GradientDescentModel extends RegressionModel where
  learning_rate : ℚ
  max_iterations : ℤ
  tolerance : ℚ
deriving DecidableEq

namespace GradientDescentModel

/-- The constructor `GradientDescentModel(lr, max_iter, tol)`. -/
def new (lr : ℚ) (max_iter : ℤ) (tol : ℚ) : GradientDescentModel :=
  { RegressionModel.new with learning_rate := lr, max_iterations := max_iter, tolerance := tol }

/-- The inner loop of `GradientDescentModel::train`: `slope_gradient` and
`intercept_gradient` at the current parameters, returned as a pair. -/
def gradients (x_vals y_vals : List ℚ) (slope intercept : ℚ) : ℚ × ℚ :=
  let n : ℚ := x_vals.length
  (List.zip x_vals y_vals).foldl
    (fun g xy =>
      let prediction := slope * xy.1 + intercept
      let error := prediction - xy.2
      (g.1 + (2 / n) * error * xy.1, g.2 + (2 / n) * error))
    (0, 0)

/-- The proposed update `(new_slope, new_intercept)` of one iteration. -/
def proposal (x_vals y_vals : List ℚ) (learning_rate : ℚ) (p : ℚ × ℚ) : ℚ × ℚ :=
  let g := gradients x_vals y_vals p.1 p.2
  (p.1 - learning_rate * g.1, p.2 - learning_rate * g.2)

/-- The outer loop `for (iter = 0; iter < max_iterations; ++iter)` with `remaining`
iterations left, started at the parameters `p = (slope, intercept)`; `break` returns the
current parameters. -/
def iterate (x_vals y_vals : List ℚ) (learning_rate tolerance : ℚ) : Nat → ℚ × ℚ → ℚ × ℚ
  | 0, p => p
  | remaining + 1, p =>
    let q := proposal x_vals y_vals learning_rate p
    if |q.1 - p.1| < tolerance ∧ |q.2 - p.2| < tolerance then p
    else iterate x_vals y_vals learning_rate tolerance remaining q

/-- The method `GradientDescentModel::train`.  The loop runs `max_iterations` times at
most, and not at all when `max_iterations` is zero or negative. -/
def train (m : GradientDescentModel) (dataset : Dataset) : GradientDescentModel × Option Error :=
  let x_vals := dataset.getXValues
  let y_vals := dataset.getYValues
  if x_vals.isEmpty then (m, some Error.datasetEmpty)
  else
    let p := iterate x_vals y_vals m.learning_rate m.tolerance m.max_iterations.toNat (0, 0)
    let fitted : RegressionModel :=
      { m.toRegressionModel with slope := Double.finite p.1, intercept := Double.finite p.2 }
    ({ m with toRegressionModel := { fitted with mse := fitted.calculateMSE dataset } }, none)

end GradientDescentModel

/-! ## The strategy held by a session -/

/-- What a `unique_ptr<RegressionModel>` that is not null points to: an object of one of
the two derived classes (`LeastSquaresModel` adds no field to its base). -/
inductive Strategy where
  | gradientDescent (m : GradientDescentModel)
  | leastSquares (m : RegressionModel)
deriving DecidableEq

namespace Strategy

/-- The base-class fields of the object. -/
def base : Strategy → RegressionModel
  | gradientDescent m => m.toRegressionModel
  | leastSquares m => m

/-- The virtual call `model->train(dataset)`. -/
def train : Strategy → Dataset → Strategy × Option Error
  | gradientDescent m, dataset =>
    (gradientDescent (GradientDescentModel.train m dataset).1,
     (GradientDescentModel.train m dataset).2)
  | leastSquares m, dataset =>
    (leastSquares (LeastSquaresModel.train m dataset).1,
     (LeastSquaresModel.train m dataset).2)

/-- The call `model->predict(x)`. -/
def predict (s : Strategy) (x : ℚ) : Double := s.base.predict x

/-- The call `model->getSlope()`. -/
def getSlope (s : Strategy) : Double := s.base.getSlope

/-- The call `model->getIntercept()`. -/
def getIntercept (s : Strategy) : Double := s.base.getIntercept

/-- The call `model->getMSE()`. -/
def getMSE (s : Strategy) : Double := s.base.getMSE

end Strategy

/-! ## The session -/

/-- The class `LinearRegression`; `model = none` is the null pointer. -/
structure LinearRegression where
  model : Option Strategy
  dataset : Dataset
  is_trained : Bool
deriving DecidableEq

namespace LinearRegression

/-- The constructor `LinearRegression::LinearRegression()`. -/
def new : LinearRegression :=
  { model := none, dataset := Dataset.new, is_trained := false }

/-- The method `LinearRegression::loadData`: when `loadFromCSV` throws, the assignment
`is_trained = false` is not reached. -/
def loadData (stod : List Char → Option ℚ) (file : Option String) (s : LinearRegression) :
    LinearRegression × Option Error :=
  match s.dataset.loadFromCSV stod file with
  | (d, some e) => ({ s with dataset := d }, some e)
  | (d, none) => ({ s with dataset := d, is_trained := false }, none)

/-- The method `LinearRegression::addDataPoint`. -/
def addDataPoint (s : LinearRegression) (x y : ℚ) : LinearRegression :=
  { s with dataset := s.dataset.addDataPoint x y, is_trained := false }

/-- The method `LinearRegression::useGradientDescent`. -/
def useGradientDescent (s : LinearRegression) (lr : ℚ) (max_iter : ℤ) (tol : ℚ) :
    LinearRegression :=
  { s with
    model := some (Strategy.gradientDescent (GradientDescentModel.new lr max_iter tol)),
    is_trained := false }

/-- The method `LinearRegression::useLeastSquares`. -/
def useLeastSquares (s : LinearRegression) : LinearRegression :=
  { s with model := some (Strategy.leastSquares RegressionModel.new), is_trained := false }

/-- The method `LinearRegression::trainModel`. -/
def trainModel (s : LinearRegression) : LinearRegression × Option Error :=
  match s.model with
  | none => (s, some Error.noModelSelected)
  | some m =>
    if s.dataset.getSize < 2 then (s, some Error.insufficientData)
    else
      match m.train s.dataset with
      | (m1, some e) => ({ s with model := some m1 }, some e)
      | (m1, none) => ({ s with model := some m1, is_trained := true }, none)

/-- The method `LinearRegression::predict`, which is `const`: it returns a value or
throws, and has no state to return.  The guard `!is_trained || !model` throws when the
pointer is null or the flag is false. -/
def predict (s : LinearRegression) (x : ℚ) : Except Error Double :=
  match s.model with
  | none => Except.error Error.modelNotTrained
  | some m =>
    if !s.is_trained then Except.error Error.modelNotTrained
    else Except.ok (m.predict x)

/-- The method `LinearRegression::isModelTrained`. -/
def isModelTrained (s : LinearRegression) : Bool := s.is_trained

end LinearRegression

/-- One call of a mutating method of a session by its owner. -/
inductive Call where
  | loadData (file : Option String)
  | addDataPoint (x y : ℚ)
  | useLeastSquares
  | useGradientDescent (lr : ℚ) (max_iter : ℤ) (tol : ℚ)
  | trainModel

namespace Call

/-- The state after the call and the error it threw, if any. -/
def run (stod : List Char → Option ℚ) : Call → LinearRegression → LinearRegression × Option Error
  | loadData file, s => s.loadData stod file
  | addDataPoint x y, s => (s.addDataPoint x y, none)
  | useLeastSquares, s => (s.useLeastSquares, none)
  | useGradientDescent lr max_iter tol, s => (s.useGradientDescent lr max_iter tol, none)
  | trainModel, s => s.trainModel

/-- Whether the call is a `trainModel` that returns normally in the state `s`. -/
def trainsIn (c : Call) (s : LinearRegression) : Bool :=
  match c with
  | trainModel => s.trainModel.2.isNone
  | _ => false

end Call

/-- The state after a sequence of calls, the owner catching every exception and going on. -/
def runCalls (stod : List Char → Option ℚ) : List Call → LinearRegression → LinearRegression
  | [], s => s
  | c :: cs, s => runCalls stod cs (c.run stod s).1

/-- Whether no call of the sequence, started in the state `s`, is a `trainModel` that
returns normally. -/
def noneTrains (stod : List Char → Option ℚ) : List Call → LinearRegression → Bool
  | [], _ => true
  | c :: cs, s => !c.trainsIn s && noneTrains stod cs (c.run stod s).1

/-- Whether no call of the sequence, started in the state `s`, is a `loadData` that
throws. -/
def noLoadFails (stod : List Char → Option ℚ) : List Call → LinearRegression → Bool
  | [], _ => true
  | Call.loadData file :: cs, s =>
    (s.loadData stod file).2.isNone && noLoadFails stod cs (s.loadData stod file).1
  | c :: cs, s => noLoadFails stod cs (c.run stod s).1

/-! ## The guard of `predict` and `displayResults` -/

namespace LinearRegression

/-- The condition `!is_trained || !model` that `predict` and `displayResults` test before
they use the strategy. -/
def notTrainedGuard (s : LinearRegression) : Bool :=
  !s.is_trained || s.model.isNone

/-- The method `LinearRegression::displayResults`, which is `const`: behind the guard it
calls `model->displayResults()`, which prints the equation, the slope, the intercept and
the mse of the strategy; the fields printed are returned. -/
def displayResults (s : LinearRegression) : Except Error RegressionModel :=
  if s.notTrainedGuard then Except.error Error.modelNotTrained
  else
    match s.model with
    | some m => Except.ok m.base
    | none => Except.error Error.modelNotTrained

end LinearRegression

/-! ## IEEE-754 binary64 arithmetic

The values of type `double`.  The operations of this section have their IEEE-754 meaning
in the default rounding mode: every operation returns the exact result rounded to the
nearest binary64 value, ties to the value with an even significand; results at or beyond
`2^1024` in magnitude overflow to an infinity, results below the normal range are rounded
to a multiple of `2^-1074`; every operation is rounded on its own (no fused
multiply-add).  The two zeros are identified: no division of the program has a divisor
that can be the negative zero. -/

/-- An IEEE-754 binary64 value: a finite value, an infinity or NaN. -/
inductive Binary64 where
  | fin (q : ℚ)
  | pinf
  | ninf
  | nan
deriving DecidableEq

namespace Binary64

/-- The power `2^e` for an integer exponent. -/
def pow2 (e : ℤ) : ℚ :=
  if 0 ≤ e then ((2 ^ e.toNat : ℕ) : ℚ) else 1 / ((2 ^ (-e).toNat : ℕ) : ℚ)

/-- A number `b` of halving steps that suffices for `n`: `n < 2^(2^b)`. -/
def log2Levels : ℕ → ℕ → ℕ → ℕ
  | 0, b, _ => b
  | fuel + 1, b, n => if n < 2 ^ (2 ^ b) then b else log2Levels fuel (b + 1) n

/-- The exponent `k` with `2^k ≤ n < 2^(k+1)` of a number `n < 2^(2^b)`, found by
bisection of the exponent (0 for `n = 0`). -/
def log2Bisect : ℕ → ℕ → ℕ
  | 0, _ => 0
  | b + 1, n =>
    if n < 2 ^ (2 ^ b) then log2Bisect b n
    else 2 ^ b + log2Bisect b (n / 2 ^ (2 ^ b))

/-- The exponent `k` with `2^k ≤ n < 2^(k+1)`, for a positive natural number `n`. -/
def log2 (n : ℕ) : ℕ :=
  log2Bisect (log2Levels n 0 n) n

/-- The exponent `e` with `2^e ≤ n / d < 2^(e+1)`, for positive natural numbers `n` and
`d`. -/
def exponent (n d : ℕ) : ℤ :=
  let e0 : ℤ := (log2 n : ℤ) - (log2 d : ℤ)
  if n * 2 ^ (-e0).toNat < d * 2 ^ e0.toNat then e0 - 1 else e0

/-- The integer nearest to `n / d`, ties to the even integer, for `d` positive. -/
def roundHalfEven (n d : ℕ) : ℕ :=
  if 2 * (n % d) < d then n / d
  else if d < 2 * (n % d) then n / d + 1
  else if (n / d) % 2 = 0 then n / d
  else n / d + 1

/-- The significand of the binary64 value nearest to `n / d`, for positive `n` and `d`
and the exponent `t` of the unit in the last place: the integer nearest to
`(n / d) / 2^t`, ties to even. -/
def significand (n d : ℕ) (t : ℤ) : ℕ :=
  roundHalfEven (n * 2 ^ (-t).toNat) (d * 2 ^ t.toNat)

/-- The exponent of the unit in the last place of the binary64 values between `2^e` and
`2^(e+1)`: `e - 52` in the normal range, `-1074` below it. -/
def ulpExponent (e : ℤ) : ℤ :=
  max e (-1022) - 52

/-- The binary64 value that the exact result `q` of an operation is rounded to: the
nearest multiple of the unit in the last place, ties to the even significand, and an
infinity when that multiple reaches `2^1024`. -/
def nearest (q : ℚ) : Binary64 :=
  if q.num = 0 then fin 0
  else
    let t : ℤ := ulpExponent (exponent q.num.natAbs q.den)
    let m : ℕ := significand q.num.natAbs q.den t
    if 2 ^ 1024 ≤ m * 2 ^ t.toNat then (if 0 < q.num then pinf else ninf)
    else fin (if 0 < q.num then (m : ℚ) * pow2 t else -((m : ℚ) * pow2 t))

/-- Negation. -/
def neg : Binary64 → Binary64
  | fin a => fin (-a)
  | pinf => ninf
  | ninf => pinf
  | nan => nan

/-- Addition: `inf + (-inf)` is NaN. -/
def add : Binary64 → Binary64 → Binary64
  | fin a, fin b => nearest (a + b)
  | nan, _ => nan
  | _, nan => nan
  | pinf, ninf => nan
  | ninf, pinf => nan
  | pinf, _ => pinf
  | _, pinf => pinf
  | ninf, _ => ninf
  | _, ninf => ninf

/-- Subtraction. -/
def sub (x y : Binary64) : Binary64 :=
  add x (neg y)

/-- The infinity of the sign of `s`, or NaN when `s` is 0: the product of an infinity of
positive sign with a finite value `s`. -/
def infOfSign (s : ℚ) : Binary64 :=
  if 0 < s then pinf else if s < 0 then ninf else nan

/-- Multiplication: `inf * 0` is NaN. -/
def mul : Binary64 → Binary64 → Binary64
  | fin a, fin b => nearest (a * b)
  | nan, _ => nan
  | _, nan => nan
  | pinf, fin b => infOfSign b
  | fin a, pinf => infOfSign a
  | ninf, fin b => infOfSign (-b)
  | fin a, ninf => infOfSign (-a)
  | pinf, pinf => pinf
  | ninf, ninf => pinf
  | pinf, ninf => ninf
  | ninf, pinf => ninf

/-- Division, the divisor never being the negative zero: `x / 0` is an infinity of the sign
of `x`, and `0 / 0` and `inf / inf` are NaN. -/
def div : Binary64 → Binary64 → Binary64
  | fin a, fin b => if b = 0 then infOfSign a else nearest (a / b)
  | nan, _ => nan
  | _, nan => nan
  | fin _, pinf => fin 0
  | fin _, ninf => fin 0
  | pinf, fin b => if 0 ≤ b then pinf else ninf
  | ninf, fin b => if 0 ≤ b then ninf else pinf
  | pinf, pinf => nan
  | pinf, ninf => nan
  | ninf, pinf => nan
  | ninf, ninf => nan

instance : Add Binary64 := ⟨add⟩
instance : Sub Binary64 := ⟨sub⟩
instance : Mul Binary64 := ⟨mul⟩
instance : Div Binary64 := ⟨div⟩

/-- The function `abs` on doubles. -/
def abs : Binary64 → Binary64
  | fin a => fin |a|
  | pinf => pinf
  | ninf => pinf
  | nan => nan

/-- The comparison `x < y`, false when an operand is NaN. -/
def lt : Binary64 → Binary64 → Bool
  | fin a, fin b => decide (a < b)
  | nan, _ => false
  | _, nan => false
  | _, ninf => false
  | pinf, _ => false
  | ninf, _ => true
  | fin _, pinf => true

/-- The conversion of an `int` or a `size_t` to `double`. -/
def ofNat (n : ℕ) : Binary64 :=
  nearest (n : ℚ)

/-- Whether the rational is a binary64 value. -/
def isBinary64 (q : ℚ) : Bool :=
  decide (nearest q = fin q)

end Binary64

/-! ## The library function `std::stod`

`std::stod` is not code of this repository.  The definitions of `Dataset` take it as a
parameter; the model below, after the C++ standard (`std::stod` calls `strtod`, throws
`invalid_argument` when no conversion can be performed and `out_of_range` when `strtod`
reports a range error), is used where a theorem evaluates the program on a concrete text.
It covers decimal notation, with the range errors of the GNU C library; hexadecimal
notation, `inf` and `nan` are not modelled. -/

/-- White space as `isspace` classifies it in the "C" locale. -/
def isSpace (c : Char) : Bool :=
  c.toNat == 32 || (9 ≤ c.toNat && c.toNat ≤ 13)

/-- The number a sequence of decimal digits denotes. -/
def digitsValue (ds : List Char) : ℕ :=
  ds.foldl (fun acc c => 10 * acc + (c.toNat - 48)) 0

/-- The exponent part at the start of `s`, if there is one: `e` or `E`, an optional sign
and at least one digit.  Returns the exponent and the characters after it; without an
exponent part nothing is consumed. -/
def exponentPart (s : List Char) : ℤ × List Char :=
  match s with
  | [] => (0, s)
  | c :: t =>
    if c = 'e' ∨ c = 'E' then
      let signed : Bool × List Char :=
        match t with
        | '-' :: u => (true, u)
        | '+' :: u => (false, u)
        | _ => (false, t)
      let expDigits := signed.2.takeWhile Char.isDigit
      if expDigits.isEmpty then (0, s)
      else
        ((if signed.1 then -(digitsValue expDigits : ℤ) else (digitsValue expDigits : ℤ)),
         signed.2.dropWhile Char.isDigit)
    else (0, s)

/-- The text that `strtod` converts, on decimal notation: leading white space is skipped,
then an optional sign, digits with an optional decimal point (at least one digit) and an
optional exponent part are converted; the result is the exact value of that text and the
characters that follow the longest such prefix, or `none` when no conversion can be
performed. -/
def strtod (s : List Char) : Option (ℚ × List Char) :=
  let s1 := s.dropWhile isSpace
  let signed : Bool × List Char :=
    match s1 with
    | '-' :: t => (true, t)
    | '+' :: t => (false, t)
    | _ => (false, s1)
  let intDigits := signed.2.takeWhile Char.isDigit
  let s3 := signed.2.dropWhile Char.isDigit
  let fraction : List Char × List Char :=
    match s3 with
    | '.' :: t => (t.takeWhile Char.isDigit, t.dropWhile Char.isDigit)
    | _ => ([], s3)
  if intDigits.isEmpty && fraction.1.isEmpty then none
  else
    let mantissa : ℚ :=
      (digitsValue (intDigits ++ fraction.1) : ℚ) / ((10 ^ fraction.1.length : ℕ) : ℚ)
    let exponent := exponentPart fraction.2
    let magnitude : ℚ :=
      if 0 ≤ exponent.1 then mantissa * ((10 ^ exponent.1.toNat : ℕ) : ℚ)
      else mantissa / ((10 ^ (-exponent.1).toNat : ℕ) : ℚ)
    some (if signed.1 then -magnitude else magnitude, exponent.2)

/-- Whether the exact value `v`, not 0, is tiny: rounded to 53 significant bits, with no
bound on the exponent, its magnitude is below the least normal binary64 value `2^-1022`. -/
def tiny (v : ℚ) : Bool :=
  decide
    ((Binary64.significand v.num.natAbs v.den (Binary64.exponent v.num.natAbs v.den - 52) : ℚ)
        * Binary64.pow2 (Binary64.exponent v.num.natAbs v.den - 52)
      < Binary64.pow2 (-1022))

/-- The range error (`ERANGE`) of `strtod` at the exact value `v` of the converted text:
the binary64 value nearest to `v` is an infinity (overflow), or `v` is not 0, is tiny and
is not a binary64 value (underflow). -/
def rangeError (v : ℚ) : Bool :=
  match Binary64.nearest v with
  | Binary64.fin r => decide (v ≠ 0) && tiny v && decide (r ≠ v)
  | _ => true

/-- The function `std::stod(str)` on decimal notation: the binary64 value nearest to the
value of the prefix of `str` that `strtod` converts, or `none` when it throws:
`invalid_argument` when `strtod` converts nothing, `out_of_range` on a range error. -/
def stod (str : List Char) : Option ℚ :=
  match strtod str with
  | none => none
  | some (v, _) =>
    if rangeError v then none
    else
      match Binary64.nearest v with
      | Binary64.fin r => some r
      | _ => none

/-! ## Calls with default arguments -/

namespace GradientDescentModel

/-- The constructor `GradientDescentModel(double lr = 0.01, int max_iter = 1000,
double tol = 1e-6)` called with some or all of its arguments left out; the decimal
literals are read at their decimal value. -/
def newWith (lr : Option ℚ) (max_iter : Option ℤ) (tol : Option ℚ) : GradientDescentModel :=
  GradientDescentModel.new (lr.getD (1 / 100)) (max_iter.getD 1000) (tol.getD (1 / 1000000))

end GradientDescentModel

namespace LinearRegression

/-- The method `useGradientDescent(double lr = 0.01, int max_iter = 1000,
double tol = 1e-6)` called with some or all of its arguments left out. -/
def useGradientDescentWith (s : LinearRegression) (lr : Option ℚ) (max_iter : Option ℤ)
    (tol : Option ℚ) : LinearRegression :=
  s.useGradientDescent (lr.getD (1 / 100)) (max_iter.getD 1000) (tol.getD (1 / 1000000))

end LinearRegression

/-! ## Sequences of calls on a dataset -/

/-- One call of a mutating method of a `Dataset` by its owner. -/
inductive DatasetCall where
  | loadFromCSV (file : Option String)
  | addDataPoint (x y : ℚ)

/-- The dataset after the call (an exception of `loadFromCSV` being caught). -/
def DatasetCall.run (stod : List Char → Option ℚ) : DatasetCall → Dataset → Dataset
  | DatasetCall.loadFromCSV file, d => (d.loadFromCSV stod file).1
  | DatasetCall.addDataPoint x y, d => d.addDataPoint x y

/-- The dataset after a sequence of calls. -/
def runDatasetCalls (stod : List Char → Option ℚ) : List DatasetCall → Dataset → Dataset
  | [], d => d
  | c :: cs, d => runDatasetCalls stod cs (c.run stod d)

/-! ## The rows of a text -/

namespace Dataset

/-- The sample that the loop body of `loadFromCSV` appends for a line, if it appends one:
the line must deliver two fields and `stod` must convert both. -/
def parseRow (stod : List Char → Option ℚ) (line : List Char) : Option (ℚ × ℚ) :=
  match splitRow line with
  | none => none
  | some (x_str, y_str) =>
    match stod x_str with
    | none => none
    | some x =>
      match stod y_str with
      | none => none
      | some y => some (x, y)

/-- The two fields of the first line when `loadFromCSV` takes that line as a header. -/
def headerOf (text : List Char) : Option (List Char × List Char) :=
  match fileLines text with
  | [] => none
  | line :: _ => splitRow line

/-- The lines that the `while` loop of `loadFromCSV` reads: all lines but a header. -/
def dataLines (text : List Char) : List (List Char) :=
  match fileLines text with
  | [] => []
  | line :: rest =>
    match splitRow line with
    | some _ => rest
    | none => line :: rest

end Dataset

/-! ## Scenarios of the specification -/

/-- Scenario A of the specification. -/
def scenarioA : Dataset :=
  { x_values := [1, 2, 3, 4, 5], y_values := [45, 55, 65, 75, 85], x_label := "X", y_label := "Y" }

/-- Scenario C of the specification: the gradient-descent strategy as configured there. -/
def scenarioC : GradientDescentModel :=
  GradientDescentModel.new (1 / 100) 1000 (1 / 1000000)

/-- A session on which `trainModel` has succeeded: least squares on the two samples
`(1, 1)` and `(2, 2)`. -/
def trainedSession : LinearRegression :=
  (((LinearRegression.new.useLeastSquares).addDataPoint 1 1).addDataPoint 2 2).trainModel.1

/-- Scenario D of the specification continued by a failing ingestion: a session is
trained on two samples, and then `loadData` is called on a file that cannot be opened. -/
def failedLoadCalls : List Call :=
  [Call.useLeastSquares, Call.addDataPoint 1 1, Call.addDataPoint 2 2, Call.trainModel,
   Call.loadData none]

/-- A dataset of two samples on the line `y = x` with large x-values. -/
def divergentData : Dataset :=
  { x_values := [1000, -1000], y_values := [1000, -1000], x_label := "X", y_label := "Y" }

/-- A dataset of three samples that all have the same x-value. -/
def verticalData : Dataset :=
  { x_values := [2, 2, 2], y_values := [1, 3, 5], x_label := "X", y_label := "Y" }

/-! ## The fitting strategies in binary64 arithmetic

The methods of `RegressionModel`, `LeastSquaresModel` and `GradientDescentModel` once
more, operation by operation as above, each operation now with its binary64 meaning.  The
samples of a dataset are binary64 values, given by their rational value. -/

namespace IEEE

/-- The fields of the base class `RegressionModel`, as binary64 values. -/
structure RegressionModel where
  slope : Binary64
  intercept : Binary64
  mse : Binary64
deriving DecidableEq

namespace RegressionModel

/-- The constructor `RegressionModel::RegressionModel()`. -/
def new : RegressionModel :=
  { slope := Binary64.fin 0, intercept := Binary64.fin 0, mse := Binary64.fin 0 }

/-- The method `RegressionModel::predict`. -/
def predict (m : RegressionModel) (x : Binary64) : Binary64 :=
  m.slope * x + m.intercept

/-- The method `RegressionModel::calculateMSE`. -/
def calculateMSE (m : RegressionModel) (dataset : Dataset) : Binary64 :=
  let x_vals := dataset.getXValues
  let y_vals := dataset.getYValues
  if x_vals.length ≠ y_vals.length ∨ x_vals.isEmpty then Binary64.fin 0
  else
    let sum_squared_errors :=
      (List.zip x_vals y_vals).foldl
        (fun acc xy =>
          let prediction := m.predict (Binary64.fin xy.1)
          let error := Binary64.fin xy.2 - prediction
          acc + error * error)
        (Binary64.fin 0)
    sum_squared_errors / Binary64.ofNat x_vals.length

end RegressionModel

namespace LeastSquaresModel

/-- The call `accumulate(v.begin(), v.end(), 0.0)`. -/
def accumulate (v : List ℚ) : Binary64 :=
  v.foldl (fun acc a => acc + Binary64.fin a) (Binary64.fin 0)

/-- The loop of `LeastSquaresModel::train` that accumulates `numerator` and
`denominator`, returned as a pair. -/
def sums (x_vals y_vals : List ℚ) (x_mean y_mean : Binary64) : Binary64 × Binary64 :=
  (List.zip x_vals y_vals).foldl
    (fun acc xy =>
      (acc.1 + (Binary64.fin xy.1 - x_mean) * (Binary64.fin xy.2 - y_mean),
       acc.2 + (Binary64.fin xy.1 - x_mean) * (Binary64.fin xy.1 - x_mean)))
    (Binary64.fin 0, Binary64.fin 0)

/-- The method `LeastSquaresModel::train`. -/
def train (m : RegressionModel) (dataset : Dataset) : RegressionModel × Option Error :=
  let x_vals := dataset.getXValues
  let y_vals := dataset.getYValues
  if x_vals.isEmpty then (m, some Error.datasetEmpty)
  else
    let n := Binary64.ofNat x_vals.length
    let x_mean := accumulate x_vals / n
    let y_mean := accumulate y_vals / n
    let numerator := (sums x_vals y_vals x_mean y_mean).1
    let denominator := (sums x_vals y_vals x_mean y_mean).2
    let slope := numerator / denominator
    let intercept := y_mean - slope * x_mean
    let fitted : RegressionModel := { m with slope := slope, intercept := intercept }
    ({ fitted with mse := fitted.calculateMSE dataset }, none)

end LeastSquaresModel

/-- The class `GradientDescentModel`: the base fields and the configuration. -/
structure GradientDescentModel extends RegressionModel where
  learning_rate : Binary64
  max_iterations : ℤ
  tolerance : Binary64
deriving DecidableEq

namespace GradientDescentModel

/-- The constructor `GradientDescentModel(lr, max_iter, tol)`. -/
def new (lr : Binary64) (max_iter : ℤ) (tol : Binary64) : GradientDescentModel :=
  { RegressionModel.new with learning_rate := lr, max_iterations := max_iter, tolerance := tol }

/-- The inner loop of `GradientDescentModel::train`: `slope_gradient` and
`intercept_gradient` at the current parameters, returned as a pair. -/
def gradients (x_vals y_vals : List ℚ) (slope intercept : Binary64) : Binary64 × Binary64 :=
  let n := Binary64.ofNat x_vals.length
  (List.zip x_vals y_vals).foldl
    (fun g xy =>
      let prediction := slope * Binary64.fin xy.1 + intercept
      let error := prediction - Binary64.fin xy.2
      (g.1 + (Binary64.fin 2 / n) * error * Binary64.fin xy.1,
       g.2 + (Binary64.fin 2 / n) * error))
    (Binary64.fin 0, Binary64.fin 0)

/-- The proposed update `(new_slope, new_intercept)` of one iteration. -/
def proposal (x_vals y_vals : List ℚ) (learning_rate : Binary64) (p : Binary64 × Binary64) :
    Binary64 × Binary64 :=
  let g := gradients x_vals y_vals p.1 p.2
  (p.1 - learning_rate * g.1, p.2 - learning_rate * g.2)

/-- The convergence test of one iteration at the parameters `p`:
`abs(new_slope - slope) < tolerance && abs(new_intercept - intercept) < tolerance`. -/
def converged (x_vals y_vals : List ℚ) (learning_rate tolerance : Binary64)
    (p : Binary64 × Binary64) : Bool :=
  Binary64.lt (Binary64.abs ((proposal x_vals y_vals learning_rate p).1 - p.1)) tolerance &&
    Binary64.lt (Binary64.abs ((proposal x_vals y_vals learning_rate p).2 - p.2)) tolerance

/-- The outer loop `for (iter = 0; iter < max_iterations; ++iter)` with `remaining`
iterations left, started at the parameters `p = (slope, intercept)`; `break` returns the
current parameters. -/
def iterate (x_vals y_vals : List ℚ) (learning_rate tolerance : Binary64) :
    Nat → Binary64 × Binary64 → Binary64 × Binary64
  | 0, p => p
  | remaining + 1, p =>
    if converged x_vals y_vals learning_rate tolerance p then p
    else iterate x_vals y_vals learning_rate tolerance remaining
      (proposal x_vals y_vals learning_rate p)

/-- The method `GradientDescentModel::train`. -/
def train (m : GradientDescentModel) (dataset : Dataset) : GradientDescentModel × Option Error :=
  let x_vals := dataset.getXValues
  let y_vals := dataset.getYValues
  if x_vals.isEmpty then (m, some Error.datasetEmpty)
  else
    let p := iterate x_vals y_vals m.learning_rate m.tolerance m.max_iterations.toNat
      (Binary64.fin 0, Binary64.fin 0)
    let fitted : RegressionModel :=
      { m.toRegressionModel with slope := p.1, intercept := p.2 }
    ({ m with toRegressionModel := { fitted with mse := fitted.calculateMSE dataset } }, none)

end GradientDescentModel

end IEEE

/-! ## Datasets on which rounding shows -/

/-- Three samples on the line `y = x - 1`, all binary64 values. -/
def roundedData : Dataset :=
  { x_values := [1, 2, 4], y_values := [0, 1, 3], x_label := "X", y_label := "Y" }

/-- Two samples whose x-values `2^-600` and `2^-599` differ, both binary64 values. -/
def underflowData : Dataset :=
  { x_values := [Binary64.pow2 (-600), Binary64.pow2 (-599)], y_values := [1, 2],
    x_label := "X", y_label := "Y" }

/-- The binary64 value of the literal `0.1`. -/
def oneTenth : ℚ :=
  3602879701896397 / 36028797018963968

/-- Three samples that all have the x-value `0.1`. -/
def tenthsData : Dataset :=
  { x_values := [oneTenth, oneTenth, oneTenth], y_values := [1, 2, 3],
    x_label := "X", y_label := "Y" }

/-! ## Quantities of the specification

The definitions of this section follow the words of the specification, not the code; the
theorems compare the code with them. -/

/-- The samples `(x_i, y_i)` of a dataset. -/
def Dataset.samples (d : Dataset) : List (ℚ × ℚ) :=
  List.zip d.x_values d.y_values

/-- The arithmetic mean of a sequence. -/
def mean (v : List ℚ) : ℚ :=
  v.sum / v.length

/-- The sum `sum_i (x_i - xmean) * (y_i - ymean)` over the samples. -/
def sumCrossDeviations (d : Dataset) : ℚ :=
  (d.samples.map (fun xy => (xy.1 - mean d.x_values) * (xy.2 - mean d.y_values))).sum

/-- The sum `sum_i (x_i - xmean)^2` over the samples. -/
def sumSquaredDeviations (d : Dataset) : ℚ :=
  (d.samples.map (fun xy => (xy.1 - mean d.x_values) ^ 2)).sum

/-- The sum of squared residuals `sum_i (y_i - (m * x_i + b))^2` of the line `(m, b)`. -/
def sumSquaredResiduals (d : Dataset) (m b : ℚ) : ℚ :=
  (d.samples.map (fun xy => (xy.2 - (m * xy.1 + b)) ^ 2)).sum

/-- The update step of gradient descent in the words of the specification: from `(s, b)`
to `(s - lr * (2/n) * sum_i (s * x_i + b - y_i) * x_i, b - lr * (2/n) * sum_i (s * x_i + b - y_i))`,
where `n` is the number of samples. -/
def gradientStep (d : Dataset) (lr : ℚ) (p : ℚ × ℚ) : ℚ × ℚ :=
  (p.1 - lr * (2 / (d.getSize : ℚ))
      * (d.samples.map (fun xy => (p.1 * xy.1 + p.2 - xy.2) * xy.1)).sum,
   p.2 - lr * (2 / (d.getSize : ℚ))
      * (d.samples.map (fun xy => p.1 * xy.1 + p.2 - xy.2)).sum)

/-- The step changes both the slope and the intercept of `p` by less than `tol` in
absolute value. -/
def belowTolerance (d : Dataset) (lr tol : ℚ) (p : ℚ × ℚ) : Prop :=
  |(gradientStep d lr p).1 - p.1| < tol ∧ |(gradientStep d lr p).2 - p.2| < tol

instance (d : Dataset) (lr tol : ℚ) (p : ℚ × ℚ) : Decidable (belowTolerance d lr tol p) := by
  unfold belowTolerance
  infer_instance

/-- The comma-separated fields of a line: the line is cut at every comma. -/
def commaFields : List Char → List (List Char)
  | [] => [[]]
  | c :: cs =>
    if c = ',' then [] :: commaFields cs
    else
      match commaFields cs with
      | [] => [[c]]
      | f :: fs => (c :: f) :: fs

/-- A numeric field: the whole field is one number in decimal notation. -/
def isNumericField (field : List Char) : Bool :=
  match strtod field with
  | some (_, []) => true
  | _ => false

/-- A line that consists of exactly two comma-separated numeric fields. -/
def isTwoNumericFields (line : List Char) : Bool :=
  match commaFields line with
  | [a, b] => isNumericField a && isNumericField b
  | _ => false

/-- The sample of a line in the words of the specification: the pair of its two numbers,
as values of type `double`, when the line consists of exactly two comma-separated numeric
fields (and both numbers have such a value), and none otherwise. -/
def strictRow (line : List Char) : Option (ℚ × ℚ) :=
  match commaFields line with
  | [a, b] =>
    if isNumericField a && isNumericField b then
      match stod a, stod b with
      | some x, some y => some (x, y)
      | _, _ => none
    else none
  | _ => none

/-! ## Binary64 arithmetic: landmarks of rounding and of `std::stod` -/

/-- The exponent function on the numbers 1 to 300 and at powers of two. -/
theorem log2_landmarks :
    (List.range 300).all (fun n =>
      decide (2 ^ Binary64.log2 (n + 1) ≤ n + 1 ∧ n + 1 < 2 ^ (Binary64.log2 (n + 1) + 1)))
      = true ∧
    Binary64.log2 (2 ^ 64 - 1) = 63 ∧ Binary64.log2 (2 ^ 64) = 64 ∧
    Binary64.log2 (2 ^ 1024 - 1) = 1023 ∧ Binary64.log2 (2 ^ 5000 + 1) = 5000 := by
  decide!

/-- Rounding at the literal 0.1, at a tie, at the largest finite value, at the overflow
threshold and below the normal range. -/
theorem nearest_landmarks :
    Binary64.nearest (1 / 10) = Binary64.fin oneTenth ∧
    Binary64.nearest (7 / 3) = Binary64.fin (5254199565265579 / 2251799813685248) ∧
    Binary64.nearest (-(1 / 3)) = Binary64.fin (-(6004799503160661 / 18014398509481984)) ∧
    Binary64.nearest (Binary64.pow2 53 + 1) = Binary64.fin (Binary64.pow2 53) ∧
    Binary64.nearest (Binary64.pow2 53 + 3) = Binary64.fin (Binary64.pow2 53 + 4) ∧
    Binary64.nearest (Binary64.pow2 1024 - Binary64.pow2 971)
      = Binary64.fin (Binary64.pow2 1024 - Binary64.pow2 971) ∧
    Binary64.nearest (Binary64.pow2 1024 - Binary64.pow2 970 - 1)
      = Binary64.fin (Binary64.pow2 1024 - Binary64.pow2 971) ∧
    Binary64.nearest (Binary64.pow2 1024 - Binary64.pow2 970) = Binary64.pinf ∧
    Binary64.nearest (-(Binary64.pow2 1024)) = Binary64.ninf ∧
    Binary64.nearest (Binary64.pow2 (-1074)) = Binary64.fin (Binary64.pow2 (-1074)) ∧
    Binary64.nearest (3 * Binary64.pow2 (-1075)) = Binary64.fin (2 * Binary64.pow2 (-1074)) ∧
    Binary64.nearest (Binary64.pow2 (-1075)) = Binary64.fin 0 := by
  decide!

/-- The conversions of `std::stod` at and beyond the limits of the range of `double`. -/
theorem stod_landmarks :
    stod "0.1".data = some oneTenth ∧
    stod " -2.5e1x".data = some (-25) ∧
    stod "abc".data = none ∧
    stod "1.7976931348623157e308".data
      = some (Binary64.pow2 1024 - Binary64.pow2 971) ∧
    stod "1.7976931348623159e308".data = none ∧
    stod "1e999".data = none ∧
    stod "-1e999".data = none ∧
    stod "2.2250738585072014e-308".data = some (Binary64.pow2 (-1022)) ∧
    stod "2.2250738585072013e-308".data = some (Binary64.pow2 (-1022)) ∧
    stod "2.2250738585072011e-308".data = none ∧
    stod "1e-310".data = none ∧
    stod "1e-999".data = none ∧
    stod "0e-999".data = some 0 ∧
    rangeError (Binary64.pow2 (-1074)) = false ∧
    rangeError (Binary64.pow2 (-1075)) = true := by
  decide!

/-! ## Binary64 arithmetic: infinities and NaN -/

theorem binary64_add_def (x y : Binary64) : x + y = Binary64.add x y := rfl

theorem binary64_sub_def (x y : Binary64) : x - y = Binary64.add x (Binary64.neg y) := rfl

theorem binary64_mul_def (x y : Binary64) : x * y = Binary64.mul x y := rfl

theorem binary64_div_def (x y : Binary64) : x / y = Binary64.div x y := rfl

theorem pow2_pos (e : ℤ) : 0 < Binary64.pow2 e := by
  unfold Binary64.pow2
  split
  · positivity
  · apply div_pos one_pos
    positivity

theorem pow2_le_one_of_neg (e : ℤ) (h : ¬ 0 ≤ e) : Binary64.pow2 e ≤ 1 := by
  unfold Binary64.pow2
  rw [if_neg h]
  have h1 : (1 : ℚ) ≤ ((2 ^ (-e).toNat : ℕ) : ℚ) := by
    exact_mod_cast Nat.one_le_two_pow
  rw [div_le_one (by linarith)]
  exact h1

/-- A finite result of rounding is below `2^1024` in magnitude. -/
theorem nearest_fin_bound (q r : ℚ) (h : Binary64.nearest q = Binary64.fin r) :
    |r| < Binary64.pow2 1024 := by
  unfold Binary64.nearest at h
  split at h
  · injection h with h
    rw [← h, abs_zero]
    exact pow2_pos 1024
  · simp only at h
    generalize Binary64.significand q.num.natAbs q.den
      (Binary64.ulpExponent (Binary64.exponent q.num.natAbs q.den)) = m at h
    generalize Binary64.ulpExponent (Binary64.exponent q.num.natAbs q.den) = t at h
    split at h
    · split at h <;> cases h
    · rename_i hov
      injection h with h
      have hlt : m * 2 ^ t.toNat < 2 ^ 1024 := Nat.lt_of_not_le hov
      have h1024 : Binary64.pow2 1024 = ((2 ^ 1024 : ℕ) : ℚ) := by
        unfold Binary64.pow2
        rw [if_pos (by norm_num)]
        have h1 : (1024 : ℤ).toNat = 1024 := Int.toNat_ofNat 1024
        rw [h1]
      have hr : |r| = (m : ℚ) * Binary64.pow2 t := by
        have hnn : 0 ≤ (m : ℚ) * Binary64.pow2 t :=
          mul_nonneg (Nat.cast_nonneg m) (pow2_pos t).le
        rw [← h]
        split
        · exact abs_of_nonneg hnn
        · rw [abs_neg]
          exact abs_of_nonneg hnn
      rw [hr, h1024]
      by_cases ht : 0 ≤ t
      · have : Binary64.pow2 t = ((2 ^ t.toNat : ℕ) : ℚ) := by
          unfold Binary64.pow2
          rw [if_pos ht]
        rw [this]
        exact_mod_cast hlt
      · have ht0 : t.toNat = 0 := by
          apply Int.toNat_eq_zero.mpr
          omega
        rw [ht0, pow_zero, mul_one] at hlt
        have h1 : (m : ℚ) * Binary64.pow2 t ≤ (m : ℚ) * 1 :=
          mul_le_mul_of_nonneg_left (pow2_le_one_of_neg t ht) (Nat.cast_nonneg m)
        have h2 : (m : ℚ) < ((2 ^ 1024 : ℕ) : ℚ) := by exact_mod_cast hlt
        linarith

/-- Rounding a value that is not negative gives a finite value that is not negative, or
the positive infinity. -/
theorem nearest_of_nonneg (q : ℚ) (h : 0 ≤ q) :
    Binary64.nearest q = Binary64.pinf ∨
      ∃ r : ℚ, 0 ≤ r ∧ Binary64.nearest q = Binary64.fin r := by
  unfold Binary64.nearest
  split
  · exact Or.inr ⟨0, le_refl 0, rfl⟩
  · rename_i hnum
    have hpos : 0 < q.num := by
      have : 0 ≤ q.num := Rat.num_nonneg.mpr h
      omega
    simp only [hpos, if_true]
    split
    · exact Or.inl rfl
    · exact Or.inr ⟨_, mul_nonneg (Nat.cast_nonneg _) (pow2_pos _).le, rfl⟩

/-- The factor `2.0 / n` of the gradients is not negative and not NaN. -/
theorem two_div_ofNat (n : ℕ) :
    Binary64.fin 2 / Binary64.ofNat n = Binary64.pinf ∨
      ∃ c : ℚ, 0 ≤ c ∧ Binary64.fin 2 / Binary64.ofNat n = Binary64.fin c := by
  unfold Binary64.ofNat
  rcases nearest_of_nonneg (n : ℚ) (Nat.cast_nonneg n) with h | ⟨r, hr, h⟩
  · rw [h]
    exact Or.inr ⟨0, le_refl 0, rfl⟩
  · rw [h, binary64_div_def]
    unfold Binary64.div
    simp only
    split
    · left
      simp [Binary64.infOfSign]
    · exact nearest_of_nonneg (2 / r) (div_nonneg (by norm_num) hr)

/-- One sample's contribution to `slope_gradient` when the slope is the positive infinity:
the positive infinity or NaN. -/
theorem slope_term_of_pinf (c b : Binary64) (x y : ℚ)
    (hc : c = Binary64.pinf ∨ ∃ r : ℚ, 0 ≤ r ∧ c = Binary64.fin r) :
    c * (Binary64.pinf * Binary64.fin x + b - Binary64.fin y) * Binary64.fin x = Binary64.pinf ∨
    c * (Binary64.pinf * Binary64.fin x + b - Binary64.fin y) * Binary64.fin x
      = Binary64.nan := by
  simp only [binary64_mul_def, binary64_add_def, binary64_sub_def]
  rcases lt_trichotomy x 0 with hx | hx | hx
  · have hx1 : ¬ 0 < x := not_lt.mpr hx.le
    rcases hc with rfl | ⟨r, hr, rfl⟩
    · cases b <;> simp [Binary64.mul, Binary64.add, Binary64.neg, Binary64.infOfSign, hx, hx1]
    · rcases hr.lt_or_eq with hr1 | hr1
      · have hr2 : ¬ r < 0 := not_lt.mpr hr
        cases b <;>
          simp [Binary64.mul, Binary64.add, Binary64.neg, Binary64.infOfSign, hx, hx1, hr1, hr2]
      · subst hr1
        cases b <;> simp [Binary64.mul, Binary64.add, Binary64.neg, Binary64.infOfSign, hx, hx1]
  · subst hx
    rcases hc with rfl | ⟨r, hr, rfl⟩
    · cases b <;> simp [Binary64.mul, Binary64.add, Binary64.neg, Binary64.infOfSign]
    · cases b <;> simp [Binary64.mul, Binary64.add, Binary64.neg, Binary64.infOfSign]
  · have hx1 : ¬ x < 0 := not_lt.mpr hx.le
    rcases hc with rfl | ⟨r, hr, rfl⟩
    · cases b <;> simp [Binary64.mul, Binary64.add, Binary64.neg, Binary64.infOfSign, hx, hx1]
    · rcases hr.lt_or_eq with hr1 | hr1
      · have hr2 : ¬ r < 0 := not_lt.mpr hr
        cases b <;>
          simp [Binary64.mul, Binary64.add, Binary64.neg, Binary64.infOfSign, hx, hx1, hr1, hr2]
      · subst hr1
        cases b <;> simp [Binary64.mul, Binary64.add, Binary64.neg, Binary64.infOfSign, hx, hx1]

/-- One sample's contribution to `slope_gradient` when the slope is the negative infinity:
the negative infinity or NaN. -/
theorem slope_term_of_ninf (c b : Binary64) (x y : ℚ)
    (hc : c = Binary64.pinf ∨ ∃ r : ℚ, 0 ≤ r ∧ c = Binary64.fin r) :
    c * (Binary64.ninf * Binary64.fin x + b - Binary64.fin y) * Binary64.fin x = Binary64.ninf ∨
    c * (Binary64.ninf * Binary64.fin x + b - Binary64.fin y) * Binary64.fin x
      = Binary64.nan := by
  simp only [binary64_mul_def, binary64_add_def, binary64_sub_def]
  rcases lt_trichotomy x 0 with hx | hx | hx
  · have hx1 : ¬ 0 < x := not_lt.mpr hx.le
    rcases hc with rfl | ⟨r, hr, rfl⟩
    · cases b <;> simp [Binary64.mul, Binary64.add, Binary64.neg, Binary64.infOfSign, hx, hx1]
    · rcases hr.lt_or_eq with hr1 | hr1
      · have hr2 : ¬ r < 0 := not_lt.mpr hr
        cases b <;>
          simp [Binary64.mul, Binary64.add, Binary64.neg, Binary64.infOfSign, hx, hx1, hr1, hr2]
      · subst hr1
        cases b <;> simp [Binary64.mul, Binary64.add, Binary64.neg, Binary64.infOfSign, hx, hx1]
  · subst hx
    rcases hc with rfl | ⟨r, hr, rfl⟩
    · cases b <;> simp [Binary64.mul, Binary64.add, Binary64.neg, Binary64.infOfSign]
    · cases b <;> simp [Binary64.mul, Binary64.add, Binary64.neg, Binary64.infOfSign]
  · have hx1 : ¬ x < 0 := not_lt.mpr hx.le
    rcases hc with rfl | ⟨r, hr, rfl⟩
    · cases b <;> simp [Binary64.mul, Binary64.add, Binary64.neg, Binary64.infOfSign, hx, hx1]
    · rcases hr.lt_or_eq with hr1 | hr1
      · have hr2 : ¬ r < 0 := not_lt.mpr hr
        cases b <;>
          simp [Binary64.mul, Binary64.add, Binary64.neg, Binary64.infOfSign, hx, hx1, hr1, hr2]
      · subst hr1
        cases b <;> simp [Binary64.mul, Binary64.add, Binary64.neg, Binary64.infOfSign, hx, hx1]

/-- Adding an infinity or NaN to the same infinity or NaN, or to a finite value. -/
theorem add_inf_or_nan (T a t : Binary64) (hT : T = Binary64.pinf ∨ T = Binary64.ninf)
    (ha : a = T ∨ a = Binary64.nan ∨ ∃ q : ℚ, a = Binary64.fin q)
    (ht : t = T ∨ t = Binary64.nan) : a + t = T ∨ a + t = Binary64.nan := by
  rw [binary64_add_def]
  rcases hT with rfl | rfl <;> rcases ha with rfl | rfl | ⟨q, rfl⟩ <;> rcases ht with rfl | rfl <;>
    simp [Binary64.add]

/-- The accumulation of `slope_gradient` over at least one sample, every contribution being
one infinity or NaN, ends in that infinity or NaN. -/
theorem foldl_slope_gradient (T : Binary64) (hT : T = Binary64.pinf ∨ T = Binary64.ninf)
    (f h : ℚ × ℚ → Binary64) (hf : ∀ xy : ℚ × ℚ, f xy = T ∨ f xy = Binary64.nan)
    (l : List (ℚ × ℚ)) (acc : Binary64 × Binary64)
    (hacc : acc.1 = T ∨ acc.1 = Binary64.nan ∨ ∃ q : ℚ, acc.1 = Binary64.fin q)
    (hl : l ≠ [] ∨ acc.1 = T ∨ acc.1 = Binary64.nan) :
    (l.foldl (fun g xy => (g.1 + f xy, g.2 + h xy)) acc).1 = T ∨
    (l.foldl (fun g xy => (g.1 + f xy, g.2 + h xy)) acc).1 = Binary64.nan := by
  induction l generalizing acc with
  | nil =>
    rcases hl with hl | hl
    · exact absurd rfl hl
    · exact hl
  | cons xy t ih =>
    simp only [List.foldl_cons]
    have hstep := add_inf_or_nan T acc.1 (f xy) hT hacc (hf xy)
    apply ih
    · rcases hstep with h1 | h1
      · exact Or.inl h1
      · exact Or.inr (Or.inl h1)
    · exact Or.inr hstep

/-- With an infinite slope and a positive learning rate, the slope proposed by the next
iteration is NaN, on every dataset with at least one sample. -/
theorem proposal_of_infinite_slope (x_vals y_vals : List ℚ) (lr : ℚ) (p : Binary64 × Binary64)
    (hne : x_vals ≠ []) (hlen : x_vals.length = y_vals.length) (hlr : 0 < lr)
    (hp : p.1 = Binary64.pinf ∨ p.1 = Binary64.ninf) :
    (IEEE.GradientDescentModel.proposal x_vals y_vals (Binary64.fin lr) p).1 = Binary64.nan := by
  have hzip : List.zip x_vals y_vals ≠ [] := by
    intro hz
    have := congrArg List.length hz
    rw [List.length_zip, ← hlen, min_self, List.length_nil] at this
    exact hne (List.length_eq_zero.mp this)
  have hc := two_div_ofNat x_vals.length
  have hlr1 : ¬ lr < 0 := not_lt.mpr hlr.le
  unfold IEEE.GradientDescentModel.proposal IEEE.GradientDescentModel.gradients
  simp only
  rcases hp with hp | hp
  · have hg := foldl_slope_gradient Binary64.pinf (Or.inl rfl)
      (fun xy => (Binary64.fin 2 / Binary64.ofNat x_vals.length)
        * (p.1 * Binary64.fin xy.1 + p.2 - Binary64.fin xy.2) * Binary64.fin xy.1)
      (fun xy => (Binary64.fin 2 / Binary64.ofNat x_vals.length)
        * (p.1 * Binary64.fin xy.1 + p.2 - Binary64.fin xy.2))
      (fun xy => by rw [hp]; exact slope_term_of_pinf _ p.2 xy.1 xy.2 hc)
      (List.zip x_vals y_vals) (Binary64.fin 0, Binary64.fin 0)
      (Or.inr (Or.inr ⟨0, rfl⟩)) (Or.inl hzip)
    rcases hg with hg | hg
    · rw [hg, hp]
      simp [binary64_sub_def, binary64_mul_def, Binary64.mul, Binary64.add, Binary64.neg,
        Binary64.infOfSign, hlr]
    · rw [hg, hp]
      simp [binary64_sub_def, binary64_mul_def, Binary64.mul, Binary64.add, Binary64.neg]
  · have hg := foldl_slope_gradient Binary64.ninf (Or.inr rfl)
      (fun xy => (Binary64.fin 2 / Binary64.ofNat x_vals.length)
        * (p.1 * Binary64.fin xy.1 + p.2 - Binary64.fin xy.2) * Binary64.fin xy.1)
      (fun xy => (Binary64.fin 2 / Binary64.ofNat x_vals.length)
        * (p.1 * Binary64.fin xy.1 + p.2 - Binary64.fin xy.2))
      (fun xy => by rw [hp]; exact slope_term_of_ninf _ p.2 xy.1 xy.2 hc)
      (List.zip x_vals y_vals) (Binary64.fin 0, Binary64.fin 0)
      (Or.inr (Or.inr ⟨0, rfl⟩)) (Or.inl hzip)
    rcases hg with hg | hg
    · rw [hg, hp]
      simp [binary64_sub_def, binary64_mul_def, Binary64.mul, Binary64.add, Binary64.neg,
        Binary64.infOfSign, hlr, hlr1]
    · rw [hg, hp]
      simp [binary64_sub_def, binary64_mul_def, Binary64.mul, Binary64.add, Binary64.neg]

/-- The convergence test fails when the proposed slope is NaN. -/
theorem not_converged_of_nan (x_vals y_vals : List ℚ) (lr tol : Binary64)
    (p : Binary64 × Binary64)
    (h : (IEEE.GradientDescentModel.proposal x_vals y_vals lr p).1 = Binary64.nan) :
    IEEE.GradientDescentModel.converged x_vals y_vals lr tol p = false := by
  unfold IEEE.GradientDescentModel.converged
  rw [h]
  simp [binary64_sub_def, Binary64.add, Binary64.abs, Binary64.lt]

/-- The loop with one more iteration: one more step from where the shorter loop ends. -/
theorem binary64_iterate_succ (x_vals y_vals : List ℚ) (lr tol : Binary64) (k : ℕ)
    (p : Binary64 × Binary64) :
    IEEE.GradientDescentModel.iterate x_vals y_vals lr tol (k + 1) p
      = if IEEE.GradientDescentModel.converged x_vals y_vals lr tol
            (IEEE.GradientDescentModel.iterate x_vals y_vals lr tol k p)
        then IEEE.GradientDescentModel.iterate x_vals y_vals lr tol k p
        else IEEE.GradientDescentModel.proposal x_vals y_vals lr
          (IEEE.GradientDescentModel.iterate x_vals y_vals lr tol k p) := by
  induction k generalizing p with
  | zero => rfl
  | succ k ih =>
    rw [IEEE.GradientDescentModel.iterate]
    by_cases hc : IEEE.GradientDescentModel.converged x_vals y_vals lr tol p = true
    · rw [if_pos hc]
      have h1 : IEEE.GradientDescentModel.iterate x_vals y_vals lr tol (k + 1) p = p := by
        rw [IEEE.GradientDescentModel.iterate, if_pos hc]
      rw [h1, if_pos hc]
    · rw [if_neg hc, ih]
      have h1 : IEEE.GradientDescentModel.iterate x_vals y_vals lr tol (k + 1) p
          = IEEE.GradientDescentModel.iterate x_vals y_vals lr tol k
            (IEEE.GradientDescentModel.proposal x_vals y_vals lr p) := by
        rw [IEEE.GradientDescentModel.iterate, if_neg hc]
      rw [h1]

/-- The loop with `a + b` iterations is the loop with `b` iterations started where the loop
with `a` iterations ends. -/
theorem binary64_iterate_add (x_vals y_vals : List ℚ) (lr tol : Binary64) (a b : ℕ)
    (p : Binary64 × Binary64) :
    IEEE.GradientDescentModel.iterate x_vals y_vals lr tol (a + b) p
      = IEEE.GradientDescentModel.iterate x_vals y_vals lr tol b
          (IEEE.GradientDescentModel.iterate x_vals y_vals lr tol a p) := by
  induction b with
  | zero => rfl
  | succ b ih =>
    rw [← Nat.add_assoc, binary64_iterate_succ, ih, ← binary64_iterate_succ]

/-- A finite slope that the loop reaches from `(0, 0)` is below `2^1024` in magnitude. -/
theorem iterate_slope_bound (x_vals y_vals : List ℚ) (lr tol : Binary64) (k : ℕ) (r : ℚ)
    (h : (IEEE.GradientDescentModel.iterate x_vals y_vals lr tol k
      (Binary64.fin 0, Binary64.fin 0)).1 = Binary64.fin r) :
    |r| < Binary64.pow2 1024 := by
  induction k with
  | zero =>
    injection h with h
    rw [← h, abs_zero]
    exact pow2_pos 1024
  | succ k ih =>
    rw [binary64_iterate_succ] at h
    split at h
    · exact ih h
    · unfold IEEE.GradientDescentModel.proposal at h
      simp only [binary64_sub_def] at h
      generalize (IEEE.GradientDescentModel.iterate x_vals y_vals lr tol k
        (Binary64.fin 0, Binary64.fin 0)).1 = u at h
      generalize Binary64.neg (lr * (IEEE.GradientDescentModel.gradients x_vals y_vals u
        (IEEE.GradientDescentModel.iterate x_vals y_vals lr tol k
          (Binary64.fin 0, Binary64.fin 0)).2).1) = w at h
      cases u <;> cases w <;> simp only [Binary64.add] at h <;>
        first
        | exact nearest_fin_bound _ _ h
        | cases h

/-- A division by the double 0 gives an infinity or NaN. -/
theorem binary64_div_zero (a : Binary64) :
    a / Binary64.fin 0 = Binary64.pinf ∨ a / Binary64.fin 0 = Binary64.ninf ∨
      a / Binary64.fin 0 = Binary64.nan := by
  rw [binary64_div_def]
  cases a with
  | fin q =>
    rcases lt_trichotomy q 0 with hq | hq | hq
    · have hq1 : ¬ 0 < q := not_lt.mpr hq.le
      simp [Binary64.div, Binary64.infOfSign, hq, hq1]
    · subst hq
      simp [Binary64.div, Binary64.infOfSign]
    · simp [Binary64.div, Binary64.infOfSign, hq]
  | pinf => simp [Binary64.div]
  | ninf => simp [Binary64.div]
  | nan => simp [Binary64.div]

/-- The method `LeastSquaresModel::train` in binary64 arithmetic on a dataset that is not
empty: it returns normally, and the slope is the quotient of the two accumulated sums. -/
theorem binary64_leastSquares_train_eq (m : IEEE.RegressionModel) (d : Dataset)
    (h : d.x_values ≠ []) :
    (IEEE.LeastSquaresModel.train m d).2 = none ∧
    (IEEE.LeastSquaresModel.train m d).1.slope
      = (IEEE.LeastSquaresModel.sums d.x_values d.y_values
          (IEEE.LeastSquaresModel.accumulate d.x_values / Binary64.ofNat d.x_values.length)
          (IEEE.LeastSquaresModel.accumulate d.y_values / Binary64.ofNat d.x_values.length)).1
        / (IEEE.LeastSquaresModel.sums d.x_values d.y_values
          (IEEE.LeastSquaresModel.accumulate d.x_values / Binary64.ofNat d.x_values.length)
          (IEEE.LeastSquaresModel.accumulate d.y_values / Binary64.ofNat d.x_values.length)).2 := by
  simp only [IEEE.LeastSquaresModel.train, Dataset.getXValues, Dataset.getYValues,
    List.isEmpty_eq_true, h, if_false, and_self]

/-- The method `GradientDescentModel::train` in binary64 arithmetic on a dataset that is not
empty: it returns normally with the parameters at which the loop ends. -/
theorem binary64_gradientDescent_train_eq (m : IEEE.GradientDescentModel) (d : Dataset)
    (h : d.x_values ≠ []) :
    (IEEE.GradientDescentModel.train m d).2 = none ∧
    (IEEE.GradientDescentModel.train m d).1.slope
      = (IEEE.GradientDescentModel.iterate d.x_values d.y_values m.learning_rate m.tolerance
          m.max_iterations.toNat (Binary64.fin 0, Binary64.fin 0)).1 ∧
    (IEEE.GradientDescentModel.train m d).1.intercept
      = (IEEE.GradientDescentModel.iterate d.x_values d.y_values m.learning_rate m.tolerance
          m.max_iterations.toNat (Binary64.fin 0, Binary64.fin 0)).2 ∧
    (IEEE.GradientDescentModel.train m d).1.mse
      = IEEE.RegressionModel.calculateMSE
          { slope := (IEEE.GradientDescentModel.iterate d.x_values d.y_values m.learning_rate
              m.tolerance m.max_iterations.toNat (Binary64.fin 0, Binary64.fin 0)).1,
            intercept := (IEEE.GradientDescentModel.iterate d.x_values d.y_values
              m.learning_rate m.tolerance m.max_iterations.toNat
              (Binary64.fin 0, Binary64.fin 0)).2,
            mse := m.mse } d := by
  simp only [IEEE.GradientDescentModel.train, Dataset.getXValues, Dataset.getYValues,
    List.isEmpty_eq_true, h, if_false, and_self]

/-! ## Evaluations in binary64 arithmetic -/

theorem roundedData_train :
    IEEE.LeastSquaresModel.train IEEE.RegressionModel.new roundedData
      = ({ slope := Binary64.fin (4503599627370497 / 4503599627370496),
           intercept := Binary64.fin (-4503599627370499 / 4503599627370496),
           mse := Binary64.fin
             (7505999378950827 / 91343852333181432387730302044767688728495783936) },
         none) := by
  decide!

theorem underflowData_train :
    IEEE.LeastSquaresModel.train IEEE.RegressionModel.new underflowData
      = ({ slope := Binary64.pinf, intercept := Binary64.ninf, mse := Binary64.nan }, none) := by
  decide!

theorem scenarioA_binary64_train :
    IEEE.LeastSquaresModel.train IEEE.RegressionModel.new scenarioA
      = ({ slope := Binary64.fin 10, intercept := Binary64.fin 35, mse := Binary64.fin 0 },
         none) := by
  decide!

theorem roundedData_gradients :
    IEEE.GradientDescentModel.gradients roundedData.x_values roundedData.y_values
      (Binary64.fin 1) (Binary64.fin (-1)) = (Binary64.fin 0, Binary64.fin 0) := by
  decide!

/-! ## Gradient descent on the divergent dataset, in binary64 arithmetic

The loop of `GradientDescentModel::train` on the samples `(1000, 1000)` and
`(-1000, -1000)` with the learning rate 0.01 and the tolerance 1e-6. -/

theorem divergent_binary64_0_71 :
    IEEE.GradientDescentModel.iterate divergentData.x_values divergentData.y_values
        (Binary64.nearest (1 / 100)) (Binary64.nearest (1 / 1000000)) 71
        (Binary64.fin 0, Binary64.fin 0)
      = (Binary64.fin (3017880811961859 * Binary64.pow2 963), Binary64.fin 0) := by
  decide!

theorem divergent_binary64_71_72 :
    IEEE.GradientDescentModel.iterate divergentData.x_values divergentData.y_values
        (Binary64.nearest (1 / 100)) (Binary64.nearest (1 / 1000000)) 1
        (Binary64.fin (3017880811961859 * Binary64.pow2 963), Binary64.fin 0)
      = (Binary64.ninf, Binary64.nan) := by
  decide!

theorem divergent_binary64_72_73 :
    IEEE.GradientDescentModel.iterate divergentData.x_values divergentData.y_values
        (Binary64.nearest (1 / 100)) (Binary64.nearest (1 / 1000000)) 1
        (Binary64.ninf, Binary64.nan)
      = (Binary64.nan, Binary64.nan) := by
  decide!

theorem divergent_binary64_72 :
    IEEE.GradientDescentModel.iterate divergentData.x_values divergentData.y_values
        (Binary64.nearest (1 / 100)) (Binary64.nearest (1 / 1000000)) 72
        (Binary64.fin 0, Binary64.fin 0)
      = (Binary64.ninf, Binary64.nan) := by
  have h := binary64_iterate_add divergentData.x_values divergentData.y_values
    (Binary64.nearest (1 / 100)) (Binary64.nearest (1 / 1000000)) 71 1
    (Binary64.fin 0, Binary64.fin 0)
  rw [divergent_binary64_0_71, divergent_binary64_71_72] at h
  exact h

theorem divergent_binary64_73 :
    IEEE.GradientDescentModel.iterate divergentData.x_values divergentData.y_values
        (Binary64.nearest (1 / 100)) (Binary64.nearest (1 / 1000000)) 73
        (Binary64.fin 0, Binary64.fin 0)
      = (Binary64.nan, Binary64.nan) := by
  have h := binary64_iterate_add divergentData.x_values divergentData.y_values
    (Binary64.nearest (1 / 100)) (Binary64.nearest (1 / 1000000)) 72 1
    (Binary64.fin 0, Binary64.fin 0)
  rw [divergent_binary64_72, divergent_binary64_72_73] at h
  exact h

/-- Once the parameters are NaN they stay NaN. -/
theorem divergent_binary64_nan (k : ℕ) :
    IEEE.GradientDescentModel.iterate divergentData.x_values divergentData.y_values
        (Binary64.nearest (1 / 100)) (Binary64.nearest (1 / 1000000)) k
        (Binary64.nan, Binary64.nan)
      = (Binary64.nan, Binary64.nan) := by
  induction k with
  | zero => rfl
  | succ k ih =>
    rw [binary64_iterate_succ, ih]
    have hc : IEEE.GradientDescentModel.converged divergentData.x_values divergentData.y_values
        (Binary64.nearest (1 / 100)) (Binary64.nearest (1 / 1000000))
        (Binary64.nan, Binary64.nan) = false := by
      decide!
    have hp : IEEE.GradientDescentModel.proposal divergentData.x_values divergentData.y_values
        (Binary64.nearest (1 / 100)) (Binary64.nan, Binary64.nan)
        = (Binary64.nan, Binary64.nan) := by
      decide!
    rw [hc, hp]
    rfl

/-- From 73 iterations on, the loop ends with NaN parameters. -/
theorem divergent_binary64_from_73 (k : ℕ) (h : 73 ≤ k) :
    IEEE.GradientDescentModel.iterate divergentData.x_values divergentData.y_values
        (Binary64.nearest (1 / 100)) (Binary64.nearest (1 / 1000000)) k
        (Binary64.fin 0, Binary64.fin 0)
      = (Binary64.nan, Binary64.nan) := by
  obtain ⟨j, rfl⟩ := Nat.exists_eq_add_of_le h
  rw [binary64_iterate_add, divergent_binary64_73, divergent_binary64_nan]

/-! ## Auxiliary facts on sums -/

theorem foldl_add_eq_sum {α : Type} (f : α → ℚ) (l : List α) (a : ℚ) :
    l.foldl (fun acc x => acc + f x) a = a + (l.map f).sum := by
  induction l generalizing a with
  | nil => simp
  | cons x xs ih => simp [List.foldl_cons, ih, add_assoc]

theorem foldl_pair_eq_sums {α : Type} (f g : α → ℚ) (l : List α) (a b : ℚ) :
    l.foldl (fun (acc : ℚ × ℚ) x => (acc.1 + f x, acc.2 + g x)) (a, b)
      = (a + (l.map f).sum, b + (l.map g).sum) := by
  induction l generalizing a b with
  | nil => simp
  | cons x xs ih => simp [List.foldl_cons, ih, add_assoc]

theorem accumulate_eq_sum (v : List ℚ) : LeastSquaresModel.accumulate v = v.sum := by
  unfold LeastSquaresModel.accumulate
  have h := foldl_add_eq_sum (fun a : ℚ => a) v 0
  simpa using h

theorem sums_eq (d : Dataset) :
    LeastSquaresModel.sums d.x_values d.y_values (mean d.x_values) (mean d.y_values)
      = (sumCrossDeviations d, sumSquaredDeviations d) := by
  unfold LeastSquaresModel.sums sumCrossDeviations sumSquaredDeviations Dataset.samples
  rw [foldl_pair_eq_sums]
  simp [pow_two]

@[simp] theorem Double.finite_add (a b : ℚ) :
    Double.finite a + Double.finite b = Double.finite (a + b) := rfl

@[simp] theorem Double.finite_sub (a b : ℚ) :
    Double.finite a - Double.finite b = Double.finite (a - b) := rfl

@[simp] theorem Double.finite_mul (a b : ℚ) :
    Double.finite a * Double.finite b = Double.finite (a * b) := rfl

theorem Double.quot_of_ne_zero (a b : ℚ) (h : b ≠ 0) :
    Double.quot a b = Double.finite (a / b) := by
  simp [Double.quot, h]

theorem sum_sq_residuals_expand (l : List (ℚ × ℚ)) (s b : ℚ) :
    (l.map (fun xy => (xy.2 - (s * xy.1 + b)) ^ 2)).sum
      = (l.map (fun xy => xy.2 ^ 2)).sum - 2 * s * (l.map (fun xy => xy.1 * xy.2)).sum
        - 2 * b * (l.map Prod.snd).sum + s ^ 2 * (l.map (fun xy => xy.1 ^ 2)).sum
        + 2 * s * b * (l.map Prod.fst).sum + l.length * b ^ 2 := by
  induction l with
  | nil => simp
  | cons a l ih =>
    simp only [List.map_cons, List.sum_cons, List.length_cons, Nat.cast_succ, ih]
    ring

theorem sum_cross_expand (l : List (ℚ × ℚ)) (a c : ℚ) :
    (l.map (fun xy => (xy.1 - a) * (xy.2 - c))).sum
      = (l.map (fun xy => xy.1 * xy.2)).sum - a * (l.map Prod.snd).sum
        - c * (l.map Prod.fst).sum + l.length * a * c := by
  induction l with
  | nil => simp
  | cons p l ih =>
    simp only [List.map_cons, List.sum_cons, List.length_cons, Nat.cast_succ, ih]
    ring

theorem sum_sq_dev_expand (l : List (ℚ × ℚ)) (a : ℚ) :
    (l.map (fun xy => (xy.1 - a) ^ 2)).sum
      = (l.map (fun xy => xy.1 ^ 2)).sum - 2 * a * (l.map Prod.fst).sum + l.length * a ^ 2 := by
  induction l with
  | nil => simp
  | cons p l ih =>
    simp only [List.map_cons, List.sum_cons, List.length_cons, Nat.cast_succ, ih]
    ring

theorem sum_sq_dev_nonneg (l : List (ℚ × ℚ)) (a : ℚ) :
    0 ≤ (l.map (fun xy => (xy.1 - a) ^ 2)).sum := by
  induction l with
  | nil => simp
  | cons p l ih =>
    simp only [List.map_cons, List.sum_cons]
    positivity

theorem eq_of_sum_sq_dev_eq_zero (l : List (ℚ × ℚ)) (a : ℚ)
    (h : (l.map (fun xy => (xy.1 - a) ^ 2)).sum = 0) : ∀ p ∈ l, p.1 = a := by
  induction l with
  | nil => simp
  | cons p l ih =>
    simp only [List.map_cons, List.sum_cons] at h
    have h1 : 0 ≤ (p.1 - a) ^ 2 := sq_nonneg _
    have h2 := sum_sq_dev_nonneg l a
    have h3 : (p.1 - a) ^ 2 = 0 := by linarith
    have h4 : (l.map (fun xy => (xy.1 - a) ^ 2)).sum = 0 := by linarith
    intro q hq
    rcases List.mem_cons.mp hq with rfl | hq
    · have := pow_eq_zero_iff (two_ne_zero) |>.mp h3
      linarith
    · exact ih h4 q hq

theorem leastSquares_train_eq (m : RegressionModel) (d : Dataset) (h : d.x_values ≠ [])
    (hlen : d.x_values.length = d.y_values.length) :
    LeastSquaresModel.train m d =
      ({ slope := Double.quot (sumCrossDeviations d) (sumSquaredDeviations d),
         intercept := Double.finite (mean d.y_values)
           - Double.quot (sumCrossDeviations d) (sumSquaredDeviations d)
             * Double.finite (mean d.x_values),
         mse := RegressionModel.calculateMSE
           { slope := Double.quot (sumCrossDeviations d) (sumSquaredDeviations d),
             intercept := Double.finite (mean d.y_values)
               - Double.quot (sumCrossDeviations d) (sumSquaredDeviations d)
                 * Double.finite (mean d.x_values),
             mse := m.mse } d }, none) := by
  have hs := sums_eq d
  unfold mean at hs
  rw [← hlen] at hs
  simp only [LeastSquaresModel.train, Dataset.getXValues, Dataset.getYValues,
    List.isEmpty_eq_true, h, if_false, accumulate_eq_sum, hs, mean, ← hlen]

theorem samples_map_fst (d : Dataset) (hlen : d.x_values.length = d.y_values.length) :
    d.samples.map Prod.fst = d.x_values :=
  List.map_fst_zip _ _ (le_of_eq hlen)

theorem samples_map_snd (d : Dataset) (hlen : d.x_values.length = d.y_values.length) :
    d.samples.map Prod.snd = d.y_values :=
  List.map_snd_zip _ _ (le_of_eq hlen.symm)

theorem samples_length (d : Dataset) (hlen : d.x_values.length = d.y_values.length) :
    d.samples.length = d.x_values.length := by
  simp [Dataset.samples, List.length_zip, hlen]

theorem sumSquaredDeviations_nonneg (d : Dataset) : 0 ≤ sumSquaredDeviations d :=
  sum_sq_dev_nonneg _ _

theorem sumSquaredDeviations_pos (d : Dataset)
    (hlen : d.x_values.length = d.y_values.length)
    (hdist : ∃ a ∈ d.x_values, ∃ b ∈ d.x_values, a ≠ b) :
    0 < sumSquaredDeviations d := by
  rcases lt_or_eq_of_le (sumSquaredDeviations_nonneg d) with h | h
  · exact h
  · exfalso
    have hall := eq_of_sum_sq_dev_eq_zero d.samples (mean d.x_values) h.symm
    obtain ⟨a, ha, b, hb, hab⟩ := hdist
    rw [← samples_map_fst d hlen] at ha hb
    obtain ⟨p, hp, rfl⟩ := List.mem_map.mp ha
    obtain ⟨q, hq, rfl⟩ := List.mem_map.mp hb
    exact hab ((hall p hp).trans (hall q hq).symm)

/-! ## Least squares: the fitted line -/

theorem sumSquaredResiduals_nonneg (d : Dataset) (m b : ℚ) :
    0 ≤ sumSquaredResiduals d m b := by
  unfold sumSquaredResiduals
  induction d.samples with
  | nil => simp
  | cons p l ih =>
    simp only [List.map_cons, List.sum_cons]
    positivity

theorem ols_gap (n xb yb D s Sx Sy Sxx Sxy Syy m b : ℚ)
    (hSx : Sx = n * xb) (hSy : Sy = n * yb)
    (hSxx : D = Sxx - 2 * xb * Sx + n * xb ^ 2)
    (hSxy : s * D = Sxy - xb * Sy - yb * Sx + n * xb * yb) :
    (Syy - 2 * m * Sxy - 2 * b * Sy + m ^ 2 * Sxx + 2 * m * b * Sx + n * b ^ 2)
      - (Syy - 2 * s * Sxy - 2 * (yb - s * xb) * Sy + s ^ 2 * Sxx
          + 2 * s * (yb - s * xb) * Sx + n * (yb - s * xb) ^ 2)
      = D * (m - s) ^ 2 + n * (b - (yb - s * xb) + (m - s) * xb) ^ 2 := by
  have hSxx1 : Sxx = D + n * xb ^ 2 := by rw [hSxx, hSx]; ring
  have hSxy1 : Sxy = s * D + n * xb * yb := by rw [hSxy, hSx, hSy]; ring
  rw [hSxy1, hSxx1, hSx, hSy]; ring

/-- The sum of squared residuals of the line `(m, b)` exceeds that of the least-squares
line of exact arithmetic by a sum of two squares. -/
theorem sumSquaredResiduals_gap (d : Dataset) (hlen : d.x_values.length = d.y_values.length)
    (hne : d.x_values ≠ []) (hD : sumSquaredDeviations d ≠ 0) (m b : ℚ) :
    sumSquaredResiduals d m b
      - sumSquaredResiduals d (sumCrossDeviations d / sumSquaredDeviations d)
          (mean d.y_values - sumCrossDeviations d / sumSquaredDeviations d * mean d.x_values)
      = sumSquaredDeviations d * (m - sumCrossDeviations d / sumSquaredDeviations d) ^ 2
        + (d.x_values.length : ℚ)
          * (b - (mean d.y_values
                - sumCrossDeviations d / sumSquaredDeviations d * mean d.x_values)
              + (m - sumCrossDeviations d / sumSquaredDeviations d) * mean d.x_values) ^ 2 := by
  have hlen0 : (0 : ℚ) < d.x_values.length := by
    have := List.length_pos.mpr hne
    exact_mod_cast this
  unfold sumSquaredResiduals
  rw [sum_sq_residuals_expand, sum_sq_residuals_expand]
  have hx : (d.samples.map Prod.fst).sum = (d.samples.length : ℚ) * mean d.x_values := by
    rw [samples_map_fst d hlen, samples_length d hlen, mean]
    field_simp
  have hy : (d.samples.map Prod.snd).sum = (d.samples.length : ℚ) * mean d.y_values := by
    rw [samples_map_snd d hlen, samples_length d hlen, mean, ← hlen]
    field_simp
  have hDx : sumSquaredDeviations d
      = (d.samples.map (fun xy => xy.1 ^ 2)).sum
        - 2 * mean d.x_values * (d.samples.map Prod.fst).sum
        + d.samples.length * mean d.x_values ^ 2 :=
    sum_sq_dev_expand _ _
  have hN : sumCrossDeviations d / sumSquaredDeviations d * sumSquaredDeviations d
      = (d.samples.map (fun xy => xy.1 * xy.2)).sum
        - mean d.x_values * (d.samples.map Prod.snd).sum
        - mean d.y_values * (d.samples.map Prod.fst).sum
        + d.samples.length * mean d.x_values * mean d.y_values := by
    rw [div_mul_cancel₀ _ hD]
    exact sum_cross_expand _ _ _
  rw [← samples_length d hlen]
  exact ols_gap _ _ _ _ _ _ _ _ _ _ m b hx hy hDx hN

/-- With two distinct x-values, the least-squares line of exact arithmetic is the one line
that minimises the sum of squared residuals. -/
theorem leastSquares_minimiser (d : Dataset) (hlen : d.x_values.length = d.y_values.length)
    (hdist : ∃ a ∈ d.x_values, ∃ b ∈ d.x_values, a ≠ b) (s c : ℚ) :
    (∀ m b : ℚ, sumSquaredResiduals d s c ≤ sumSquaredResiduals d m b)
      ↔ (s = sumCrossDeviations d / sumSquaredDeviations d ∧
          c = mean d.y_values
            - sumCrossDeviations d / sumSquaredDeviations d * mean d.x_values) := by
  have hne : d.x_values ≠ [] := by
    obtain ⟨a, ha, _⟩ := hdist
    exact List.ne_nil_of_mem ha
  have hpos := sumSquaredDeviations_pos d hlen hdist
  have hlen0 : (0 : ℚ) < d.x_values.length := by
    have := List.length_pos.mpr hne
    exact_mod_cast this
  constructor
  · intro hmin
    have hgap := sumSquaredResiduals_gap d hlen hne hpos.ne' s c
    have hle := hmin (sumCrossDeviations d / sumSquaredDeviations d)
      (mean d.y_values - sumCrossDeviations d / sumSquaredDeviations d * mean d.x_values)
    have h1 : 0 ≤ sumSquaredDeviations d
        * (s - sumCrossDeviations d / sumSquaredDeviations d) ^ 2 :=
      mul_nonneg hpos.le (sq_nonneg _)
    have h2 : 0 ≤ (d.x_values.length : ℚ)
        * (c - (mean d.y_values
              - sumCrossDeviations d / sumSquaredDeviations d * mean d.x_values)
            + (s - sumCrossDeviations d / sumSquaredDeviations d) * mean d.x_values) ^ 2 :=
      mul_nonneg hlen0.le (sq_nonneg _)
    have h3 : sumSquaredDeviations d
        * (s - sumCrossDeviations d / sumSquaredDeviations d) ^ 2 = 0 := by linarith
    have h4 : (d.x_values.length : ℚ)
        * (c - (mean d.y_values
              - sumCrossDeviations d / sumSquaredDeviations d * mean d.x_values)
            + (s - sumCrossDeviations d / sumSquaredDeviations d) * mean d.x_values) ^ 2
        = 0 := by linarith
    have h5 : s - sumCrossDeviations d / sumSquaredDeviations d = 0 := by
      rcases mul_eq_zero.mp h3 with h | h
      · exact absurd h hpos.ne'
      · exact pow_eq_zero_iff (by norm_num) |>.mp h
    have h6 : c - (mean d.y_values
          - sumCrossDeviations d / sumSquaredDeviations d * mean d.x_values)
        + (s - sumCrossDeviations d / sumSquaredDeviations d) * mean d.x_values = 0 := by
      rcases mul_eq_zero.mp h4 with h | h
      · exact absurd h hlen0.ne'
      · exact pow_eq_zero_iff (by norm_num) |>.mp h
    rw [h5, zero_mul, add_zero] at h6
    exact ⟨sub_eq_zero.mp h5, sub_eq_zero.mp h6⟩
  · rintro ⟨rfl, rfl⟩ m b
    have hgap := sumSquaredResiduals_gap d hlen hne hpos.ne' m b
    have h1 : 0 ≤ sumSquaredDeviations d
        * (m - sumCrossDeviations d / sumSquaredDeviations d) ^ 2 :=
      mul_nonneg hpos.le (sq_nonneg _)
    have h2 : 0 ≤ (d.x_values.length : ℚ)
        * (b - (mean d.y_values
              - sumCrossDeviations d / sumSquaredDeviations d * mean d.x_values)
            + (m - sumCrossDeviations d / sumSquaredDeviations d) * mean d.x_values) ^ 2 :=
      mul_nonneg hlen0.le (sq_nonneg _)
    linarith

/-- C1, refuted as stated: on the samples `(1, 0)`, `(2, 1)`, `(4, 3)`, whose x-values are
distinct, `LeastSquaresModel::train` returns the slope 1.0000000000000002 and the intercept
-1.0000000000000007, with residuals that are not all 0, while the line with slope 1 and
intercept -1 has the sum of squared residuals 0 (and the mse 0 as `calculateMSE` computes
it, where the fitted line has a positive mse).  On the samples `(2^-600, 1)`,
`(2^-599, 2)`, whose x-values are distinct, the slope is the positive infinity and the
intercept the negative infinity. -/
theorem C1_rounded_fit_not_minimal :
    roundedData.x_values.all Binary64.isBinary64 = true ∧
    roundedData.y_values.all Binary64.isBinary64 = true ∧
    roundedData.x_values.length = roundedData.y_values.length ∧
    (∃ a ∈ roundedData.x_values, ∃ b ∈ roundedData.x_values, a ≠ b) ∧
    (IEEE.LeastSquaresModel.train IEEE.RegressionModel.new roundedData).1.slope
      = Binary64.fin (4503599627370497 / 4503599627370496) ∧
    (IEEE.LeastSquaresModel.train IEEE.RegressionModel.new roundedData).1.intercept
      = Binary64.fin (-4503599627370499 / 4503599627370496) ∧
    sumSquaredResiduals roundedData 1 (-1) = 0 ∧
    0 < sumSquaredResiduals roundedData (4503599627370497 / 4503599627370496)
      (-4503599627370499 / 4503599627370496) ∧
    ¬ (sumSquaredResiduals roundedData (4503599627370497 / 4503599627370496)
        (-4503599627370499 / 4503599627370496)
      ≤ sumSquaredResiduals roundedData 1 (-1)) ∧
    IEEE.RegressionModel.calculateMSE
      { slope := Binary64.fin 1, intercept := Binary64.fin (-1), mse := Binary64.fin 0 }
      roundedData = Binary64.fin 0 ∧
    (IEEE.LeastSquaresModel.train IEEE.RegressionModel.new roundedData).1.mse
      = Binary64.fin (7505999378950827 / 91343852333181432387730302044767688728495783936) ∧
    underflowData.x_values.all Binary64.isBinary64 = true ∧
    underflowData.y_values.all Binary64.isBinary64 = true ∧
    underflowData.x_values.length = underflowData.y_values.length ∧
    (∃ a ∈ underflowData.x_values, ∃ b ∈ underflowData.x_values, a ≠ b) ∧
    (IEEE.LeastSquaresModel.train IEEE.RegressionModel.new underflowData).1.slope
      = Binary64.pinf ∧
    (IEEE.LeastSquaresModel.train IEEE.RegressionModel.new underflowData).1.intercept
      = Binary64.ninf := by
  rw [roundedData_train, underflowData_train]
  decide!

/-- C1, amended: for every dataset with at least two distinct x-values, the slope and the
intercept that the formulas of `LeastSquaresModel::train` denote in exact arithmetic are
finite and minimise the sum of squared residuals: no line `(m, b)` has a smaller
`sum_i (y_i - (m * x_i + b))^2`.  The method itself, in binary64 arithmetic, returns
normally, and the slope and the intercept it returns, when finite, minimise the sum of
squared residuals exactly when they are equal to those exact values. -/
theorem C1_least_squares_minimises_residuals (model : RegressionModel)
    (model64 : IEEE.RegressionModel) (d : Dataset)
    (hlen : d.x_values.length = d.y_values.length)
    (hdist : ∃ a ∈ d.x_values, ∃ b ∈ d.x_values, a ≠ b) :
    ∃ slope intercept : ℚ,
      (LeastSquaresModel.train model d).2 = none ∧
      (LeastSquaresModel.train model d).1.slope = Double.finite slope ∧
      (LeastSquaresModel.train model d).1.intercept = Double.finite intercept ∧
      (∀ m b : ℚ, sumSquaredResiduals d slope intercept ≤ sumSquaredResiduals d m b) ∧
      (IEEE.LeastSquaresModel.train model64 d).2 = none ∧
      ∀ s c : ℚ, (IEEE.LeastSquaresModel.train model64 d).1.slope = Binary64.fin s →
        (IEEE.LeastSquaresModel.train model64 d).1.intercept = Binary64.fin c →
        ((∀ m b : ℚ, sumSquaredResiduals d s c ≤ sumSquaredResiduals d m b)
          ↔ (s = slope ∧ c = intercept)) := by
  have hne : d.x_values ≠ [] := by
    obtain ⟨a, ha, _⟩ := hdist
    exact List.ne_nil_of_mem ha
  have hpos := sumSquaredDeviations_pos d hlen hdist
  refine ⟨sumCrossDeviations d / sumSquaredDeviations d,
    mean d.y_values - sumCrossDeviations d / sumSquaredDeviations d * mean d.x_values, ?_⟩
  rw [leastSquares_train_eq model d hne hlen, Double.quot_of_ne_zero _ _ hpos.ne']
  refine ⟨rfl, rfl, rfl, ?_, (binary64_leastSquares_train_eq model64 d hne).1, ?_⟩
  · exact (leastSquares_minimiser d hlen hdist _ _).mpr ⟨rfl, rfl⟩
  · intro s c _ _
    exact leastSquares_minimiser d hlen hdist s c

/-- C1, at scenario A of the specification, where `train` returns the slope 10 and the
intercept 35, the exact values, in binary64 arithmetic. -/
theorem C1_least_squares_minimises_residuals_witness :
    scenarioA.x_values.length = scenarioA.y_values.length ∧
    (∃ a ∈ scenarioA.x_values, ∃ b ∈ scenarioA.x_values, a ≠ b) ∧
    IEEE.LeastSquaresModel.train IEEE.RegressionModel.new scenarioA
      = ({ slope := Binary64.fin 10, intercept := Binary64.fin 35, mse := Binary64.fin 0 },
         none) ∧
    ∃ slope intercept : ℚ,
      (LeastSquaresModel.train RegressionModel.new scenarioA).2 = none ∧
      (LeastSquaresModel.train RegressionModel.new scenarioA).1.slope = Double.finite slope ∧
      (LeastSquaresModel.train RegressionModel.new scenarioA).1.intercept
        = Double.finite intercept ∧
      (∀ m b : ℚ,
        sumSquaredResiduals scenarioA slope intercept ≤ sumSquaredResiduals scenarioA m b) ∧
      (IEEE.LeastSquaresModel.train IEEE.RegressionModel.new scenarioA).2 = none ∧
      ∀ s c : ℚ,
        (IEEE.LeastSquaresModel.train IEEE.RegressionModel.new scenarioA).1.slope
          = Binary64.fin s →
        (IEEE.LeastSquaresModel.train IEEE.RegressionModel.new scenarioA).1.intercept
          = Binary64.fin c →
        ((∀ m b : ℚ, sumSquaredResiduals scenarioA s c ≤ sumSquaredResiduals scenarioA m b)
          ↔ (s = slope ∧ c = intercept)) :=
  ⟨rfl, ⟨1, by decide, 2, by decide, by decide⟩, scenarioA_binary64_train,
    C1_least_squares_minimises_residuals RegressionModel.new IEEE.RegressionModel.new
      scenarioA rfl ⟨1, by decide, 2, by decide, by decide⟩⟩

/-- Training does not read the fields of the model it overwrites. -/
theorem leastSquares_train_prior (m m1 : RegressionModel) (d : Dataset)
    (h : d.x_values ≠ []) :
    LeastSquaresModel.train m d = LeastSquaresModel.train m1 d := by
  simp only [LeastSquaresModel.train, Dataset.getXValues, List.isEmpty_eq_true, h, if_false]
  rfl

/-- C3: training the least-squares strategy on scenario A returns normally with slope
exactly 10 and intercept exactly 35; every residual is 0, and so is the training MSE, both
the one stored by `train` and the one `calculateMSE` computes for the fitted model. -/
theorem C3_scenarioA_exact_fit (m : RegressionModel) :
    (LeastSquaresModel.train m scenarioA).2 = none ∧
    (LeastSquaresModel.train m scenarioA).1.slope = Double.finite 10 ∧
    (LeastSquaresModel.train m scenarioA).1.intercept = Double.finite 35 ∧
    (∀ xy ∈ scenarioA.samples,
      Double.finite xy.2 - (LeastSquaresModel.train m scenarioA).1.predict xy.1
        = Double.finite 0) ∧
    (LeastSquaresModel.train m scenarioA).1.getMSE = Double.finite 0 ∧
    (LeastSquaresModel.train m scenarioA).1.calculateMSE scenarioA = Double.finite 0 := by
  rw [leastSquares_train_prior m RegressionModel.new scenarioA (by decide)]
  decide!

/-! ## Gradient descent -/

theorem proposal_eq_gradientStep (d : Dataset) (lr : ℚ) (p : ℚ × ℚ) :
    GradientDescentModel.proposal d.x_values d.y_values lr p = gradientStep d lr p := by
  unfold GradientDescentModel.proposal GradientDescentModel.gradients gradientStep
    Dataset.samples Dataset.getSize
  rw [foldl_pair_eq_sums
    (fun xy : ℚ × ℚ => 2 / (d.x_values.length : ℚ) * (p.1 * xy.1 + p.2 - xy.2) * xy.1)
    (fun xy : ℚ × ℚ => 2 / (d.x_values.length : ℚ) * (p.1 * xy.1 + p.2 - xy.2))]
  have h1 : ((List.zip d.x_values d.y_values).map
      (fun xy : ℚ × ℚ => 2 / (d.x_values.length : ℚ) * (p.1 * xy.1 + p.2 - xy.2) * xy.1)).sum
      = 2 / (d.x_values.length : ℚ) * ((List.zip d.x_values d.y_values).map
        (fun xy : ℚ × ℚ => (p.1 * xy.1 + p.2 - xy.2) * xy.1)).sum := by
    rw [← List.sum_map_mul_left]
    congr 1
    apply List.map_congr_left
    intro a _
    ring
  have h2 : ((List.zip d.x_values d.y_values).map
      (fun xy : ℚ × ℚ => 2 / (d.x_values.length : ℚ) * (p.1 * xy.1 + p.2 - xy.2))).sum
      = 2 / (d.x_values.length : ℚ) * ((List.zip d.x_values d.y_values).map
        (fun xy : ℚ × ℚ => p.1 * xy.1 + p.2 - xy.2)).sum := by
    rw [← List.sum_map_mul_left]
  simp only [h1, h2, zero_add]
  ext <;> simp only <;> ring

theorem iterate_spec (d : Dataset) (lr tol : ℚ) (fuel : ℕ) (p : ℚ × ℚ) :
    ∃ k : ℕ, k ≤ fuel ∧
      GradientDescentModel.iterate d.x_values d.y_values lr tol fuel p
        = (gradientStep d lr)^[k] p ∧
      (∀ j < k, ¬ belowTolerance d lr tol ((gradientStep d lr)^[j] p)) ∧
      (k < fuel → belowTolerance d lr tol ((gradientStep d lr)^[k] p)) := by
  induction fuel generalizing p with
  | zero => exact ⟨0, le_refl _, rfl, by simp, by simp⟩
  | succ fuel ih =>
    by_cases hb : belowTolerance d lr tol p
    · refine ⟨0, Nat.zero_le _, ?_, by simp, fun _ => hb⟩
      have hb1 := hb
      unfold belowTolerance at hb1
      rw [← proposal_eq_gradientStep] at hb1
      simp [GradientDescentModel.iterate, hb1]
    · obtain ⟨k, hk, hres, hmin, hstop⟩ := ih (gradientStep d lr p)
      refine ⟨k + 1, Nat.succ_le_succ hk, ?_, ?_, ?_⟩
      · have hb1 := hb
        unfold belowTolerance at hb1
        rw [Function.iterate_succ_apply, ← hres]
        simp only [GradientDescentModel.iterate, proposal_eq_gradientStep]
        rw [if_neg hb1]
      · intro j hj
        cases j with
        | zero => simpa using hb
        | succ j =>
          rw [Function.iterate_succ_apply]
          exact hmin j (Nat.lt_of_succ_lt_succ hj)
      · intro hlt
        rw [Function.iterate_succ_apply]
        exact hstop (Nat.lt_of_succ_lt_succ hlt)

theorem gradientDescent_train_eq (m : GradientDescentModel) (d : Dataset)
    (h : d.x_values ≠ []) :
    (GradientDescentModel.train m d).2 = none ∧
    (GradientDescentModel.train m d).1.slope
      = Double.finite (GradientDescentModel.iterate d.x_values d.y_values m.learning_rate
          m.tolerance m.max_iterations.toNat (0, 0)).1 ∧
    (GradientDescentModel.train m d).1.intercept
      = Double.finite (GradientDescentModel.iterate d.x_values d.y_values m.learning_rate
          m.tolerance m.max_iterations.toNat (0, 0)).2 := by
  refine ⟨?_, ?_, ?_⟩ <;>
    simp [GradientDescentModel.train, Dataset.getXValues, Dataset.getYValues, h]

/-- The result of `train` in scenario C, with the configuration written out. -/
theorem scenarioC_train :
    (GradientDescentModel.train scenarioC scenarioA).2 = none ∧
    (GradientDescentModel.train scenarioC scenarioA).1.slope
      = Double.finite (GradientDescentModel.iterate scenarioA.x_values scenarioA.y_values
          (1 / 100) (1 / 1000000) 1000 (0, 0)).1 ∧
    (GradientDescentModel.train scenarioC scenarioA).1.intercept
      = Double.finite (GradientDescentModel.iterate scenarioA.x_values scenarioA.y_values
          (1 / 100) (1 / 1000000) 1000 (0, 0)).2 :=
  gradientDescent_train_eq scenarioC scenarioA (by decide)

set_option maxRecDepth 1000000 in
/-- The parameters after the loop of scenario C, to two decimal places. -/
theorem scenarioC_loop_bounds :
    (1028 / 100 < (GradientDescentModel.iterate scenarioA.x_values scenarioA.y_values
        (1 / 100) (1 / 1000000) 1000 (0, 0)).1 ∧
      (GradientDescentModel.iterate scenarioA.x_values scenarioA.y_values
        (1 / 100) (1 / 1000000) 1000 (0, 0)).1 < 1029 / 100) ∧
    (3398 / 100 < (GradientDescentModel.iterate scenarioA.x_values scenarioA.y_values
        (1 / 100) (1 / 1000000) 1000 (0, 0)).2 ∧
      (GradientDescentModel.iterate scenarioA.x_values scenarioA.y_values
        (1 / 100) (1 / 1000000) 1000 (0, 0)).2 < 3399 / 100) := by
  decide!

/-- C4, refuted as stated: gradient descent as configured in scenario C does not end
within 0.01 of slope 10 and intercept 35 on scenario A. -/
theorem C4_scenarioC_not_within_tolerance :
    ¬ ∃ slope intercept : ℚ,
      (GradientDescentModel.train scenarioC scenarioA).1.slope = Double.finite slope ∧
      (GradientDescentModel.train scenarioC scenarioA).1.intercept = Double.finite intercept ∧
      |slope - 10| ≤ 1 / 100 ∧ |intercept - 35| ≤ 1 / 100 := by
  rintro ⟨slope, intercept, hs, -, h1, -⟩
  obtain ⟨-, hslope, -⟩ := scenarioC_train
  rw [hslope] at hs
  have hs1 := Double.finite.inj hs
  have hb := scenarioC_loop_bounds.1.1
  have hb1 : (1028 : ℚ) / 100 < slope := by rw [← hs1]; exact hb
  have := (abs_le.mp h1).2
  linarith

/-- C4, amended: gradient descent as configured in scenario C returns normally on
scenario A with `|slope - 10| ≤ 0.29` and `|intercept - 35| ≤ 1.02`; the slope lies
between 10.28 and 10.29 and the intercept between 33.98 and 33.99. -/
theorem C4_scenarioC_parameters :
    (GradientDescentModel.train scenarioC scenarioA).2 = none ∧
    ∃ slope intercept : ℚ,
      (GradientDescentModel.train scenarioC scenarioA).1.slope = Double.finite slope ∧
      (GradientDescentModel.train scenarioC scenarioA).1.intercept = Double.finite intercept ∧
      |slope - 10| ≤ 29 / 100 ∧ |intercept - 35| ≤ 102 / 100 ∧
      1028 / 100 < slope ∧ slope < 1029 / 100 ∧
      3398 / 100 < intercept ∧ intercept < 3399 / 100 := by
  obtain ⟨herr, hslope, hintercept⟩ := scenarioC_train
  obtain ⟨⟨h1, h2⟩, h3, h4⟩ := scenarioC_loop_bounds
  refine ⟨herr, _, _, hslope, hintercept, ?_, ?_, h1, h2, h3, h4⟩
  · rw [abs_le]
    constructor
    · have : (1028 : ℚ) / 100 < _ := h1
      linarith
    · have : _ < (1029 : ℚ) / 100 := h2
      linarith
  · rw [abs_le]
    constructor
    · have : (3398 : ℚ) / 100 < _ := h3
      linarith
    · have : _ < (3399 : ℚ) / 100 := h4
      linarith

theorem strategy_train_ok (m : Strategy) (d : Dataset) (h : d.x_values ≠ []) :
    (m.train d).2 = none := by
  cases m with
  | gradientDescent g =>
    exact (gradientDescent_train_eq g d h).1
  | leastSquares l =>
    simp [Strategy.train, LeastSquaresModel.train, Dataset.getXValues, h]

theorem ne_nil_of_two_le_getSize (d : Dataset) (h : ¬ d.getSize < 2) : d.x_values ≠ [] := by
  intro hnil
  apply h
  simp [Dataset.getSize, hnil]

theorem trainModel_of_model_none (s : LinearRegression) (h : s.model = none) :
    s.trainModel = (s, some Error.noModelSelected) := by
  simp [LinearRegression.trainModel, h]

theorem trainModel_of_small (s : LinearRegression) (m : Strategy) (h : s.model = some m)
    (hsize : s.dataset.getSize < 2) :
    s.trainModel = (s, some Error.insufficientData) := by
  simp [LinearRegression.trainModel, h, hsize]

theorem trainModel_of_ready (s : LinearRegression) (m : Strategy) (h : s.model = some m)
    (hsize : ¬ s.dataset.getSize < 2) :
    s.trainModel
      = ({ s with model := some (m.train s.dataset).1, is_trained := true }, none) := by
  have hok := strategy_train_ok m s.dataset (ne_nil_of_two_le_getSize _ hsize)
  have hpair : m.train s.dataset = ((m.train s.dataset).1, none) := Prod.ext rfl hok
  simp only [LinearRegression.trainModel, h, hsize, if_false]
  rw [hpair]

/-- C6: `trainModel` throws the no-model-selected error exactly when no strategy is
selected; with a strategy selected it throws the insufficient-data error exactly when the
dataset has fewer than 2 samples; with a strategy and at least 2 samples it returns
normally and leaves `is_trained` true.  Whenever it throws, the session is unchanged. -/
theorem C6_trainModel_outcomes (s : LinearRegression) :
    (s.trainModel.2 = some Error.noModelSelected ↔ s.model = none) ∧
    (s.model ≠ none →
      (s.trainModel.2 = some Error.insufficientData ↔ s.dataset.getSize < 2)) ∧
    (s.model ≠ none → ¬ s.dataset.getSize < 2 →
      s.trainModel.2 = none ∧ s.trainModel.1.is_trained = true) ∧
    (s.trainModel.2 ≠ none → s.trainModel.1 = s) := by
  cases hm : s.model with
  | none =>
    rw [trainModel_of_model_none s hm]
    simp
  | some m =>
    by_cases hsize : s.dataset.getSize < 2
    · rw [trainModel_of_small s m hm hsize]
      simp [hsize]
    · rw [trainModel_of_ready s m hm hsize]
      simp [hsize]

theorem predict_of_untrained (s : LinearRegression) (h : s.is_trained = false) (x : ℚ) :
    s.predict x = Except.error Error.modelNotTrained := by
  unfold LinearRegression.predict
  cases s.model <;> simp [h]

theorem predict_of_trained (s : LinearRegression) (m : Strategy) (hm : s.model = some m)
    (h : s.is_trained = true) (x : ℚ) :
    s.predict x = Except.ok (m.predict x) := by
  simp [LinearRegression.predict, hm, h]

theorem run_model_of_trained (stod : List Char → Option ℚ) (c : Call) (s : LinearRegression)
    (hinv : s.is_trained = true → s.model ≠ none) :
    (c.run stod s).1.is_trained = true → (c.run stod s).1.model ≠ none := by
  cases c with
  | loadData file =>
    simp only [Call.run, LinearRegression.loadData]
    rcases hload : s.dataset.loadFromCSV stod file with ⟨d, _ | e⟩
    · simp
    · simpa using hinv
  | addDataPoint x y => simp [Call.run, LinearRegression.addDataPoint]
  | useLeastSquares => simp [Call.run, LinearRegression.useLeastSquares]
  | useGradientDescent lr max_iter tol => simp [Call.run, LinearRegression.useGradientDescent]
  | trainModel =>
    simp only [Call.run]
    cases hm : s.model with
    | none =>
      rw [trainModel_of_model_none s hm]
      intro h
      exact absurd hm (hinv h)
    | some m =>
      by_cases hsize : s.dataset.getSize < 2
      · rw [trainModel_of_small s m hm hsize]
        exact hinv
      · rw [trainModel_of_ready s m hm hsize]
        simp

/-- In every state a sequence of calls reaches from a new session, a true `is_trained`
comes with a selected strategy. -/
theorem runCalls_model_of_trained (stod : List Char → Option ℚ) (calls : List Call)
    (s : LinearRegression) (hinv : s.is_trained = true → s.model ≠ none) :
    (runCalls stod calls s).is_trained = true → (runCalls stod calls s).model ≠ none := by
  induction calls generalizing s with
  | nil => exact hinv
  | cons c cs ih => exact ih _ (run_model_of_trained stod c s hinv)

theorem run_untrained (stod : List Char → Option ℚ) (c : Call) (s : LinearRegression)
    (h : s.is_trained = false) (hc : c.trainsIn s = false) :
    (c.run stod s).1.is_trained = false := by
  cases c with
  | loadData file =>
    simp only [Call.run, LinearRegression.loadData]
    rcases hload : s.dataset.loadFromCSV stod file with ⟨d, _ | e⟩
    · simp
    · simpa using h
  | addDataPoint x y => simp [Call.run, LinearRegression.addDataPoint]
  | useLeastSquares => simp [Call.run, LinearRegression.useLeastSquares]
  | useGradientDescent lr max_iter tol => simp [Call.run, LinearRegression.useGradientDescent]
  | trainModel =>
    simp only [Call.run]
    simp only [Call.trainsIn] at hc
    cases hm : s.model with
    | none =>
      rw [trainModel_of_model_none s hm]
      exact h
    | some m =>
      by_cases hsize : s.dataset.getSize < 2
      · rw [trainModel_of_small s m hm hsize]
        exact h
      · rw [trainModel_of_ready s m hm hsize] at hc
        simp at hc

theorem runCalls_untrained (stod : List Char → Option ℚ) (calls : List Call)
    (s : LinearRegression) (h : s.is_trained = false)
    (hnone : noneTrains stod calls s = true) :
    (runCalls stod calls s).is_trained = false := by
  induction calls generalizing s with
  | nil => exact h
  | cons c cs ih =>
    simp only [noneTrains, Bool.and_eq_true, Bool.not_eq_true'] at hnone
    exact ih _ (run_untrained stod c s h hnone.1) hnone.2

theorem trainModel_ok (s s1 : LinearRegression) (h : s.trainModel = (s1, none)) :
    s1.is_trained = true ∧ ∃ m, s1.model = some m := by
  cases hm : s.model with
  | none =>
    rw [trainModel_of_model_none s hm] at h
    simp at h
  | some m =>
    by_cases hsize : s.dataset.getSize < 2
    · rw [trainModel_of_small s m hm hsize] at h
      simp at h
    · rw [trainModel_of_ready s m hm hsize] at h
      have h1 := (Prod.mk.inj h).1
      rw [← h1]
      exact ⟨rfl, _, rfl⟩

/-- C7: in every state that a sequence of calls reaches from a new session, `predict`
throws the model-not-trained error exactly when `is_trained` is false, and throws no other
error; in particular it throws on a new session and on every session, whatever its data
and strategy, reached without a `trainModel` that returned normally. -/
theorem C7_predict_fails_iff_untrained (stod : List Char → Option ℚ) (calls : List Call)
    (x : ℚ) :
    ((runCalls stod calls LinearRegression.new).predict x
        = Except.error Error.modelNotTrained
      ↔ (runCalls stod calls LinearRegression.new).is_trained = false) ∧
    (∀ e, (runCalls stod calls LinearRegression.new).predict x = Except.error e
      → e = Error.modelNotTrained) ∧
    (noneTrains stod calls LinearRegression.new = true →
      (runCalls stod calls LinearRegression.new).predict x
        = Except.error Error.modelNotTrained) ∧
    LinearRegression.new.predict x = Except.error Error.modelNotTrained := by
  have hinv := runCalls_model_of_trained stod calls LinearRegression.new (by simp [LinearRegression.new])
  refine ⟨?_, ?_, ?_, rfl⟩
  · constructor
    · intro hfail
      cases htr : (runCalls stod calls LinearRegression.new).is_trained with
      | false => rfl
      | true =>
        obtain ⟨m, hm⟩ := Option.ne_none_iff_exists'.mp (hinv htr)
        rw [predict_of_trained _ m hm htr] at hfail
        cases hfail
    · intro h
      exact predict_of_untrained _ h x
  · intro e he
    cases htr : (runCalls stod calls LinearRegression.new).is_trained with
    | false =>
      rw [predict_of_untrained _ htr] at he
      cases he
      rfl
    | true =>
      obtain ⟨m, hm⟩ := Option.ne_none_iff_exists'.mp (hinv htr)
      rw [predict_of_trained _ m hm htr] at he
      cases he
  · intro hnone
    exact predict_of_untrained _ (runCalls_untrained stod calls _ rfl hnone) x

/-- C8: on a session on which `trainModel` has just returned normally, `predict(x)`
returns, for every `x`, `slope * x + intercept` for the slope and intercept that the
session's strategy exposes through `getSlope` and `getIntercept`. -/
theorem C8_predict_after_training (s s1 : LinearRegression) (h : s.trainModel = (s1, none))
    (x : ℚ) :
    ∃ m : Strategy, s1.model = some m ∧
      s1.predict x = Except.ok (m.getSlope * Double.finite x + m.getIntercept) := by
  obtain ⟨htr, m, hm⟩ := trainModel_ok s s1 h
  exact ⟨m, hm, predict_of_trained s1 m hm htr x⟩

/-- C8, at a session trained by least squares on two samples. -/
theorem C8_predict_after_training_witness :
    (((LinearRegression.new.useLeastSquares).addDataPoint 1 1).addDataPoint 2 2).trainModel
      = (trainedSession, none) ∧
    ∃ m : Strategy, trainedSession.model = some m ∧
      trainedSession.predict 5 = Except.ok (m.getSlope * Double.finite 5 + m.getIntercept) :=
  ⟨by decide!,
    C8_predict_after_training
      (((LinearRegression.new.useLeastSquares).addDataPoint 1 1).addDataPoint 2 2)
      trainedSession (by decide!) 5⟩

/-- C9: when `addDataPoint` is called on a session in the Trained state, `is_trained`
becomes false; after any further calls none of which is a `trainModel` that returns
normally, `predict` throws the model-not-trained error for every input; and once a
`trainModel` then returns normally, `predict` returns a value for every input. -/
theorem C9_addDataPoint_untrains (stod : List Char → Option ℚ) (s : LinearRegression)
    (_h : s.is_trained = true) (x y : ℚ) :
    (s.addDataPoint x y).is_trained = false ∧
    (∀ calls : List Call, noneTrains stod calls (s.addDataPoint x y) = true →
      (∀ q : ℚ, (runCalls stod calls (s.addDataPoint x y)).predict q
        = Except.error Error.modelNotTrained) ∧
      (∀ s1 : LinearRegression,
        (runCalls stod calls (s.addDataPoint x y)).trainModel = (s1, none) →
        ∀ q : ℚ, ∃ v : Double, s1.predict q = Except.ok v)) := by
  refine ⟨rfl, ?_⟩
  intro calls hnone
  constructor
  · intro q
    exact predict_of_untrained _ (runCalls_untrained stod calls _ rfl hnone) q
  · intro s1 hs1 q
    obtain ⟨htr, m, hm⟩ := trainModel_ok _ s1 hs1
    exact ⟨_, predict_of_trained s1 m hm htr q⟩

/-- C9, at a session trained by least squares on two samples, to which `(3, 5)` is added. -/
theorem C9_addDataPoint_untrains_witness :
    trainedSession.is_trained = true ∧
    (trainedSession.addDataPoint 3 5).is_trained = false ∧
    (∀ calls : List Call,
      noneTrains (fun _ => none) calls (trainedSession.addDataPoint 3 5) = true →
      (∀ q : ℚ, (runCalls (fun _ => none) calls (trainedSession.addDataPoint 3 5)).predict q
        = Except.error Error.modelNotTrained) ∧
      (∀ s1 : LinearRegression,
        (runCalls (fun _ => none) calls (trainedSession.addDataPoint 3 5)).trainModel
          = (s1, none) →
        ∀ q : ℚ, ∃ v : Double, s1.predict q = Except.ok v)) :=
  ⟨by decide!, C9_addDataPoint_untrains (fun _ => none) trainedSession (by decide!) 3 5⟩

theorem gradientDescent_train_idem (m : GradientDescentModel) (d : Dataset)
    (h : d.x_values ≠ []) :
    GradientDescentModel.train (GradientDescentModel.train m d).1 d
      = ((GradientDescentModel.train m d).1, none) := by
  simp only [GradientDescentModel.train, Dataset.getXValues, Dataset.getYValues,
    List.isEmpty_eq_true, h, if_false]
  rfl

theorem leastSquares_train_idem (m : RegressionModel) (d : Dataset)
    (h : d.x_values ≠ []) :
    LeastSquaresModel.train (LeastSquaresModel.train m d).1 d
      = ((LeastSquaresModel.train m d).1, none) := by
  rw [leastSquares_train_prior (LeastSquaresModel.train m d).1 m d h]
  simp only [LeastSquaresModel.train, Dataset.getXValues, List.isEmpty_eq_true, h, if_false]

theorem strategy_train_idem (m : Strategy) (d : Dataset) (h : d.x_values ≠ []) :
    (m.train d).1.train d = ((m.train d).1, none) := by
  cases m with
  | gradientDescent g =>
    simp only [Strategy.train]
    rw [gradientDescent_train_idem g d h]
  | leastSquares l =>
    simp only [Strategy.train]
    rw [leastSquares_train_idem l d h]

theorem run_trained_matches (stod : List Char → Option ℚ) (c : Call) (s : LinearRegression)
    (hload : ∀ file, c = Call.loadData file → (s.loadData stod file).2 = none)
    (hinv : s.is_trained = true →
      ∃ m, s.model = some m ∧ m.train s.dataset = (m, none)) :
    (c.run stod s).1.is_trained = true →
      ∃ m, (c.run stod s).1.model = some m ∧ m.train (c.run stod s).1.dataset = (m, none) := by
  cases c with
  | loadData file =>
    have hok := hload file rfl
    simp only [Call.run]
    simp only [LinearRegression.loadData] at hok ⊢
    rcases hl : s.dataset.loadFromCSV stod file with ⟨d, _ | e⟩
    · simp
    · rw [hl] at hok
      simp at hok
  | addDataPoint x y => simp [Call.run, LinearRegression.addDataPoint]
  | useLeastSquares => simp [Call.run, LinearRegression.useLeastSquares]
  | useGradientDescent lr max_iter tol => simp [Call.run, LinearRegression.useGradientDescent]
  | trainModel =>
    simp only [Call.run]
    cases hm : s.model with
    | none =>
      rw [trainModel_of_model_none s hm]
      exact hinv
    | some m =>
      by_cases hsize : s.dataset.getSize < 2
      · rw [trainModel_of_small s m hm hsize]
        exact hinv
      · rw [trainModel_of_ready s m hm hsize]
        intro _
        exact ⟨_, rfl, strategy_train_idem m s.dataset (ne_nil_of_two_le_getSize _ hsize)⟩

/-- On every sequence of calls in which no `loadData` throws, a true `is_trained` comes
with a strategy whose fields are what training it on the current dataset produces:
training it again returns normally and changes nothing. -/
theorem runCalls_trained_matches (stod : List Char → Option ℚ) (calls : List Call)
    (s : LinearRegression) (hload : noLoadFails stod calls s = true)
    (hinv : s.is_trained = true →
      ∃ m, s.model = some m ∧ m.train s.dataset = (m, none)) :
    (runCalls stod calls s).is_trained = true →
      ∃ m, (runCalls stod calls s).model = some m ∧
        m.train (runCalls stod calls s).dataset = (m, none) := by
  induction calls generalizing s with
  | nil => exact hinv
  | cons c cs ih =>
    cases c with
    | loadData file =>
      simp only [noLoadFails, Bool.and_eq_true, Option.isNone_iff_eq_none] at hload
      apply ih _ hload.2
      apply run_trained_matches stod (Call.loadData file) s _ hinv
      intro f hf
      cases hf
      exact hload.1
    | addDataPoint x y =>
      exact ih _ hload (run_trained_matches stod _ s (fun _ hf => by cases hf) hinv)
    | useLeastSquares =>
      exact ih _ hload (run_trained_matches stod _ s (fun _ hf => by cases hf) hinv)
    | useGradientDescent lr max_iter tol =>
      exact ih _ hload (run_trained_matches stod _ s (fun _ hf => by cases hf) hinv)
    | trainModel =>
      exact ih _ hload (run_trained_matches stod _ s (fun _ hf => by cases hf) hinv)

/-- The session of `trainedSession`, field by field. -/
theorem trainedSession_eq :
    trainedSession =
      { model := some (Strategy.leastSquares
          { slope := Double.finite 1, intercept := Double.finite 0, mse := Double.finite 0 }),
        dataset := { x_values := [1, 2], y_values := [1, 2], x_label := "X", y_label := "Y" },
        is_trained := true } := by
  decide!

theorem runCalls_failedLoadCalls (stod : List Char → Option ℚ) :
    runCalls stod failedLoadCalls LinearRegression.new
      = { model := some (Strategy.leastSquares
            { slope := Double.finite 1, intercept := Double.finite 0, mse := Double.finite 0 }),
          dataset := { x_values := [], y_values := [], x_label := "X", y_label := "Y" },
          is_trained := true } := by
  have h : runCalls stod failedLoadCalls LinearRegression.new
      = (trainedSession.loadData stod none).1 := rfl
  rw [h, trainedSession_eq]
  rfl

/-- C10, the failing input: after a session is trained by least squares on `(1, 1)` and
`(2, 2)` and `loadData` then fails on a file that cannot be opened, the dataset is empty
and `is_trained` is still true; the strategy keeps slope 1 and intercept 0, which training
on the current dataset does not produce (it throws), and `predict(3)` returns 3. -/
theorem C10_failed_load_keeps_trained (stod : List Char → Option ℚ) :
    (Call.run stod (Call.loadData none) trainedSession).2 = some Error.cannotOpenFile ∧
    (runCalls stod failedLoadCalls LinearRegression.new).is_trained = true ∧
    (runCalls stod failedLoadCalls LinearRegression.new).dataset.x_values = [] ∧
    (runCalls stod failedLoadCalls LinearRegression.new).dataset.y_values = [] ∧
    (∃ m : Strategy, (runCalls stod failedLoadCalls LinearRegression.new).model = some m ∧
      m.getSlope = Double.finite 1 ∧ m.getIntercept = Double.finite 0 ∧
      (m.train (runCalls stod failedLoadCalls LinearRegression.new).dataset).2
        = some Error.datasetEmpty) ∧
    (runCalls stod failedLoadCalls LinearRegression.new).predict 3
      = Except.ok (Double.finite 3) := by
  rw [runCalls_failedLoadCalls]
  refine ⟨rfl, rfl, rfl, rfl, ⟨_, rfl, rfl, rfl, rfl⟩, ?_⟩
  simp [LinearRegression.predict, Strategy.predict, Strategy.base, RegressionModel.predict]

/-! ## Ingestion -/

theorem readRow_eq (stod : List Char → Option ℚ) (d : Dataset) (line : List Char) :
    Dataset.readRow stod d line =
      match Dataset.parseRow stod line with
      | none => d
      | some xy => d.addDataPoint xy.1 xy.2 := by
  unfold Dataset.readRow Dataset.parseRow
  cases Dataset.splitRow line with
  | none => rfl
  | some p =>
    obtain ⟨x_str, y_str⟩ := p
    simp only
    cases stod x_str with
    | none => rfl
    | some x =>
      cases stod y_str with
      | none => rfl
      | some y => rfl

theorem foldl_readRow (stod : List Char → Option ℚ) (lines : List (List Char)) (d : Dataset) :
    lines.foldl (Dataset.readRow stod) d =
      { d with
        x_values := d.x_values ++ (lines.filterMap (Dataset.parseRow stod)).map Prod.fst,
        y_values := d.y_values ++ (lines.filterMap (Dataset.parseRow stod)).map Prod.snd } := by
  induction lines generalizing d with
  | nil => simp
  | cons line lines ih =>
    rw [List.foldl_cons, ih, readRow_eq]
    cases h : Dataset.parseRow stod line with
    | none => simp [List.filterMap_cons, h]
    | some xy => simp [List.filterMap_cons, h, Dataset.addDataPoint]

/-- The method `loadFromCSV` on a file that can be opened, in one expression: the rows are
those that the lines after a header deliver, the labels are the fields of a header. -/
theorem loadFromCSV_some (stod : List Char → Option ℚ) (text : String) (d : Dataset) :
    Dataset.loadFromCSV stod (some text) d =
      ({ x_values := ((Dataset.dataLines text.data).filterMap (Dataset.parseRow stod)).map Prod.fst,
         y_values := ((Dataset.dataLines text.data).filterMap (Dataset.parseRow stod)).map Prod.snd,
         x_label := match Dataset.headerOf text.data with
           | some h => String.mk h.1
           | none => d.x_label,
         y_label := match Dataset.headerOf text.data with
           | some h => String.mk h.2
           | none => d.y_label },
       if (Dataset.dataLines text.data).filterMap (Dataset.parseRow stod) = [] then
         some Error.noValidData
       else none) := by
  cases hl : Dataset.fileLines text.data with
  | nil =>
    simp [Dataset.loadFromCSV, Dataset.dataLines, Dataset.headerOf, hl]
  | cons line rest =>
    cases hs : Dataset.splitRow line with
    | none =>
      simp only [Dataset.loadFromCSV, Dataset.dataLines, Dataset.headerOf, hl, hs,
        foldl_readRow, List.nil_append, List.isEmpty_eq_true, List.map_eq_nil_iff]
      split <;> rfl
    | some p =>
      obtain ⟨x_header, y_header⟩ := p
      simp only [Dataset.loadFromCSV, Dataset.dataLines, Dataset.headerOf, hl, hs,
        foldl_readRow, List.nil_append, List.isEmpty_eq_true, List.map_eq_nil_iff]
      split <;> rfl

theorem loadFromCSV_none (stod : List Char → Option ℚ) (d : Dataset) :
    Dataset.loadFromCSV stod none d =
      ({ d with x_values := [], y_values := [] }, some Error.cannotOpenFile) := rfl

theorem loadFromCSV_samples (stod : List Char → Option ℚ) (text : String) (d : Dataset) :
    (Dataset.loadFromCSV stod (some text) d).1.samples
      = (Dataset.dataLines text.data).filterMap (Dataset.parseRow stod) := by
  rw [loadFromCSV_some]
  exact (List.zip_of_prod rfl rfl).symm

theorem loadData_flag_of_ok (stod : List Char → Option ℚ) (s : LinearRegression)
    (file : Option String) (h : (s.loadData stod file).2 = none) :
    (s.loadData stod file).1.is_trained = false := by
  unfold LinearRegression.loadData at h ⊢
  rcases hl : s.dataset.loadFromCSV stod file with ⟨d, _ | e⟩
  · rfl
  · rw [hl] at h
    simp at h

theorem loadData_flag_of_error (stod : List Char → Option ℚ) (s : LinearRegression)
    (file : Option String) (h : (s.loadData stod file).2 ≠ none) :
    (s.loadData stod file).1.is_trained = s.is_trained := by
  unfold LinearRegression.loadData at h ⊢
  rcases hl : s.dataset.loadFromCSV stod file with ⟨d, _ | e⟩
  · rw [hl] at h
    simp at h
  · rfl

/-- C11, the failing input: on a session in the Trained state, `loadData` on a file that
cannot be opened throws and leaves `is_trained` true, and so does `loadData` on a file
that holds only a header line; in general `loadData` leaves the flag false when it returns
normally and leaves it as it was when it throws. -/
theorem C11_failed_loadData_leaves_flag (stod : List Char → Option ℚ) :
    (trainedSession.loadData stod none).2 = some Error.cannotOpenFile ∧
    (trainedSession.loadData stod none).1.is_trained = true ∧
    (trainedSession.loadData stod (some "X,Y")).2 = some Error.noValidData ∧
    (trainedSession.loadData stod (some "X,Y")).1.is_trained = true ∧
    (∀ (s : LinearRegression) (file : Option String),
      (s.loadData stod file).2 = none → (s.loadData stod file).1.is_trained = false) ∧
    (∀ (s : LinearRegression) (file : Option String),
      (s.loadData stod file).2 ≠ none →
        (s.loadData stod file).1.is_trained = s.is_trained) := by
  have hfail : (trainedSession.loadData stod (some "X,Y")).2 = some Error.noValidData := by
    simp only [LinearRegression.loadData, loadFromCSV_some]
    have hd : Dataset.dataLines "X,Y".data = [] := by decide
    simp [hd]
  refine ⟨rfl, ?_, hfail, ?_, loadData_flag_of_ok stod, loadData_flag_of_error stod⟩
  · rw [loadData_flag_of_error stod trainedSession none (by simp [LinearRegression.loadData, loadFromCSV_none])]
    rw [trainedSession_eq]
  · rw [loadData_flag_of_error stod trainedSession _ (by rw [hfail]; simp)]
    rw [trainedSession_eq]

/-- C12: `useLeastSquares` and `useGradientDescent(lr, max_iter, tol)` set `is_trained` to
false, replace the strategy by a new object whose slope, intercept and mse are 0 (with the
given configuration for gradient descent, an argument left out being 0.01, 1000 or 1e-6),
and leave the dataset, samples and labels, as it was. -/
theorem C12_strategy_selection (s : LinearRegression) (lr : ℚ) (max_iter : ℤ) (tol : ℚ) :
    (s.useLeastSquares.is_trained = false ∧
      s.useLeastSquares.model = some (Strategy.leastSquares
        { slope := Double.finite 0, intercept := Double.finite 0, mse := Double.finite 0 }) ∧
      s.useLeastSquares.dataset = s.dataset) ∧
    ((s.useGradientDescent lr max_iter tol).is_trained = false ∧
      (s.useGradientDescent lr max_iter tol).model = some (Strategy.gradientDescent
        { slope := Double.finite 0, intercept := Double.finite 0, mse := Double.finite 0,
          learning_rate := lr, max_iterations := max_iter, tolerance := tol }) ∧
      (s.useGradientDescent lr max_iter tol).dataset = s.dataset) ∧
    (s.useGradientDescentWith none none none
        = s.useGradientDescent (1 / 100) 1000 (1 / 1000000) ∧
      s.useGradientDescentWith (some lr) none none
        = s.useGradientDescent lr 1000 (1 / 1000000) ∧
      s.useGradientDescentWith (some lr) (some max_iter) none
        = s.useGradientDescent lr max_iter (1 / 1000000) ∧
      s.useGradientDescentWith (some lr) (some max_iter) (some tol)
        = s.useGradientDescent lr max_iter tol) :=
  ⟨⟨rfl, rfl, rfl⟩, ⟨rfl, rfl, rfl⟩, ⟨rfl, rfl, rfl, rfl⟩⟩

/-- C14: `loadFromCSV` throws the cannot-open error exactly when the file cannot be
opened; on a file that can be opened it throws the no-valid-data error exactly when the
lines after a header deliver no row, as for a file that holds only a header line, and it
returns normally otherwise; the rows delivered are the samples of the dataset. -/
theorem C14_loadFromCSV_errors (stod : List Char → Option ℚ) (d : Dataset) :
    (∀ file : Option String,
      (d.loadFromCSV stod file).2 = some Error.cannotOpenFile ↔ file = none) ∧
    (∀ text : String,
      ((d.loadFromCSV stod (some text)).2 = some Error.noValidData
        ↔ (Dataset.dataLines text.data).filterMap (Dataset.parseRow stod) = []) ∧
      ((d.loadFromCSV stod (some text)).2 = none
        ↔ (Dataset.dataLines text.data).filterMap (Dataset.parseRow stod) ≠ []) ∧
      (d.loadFromCSV stod (some text)).1.samples
        = (Dataset.dataLines text.data).filterMap (Dataset.parseRow stod)) ∧
    (∀ (text : String) (line : List Char), Dataset.fileLines text.data = [line] →
      (Dataset.splitRow line).isSome = true →
      (d.loadFromCSV stod (some text)).2 = some Error.noValidData) ∧
    (d.loadFromCSV stod (some "Study_Hours,Exam_Score\n")).2 = some Error.noValidData := by
  have hrows : ∀ text : String,
      ((d.loadFromCSV stod (some text)).2 = some Error.noValidData
        ↔ (Dataset.dataLines text.data).filterMap (Dataset.parseRow stod) = []) := by
    intro text
    rw [loadFromCSV_some]
    by_cases h : (Dataset.dataLines text.data).filterMap (Dataset.parseRow stod) = []
    · simp [h]
    · simp [h]
  have hheader : ∀ (text : String) (line : List Char), Dataset.fileLines text.data = [line] →
      (Dataset.splitRow line).isSome = true →
      (d.loadFromCSV stod (some text)).2 = some Error.noValidData := by
    intro text line hl hs
    rw [hrows]
    obtain ⟨p, hp⟩ := Option.isSome_iff_exists.mp hs
    simp [Dataset.dataLines, hl, hp]
  refine ⟨?_, ?_, hheader, ?_⟩
  · intro file
    cases file with
    | none => simp [loadFromCSV_none]
    | some text =>
      rw [loadFromCSV_some]
      by_cases h : (Dataset.dataLines text.data).filterMap (Dataset.parseRow stod) = []
      · simp [h]
      · simp [h]
  · intro text
    refine ⟨hrows text, ?_, loadFromCSV_samples stod text d⟩
    rw [loadFromCSV_some]
    by_cases h : (Dataset.dataLines text.data).filterMap (Dataset.parseRow stod) = []
    · simp [h]
    · simp [h]
  · exact hheader _ "Study_Hours,Exam_Score".data (by decide) (by decide)

/-- C16: after `loadFromCSV` on a file that can be opened, the samples of the dataset are
the rows of the file, whatever the dataset held before; the labels are the two fields of
the first line when that line was taken as a header, and are as before otherwise. -/
theorem C16_loadFromCSV_replaces (stod : List Char → Option ℚ) (d : Dataset) (text : String) :
    (d.loadFromCSV stod (some text)).1.x_values
      = ((Dataset.dataLines text.data).filterMap (Dataset.parseRow stod)).map Prod.fst ∧
    (d.loadFromCSV stod (some text)).1.y_values
      = ((Dataset.dataLines text.data).filterMap (Dataset.parseRow stod)).map Prod.snd ∧
    (d.loadFromCSV stod (some text)).1.samples
      = (Dataset.dataLines text.data).filterMap (Dataset.parseRow stod) ∧
    (∀ x_header y_header : List Char,
      Dataset.headerOf text.data = some (x_header, y_header) →
      (d.loadFromCSV stod (some text)).1.x_label = String.mk x_header ∧
      (d.loadFromCSV stod (some text)).1.y_label = String.mk y_header) ∧
    (Dataset.headerOf text.data = none →
      (d.loadFromCSV stod (some text)).1.x_label = d.x_label ∧
      (d.loadFromCSV stod (some text)).1.y_label = d.y_label) := by
  refine ⟨?_, ?_, loadFromCSV_samples stod text d, ?_, ?_⟩
  · rw [loadFromCSV_some]
  · rw [loadFromCSV_some]
  · intro x_header y_header h
    rw [loadFromCSV_some]
    simp [h]
  · intro h
    rw [loadFromCSV_some]
    simp [h]

theorem loadFromCSV_length (stod : List Char → Option ℚ) (file : Option String) (d : Dataset) :
    (d.loadFromCSV stod file).1.x_values.length = (d.loadFromCSV stod file).1.y_values.length := by
  cases file with
  | none => rfl
  | some text =>
    rw [loadFromCSV_some]
    simp

theorem runDatasetCalls_length (stod : List Char → Option ℚ) (calls : List DatasetCall)
    (d : Dataset) (h : d.x_values.length = d.y_values.length) :
    (runDatasetCalls stod calls d).x_values.length
      = (runDatasetCalls stod calls d).y_values.length := by
  induction calls generalizing d with
  | nil => exact h
  | cons c cs ih =>
    apply ih
    cases c with
    | loadFromCSV file => exact loadFromCSV_length stod file d
    | addDataPoint x y => simp [DatasetCall.run, Dataset.addDataPoint, h]

/-- C17: in every dataset that a sequence of `loadFromCSV` and `addDataPoint` calls
reaches from a new dataset, the x-values and the y-values have the same length, which is
`getSize`; and a line whose first field `stod` converts and whose second field it does not
changes neither sequence. -/
theorem C17_sequences_equal_length (stod : List Char → Option ℚ) (calls : List DatasetCall) :
    (runDatasetCalls stod calls Dataset.new).x_values.length
      = (runDatasetCalls stod calls Dataset.new).y_values.length ∧
    (runDatasetCalls stod calls Dataset.new).getSize
      = (runDatasetCalls stod calls Dataset.new).x_values.length ∧
    (runDatasetCalls stod calls Dataset.new).getSize
      = (runDatasetCalls stod calls Dataset.new).y_values.length ∧
    (∀ (d : Dataset) (line x_str y_str : List Char) (x : ℚ),
      Dataset.splitRow line = some (x_str, y_str) → stod x_str = some x → stod y_str = none →
      Dataset.readRow stod d line = d) := by
  have h := runDatasetCalls_length stod calls Dataset.new rfl
  refine ⟨h, rfl, ?_, ?_⟩
  · rw [← h]
    rfl
  · intro d line x_str y_str x hs hx hy
    simp [Dataset.readRow, hs, hx, hy]

/-- C18: `addDataPoint(x, y)` has no failure; it yields the old x-values followed by `x`
and the old y-values followed by `y`, so the samples held before keep their places and
values, the size grows by 1, and the labels are unchanged. -/
theorem C18_addDataPoint_appends (d : Dataset) (x y : ℚ) :
    (d.addDataPoint x y).x_values = d.x_values ++ [x] ∧
    (d.addDataPoint x y).y_values = d.y_values ++ [y] ∧
    (∀ i : ℕ, i < d.x_values.length → (d.addDataPoint x y).x_values[i]? = d.x_values[i]?) ∧
    (∀ i : ℕ, i < d.y_values.length → (d.addDataPoint x y).y_values[i]? = d.y_values[i]?) ∧
    (d.addDataPoint x y).getSize = d.getSize + 1 ∧
    (d.addDataPoint x y).x_label = d.x_label ∧
    (d.addDataPoint x y).y_label = d.y_label := by
  refine ⟨rfl, rfl, ?_, ?_, ?_, rfl, rfl⟩
  · intro i hi
    simp [Dataset.addDataPoint, List.getElem?_append_left hi]
  · intro i hi
    simp [Dataset.addDataPoint, List.getElem?_append_left hi]
  · simp [Dataset.addDataPoint, Dataset.getSize]

/-! ## Mean squared error and training on an empty dataset -/

theorem foldl_squared_errors (slope intercept : ℚ) (mse : Double) (l : List (ℚ × ℚ)) (a : ℚ) :
    l.foldl
        (fun acc xy =>
          acc + (Double.finite xy.2
              - RegressionModel.predict
                  { slope := Double.finite slope, intercept := Double.finite intercept,
                    mse := mse } xy.1)
            * (Double.finite xy.2
              - RegressionModel.predict
                  { slope := Double.finite slope, intercept := Double.finite intercept,
                    mse := mse } xy.1))
        (Double.finite a)
      = Double.finite (a + (l.map (fun xy => (xy.2 - (slope * xy.1 + intercept)) ^ 2)).sum) := by
  induction l generalizing a with
  | nil => simp
  | cons p l ih =>
    simp only [List.foldl_cons, RegressionModel.predict, Double.finite_mul, Double.finite_add,
      Double.finite_sub, List.map_cons, List.sum_cons] at ih ⊢
    rw [ih]
    congr 1
    ring

/-- C20: for both strategies, `train` throws the dataset-is-empty error exactly when the
dataset has 0 samples, it throws no other error, and when it throws the strategy, with its
slope, intercept and mse, is as before the call. -/
theorem C20_train_empty_dataset (m : Strategy) (d : Dataset) :
    ((m.train d).2 = some Error.datasetEmpty ↔ d.getSize = 0) ∧
    (∀ e : Error, (m.train d).2 = some e → e = Error.datasetEmpty) ∧
    ((m.train d).2 ≠ none →
      (m.train d).1 = m ∧ (m.train d).1.getSlope = m.getSlope ∧
      (m.train d).1.getIntercept = m.getIntercept ∧ (m.train d).1.getMSE = m.getMSE) := by
  by_cases h : d.x_values = []
  · have hsize : d.getSize = 0 := by simp [Dataset.getSize, h]
    have ht : m.train d = (m, some Error.datasetEmpty) := by
      cases m with
      | gradientDescent g =>
        simp [Strategy.train, GradientDescentModel.train, Dataset.getXValues, h]
      | leastSquares l =>
        simp [Strategy.train, LeastSquaresModel.train, Dataset.getXValues, h]
    rw [ht]
    simp [hsize]
  · have hsize : d.getSize ≠ 0 := by
      simpa [Dataset.getSize] using h
    have hok := strategy_train_ok m d h
    rw [hok]
    simp [hsize]

/-! ## Lines of two numeric fields -/

theorem commaFields_ne_nil (l : List Char) : commaFields l ≠ [] := by
  cases l with
  | nil => simp [commaFields]
  | cons c cs =>
    unfold commaFields
    split
    · simp
    · split <;> simp

theorem commaFields_single (l b : List Char) (h : commaFields l = [b]) :
    l = b ∧ l.takeWhile (fun ch => ch != ',') = b := by
  induction l generalizing b with
  | nil =>
    simp only [commaFields, List.cons.injEq, and_true] at h
    subst h
    simp
  | cons c cs ih =>
    unfold commaFields at h
    by_cases hc : c = ','
    · rw [if_pos hc] at h
      simp only [List.cons.injEq] at h
      exact absurd h.2 (commaFields_ne_nil cs)
    · rw [if_neg hc] at h
      cases hf : commaFields cs with
      | nil => exact absurd hf (commaFields_ne_nil cs)
      | cons f fs =>
        rw [hf] at h
        simp only [List.cons.injEq] at h
        obtain ⟨hb, hfs⟩ := h
        subst hfs
        obtain ⟨h1, h2⟩ := ih f hf
        subst hb
        constructor
        · rw [h1]
        · simp [List.takeWhile_cons, hc, h2]

theorem commaFields_cons_cons (l a b : List Char) (fs : List (List Char))
    (h : commaFields l = a :: b :: fs) :
    l ≠ [] ∧ l.takeWhile (fun ch => ch != ',') = a ∧
      commaFields ((l.dropWhile (fun ch => ch != ',')).drop 1) = b :: fs := by
  induction l generalizing a with
  | nil => simp [commaFields] at h
  | cons c cs ih =>
    refine ⟨by simp, ?_⟩
    unfold commaFields at h
    by_cases hc : c = ','
    · rw [if_pos hc] at h
      simp only [List.cons.injEq] at h
      obtain ⟨ha, hrest⟩ := h
      subst ha
      simp [List.takeWhile_cons, List.dropWhile_cons, hc, hrest]
    · rw [if_neg hc] at h
      cases hf : commaFields cs with
      | nil => exact absurd hf (commaFields_ne_nil cs)
      | cons f fs1 =>
        rw [hf] at h
        simp only [List.cons.injEq] at h
        obtain ⟨ha, hfs⟩ := h
        subst ha
        subst hfs
        obtain ⟨-, h1, h2⟩ := ih f hf
        have hne : (c != ',') = true := by simp [hc]
        simp only [List.takeWhile_cons, List.dropWhile_cons, hne, if_true]
        exact ⟨by rw [h1], h2⟩

theorem getField_of_ne_nil (l : List Char) (h : l ≠ []) :
    Dataset.getField l
      = some (l.takeWhile (fun ch => ch != ','), (l.dropWhile (fun ch => ch != ',')).drop 1) := by
  cases l with
  | nil => exact absurd rfl h
  | cons c cs => rfl

theorem splitRow_of_commaFields (line a b : List Char) (h : commaFields line = [a, b])
    (hb : b ≠ []) : Dataset.splitRow line = some (a, b) := by
  obtain ⟨hne, htake, hrest⟩ := commaFields_cons_cons line a b [] h
  obtain ⟨hr, hrtake⟩ := commaFields_single _ b hrest
  have hne2 : (line.dropWhile (fun ch => ch != ',')).drop 1 ≠ [] := by
    rw [hr]
    exact hb
  unfold Dataset.splitRow
  rw [getField_of_ne_nil line hne]
  simp only
  rw [getField_of_ne_nil _ hne2]
  simp only [htake, hrtake]

theorem ne_nil_of_isNumericField (field : List Char) (h : isNumericField field = true) :
    field ≠ [] := by
  intro hnil
  subst hnil
  revert h
  decide

theorem stod_isSome (str : List Char) (v : ℚ) (rest : List Char)
    (h : strtod str = some (v, rest)) : (stod str).isSome = !rangeError v := by
  unfold stod rangeError
  rw [h]
  simp only
  generalize Binary64.nearest v = n
  cases n with
  | fin r =>
    simp only
    cases decide (v ≠ 0) && tiny v && decide (r ≠ v) <;> rfl
  | pinf => rfl
  | ninf => rfl
  | nan => rfl

theorem stod_of_isNumericField (field : List Char) (h : isNumericField field = true) :
    ∃ v : ℚ, strtod field = some (v, []) ∧ (stod field).isSome = !rangeError v := by
  unfold isNumericField at h
  cases hs : strtod field with
  | none => simp [hs] at h
  | some p =>
    obtain ⟨v, rest⟩ := p
    cases rest with
    | nil => exact ⟨v, rfl, stod_isSome field v [] hs⟩
    | cons c cs => simp [hs] at h

theorem rows_of_isTwoNumericFields (line : List Char) (h : isTwoNumericFields line = true) :
    ∃ a b : List Char, commaFields line = [a, b] ∧ isNumericField a = true ∧
      isNumericField b = true ∧ Dataset.splitRow line = some (a, b) ∧
      Dataset.parseRow stod line = strictRow line ∧
      ((strictRow line).isSome = ((stod a).isSome && (stod b).isSome)) := by
  unfold isTwoNumericFields at h
  split at h
  · rename_i a b hf
    simp only [Bool.and_eq_true] at h
    obtain ⟨ha, hb⟩ := h
    have hsplit := splitRow_of_commaFields line a b hf (ne_nil_of_isNumericField b hb)
    refine ⟨a, b, hf, ha, hb, hsplit, ?_, ?_⟩
    · cases hx : stod a with
      | none => simp [Dataset.parseRow, strictRow, hsplit, hf, ha, hb, hx]
      | some x =>
        cases hy : stod b with
        | none => simp [Dataset.parseRow, strictRow, hsplit, hf, ha, hb, hx, hy]
        | some y => simp [Dataset.parseRow, strictRow, hsplit, hf, ha, hb, hx, hy]
    · cases hx : stod a with
      | none => simp [strictRow, hf, ha, hb, hx]
      | some x =>
        cases hy : stod b with
        | none => simp [strictRow, hf, ha, hb, hx, hy]
        | some y => simp [strictRow, hf, ha, hb, hx, hy]
  · simp at h

theorem parseRow_eq_some_iff (convert : List Char → Option ℚ) (line : List Char) (x y : ℚ) :
    Dataset.parseRow convert line = some (x, y) ↔
      ∃ x_str y_str : List Char, Dataset.splitRow line = some (x_str, y_str) ∧
        convert x_str = some x ∧ convert y_str = some y := by
  constructor
  · intro h
    unfold Dataset.parseRow at h
    cases hs : Dataset.splitRow line with
    | none => simp [hs] at h
    | some p =>
      obtain ⟨x_str, y_str⟩ := p
      cases hx : convert x_str with
      | none => simp [hs, hx] at h
      | some x1 =>
        cases hy : convert y_str with
        | none => simp [hs, hx, hy] at h
        | some y1 =>
          simp only [hs, hx, hy, Option.some.injEq, Prod.mk.injEq] at h
          exact ⟨x_str, y_str, rfl, by rw [hx, h.1], by rw [hy, h.2]⟩
  · rintro ⟨x_str, y_str, hs, hx, hy⟩
    simp [Dataset.parseRow, hs, hx, hy]

theorem parseRow_eq_none_iff (convert : List Char → Option ℚ) (line : List Char) :
    Dataset.parseRow convert line = none ↔
      (Dataset.splitRow line = none ∨
        ∃ x_str y_str : List Char, Dataset.splitRow line = some (x_str, y_str) ∧
          (convert x_str = none ∨ convert y_str = none)) := by
  constructor
  · intro h
    unfold Dataset.parseRow at h
    cases hs : Dataset.splitRow line with
    | none => exact Or.inl rfl
    | some p =>
      obtain ⟨x_str, y_str⟩ := p
      right
      refine ⟨x_str, y_str, rfl, ?_⟩
      cases hx : convert x_str with
      | none => exact Or.inl rfl
      | some x1 =>
        cases hy : convert y_str with
        | none => exact Or.inr rfl
        | some y1 => simp [hs, hx, hy] at h
  · rintro (hs | ⟨x_str, y_str, hs, hx | hy⟩)
    · simp [Dataset.parseRow, hs]
    · simp [Dataset.parseRow, hs, hx]
    · unfold Dataset.parseRow
      rw [hs]
      simp only
      cases convert x_str with
      | none => rfl
      | some x1 => simp [hy]

/-- C13, the failing input: the file `1,45` / `2,55` has a first line of two numeric
fields, and `loadFromCSV` takes that line as a header: the labels become "1" and "45" and
the only sample is `(2, 55)`.  In general, whenever the first line consists of two numeric
fields, the samples come from the lines after it and its two fields become the labels. -/
theorem C13_numeric_first_line_is_header :
    isTwoNumericFields "1,45".data = true ∧
    Dataset.loadFromCSV stod (some "1,45\n2,55\n") Dataset.new
      = ({ x_values := [2], y_values := [55], x_label := "1", y_label := "45" }, none) ∧
    (∀ (convert : List Char → Option ℚ) (text : String) (d : Dataset) (line : List Char)
        (rest : List (List Char)),
      Dataset.fileLines text.data = line :: rest → isTwoNumericFields line = true →
      (d.loadFromCSV convert (some text)).1.samples
        = rest.filterMap (Dataset.parseRow convert) ∧
      ∃ a b : List Char, commaFields line = [a, b] ∧
        (d.loadFromCSV convert (some text)).1.x_label = String.mk a ∧
        (d.loadFromCSV convert (some text)).1.y_label = String.mk b) := by
  refine ⟨by decide!, by decide!, ?_⟩
  intro convert text d line rest hl hnum
  obtain ⟨a, b, hf, -, -, hsplit, -, -⟩ := rows_of_isTwoNumericFields line hnum
  constructor
  · rw [loadFromCSV_samples]
    simp [Dataset.dataLines, hl, hsplit]
  · refine ⟨a, b, hf, ?_, ?_⟩
    · rw [loadFromCSV_some]
      simp [Dataset.headerOf, hl, hsplit]
    · rw [loadFromCSV_some]
      simp [Dataset.headerOf, hl, hsplit]

/-- C15, refuted as stated: in the file with the header `x,y` and the lines `12abc,5` and
`1,2,3`, no line after the header consists of exactly two numeric fields, and yet
`loadFromCSV` returns normally with the samples `(12, 5)` and `(1, 2)`. -/
theorem C15_junk_and_extra_fields_accepted :
    (Dataset.dataLines "x,y\n12abc,5\n1,2,3\n".data).filterMap strictRow = [] ∧
    Dataset.loadFromCSV stod (some "x,y\n12abc,5\n1,2,3\n") Dataset.new
      = ({ x_values := [12, 1], y_values := [5, 2], x_label := "x", y_label := "y" }, none) ∧
    (Dataset.loadFromCSV stod (some "x,y\n12abc,5\n1,2,3\n") Dataset.new).1.samples
      ≠ (Dataset.dataLines "x,y\n12abc,5\n1,2,3\n".data).filterMap strictRow := by
  decide!

/-- C15, amended: the samples that `loadFromCSV` loads are, in the order of the file, one
sample for every line after the header that delivers two fields both of which `std::stod`
converts (the pair of the two values, whatever follows the number in a field and whatever
fields follow the second), and none for any other line; `loadFromCSV` throws only when no
line delivers a sample.  A line of exactly two numeric fields delivers its pair, the two
numbers rounded to `double`, when `std::stod` converts both fields, and no sample when a
number is out of the range of `double`: a numeric field is converted exactly when `strtod`
reports no range error for its value, and the line `1e999,1` is skipped. -/
theorem C15_rows_of_loadFromCSV :
    (∀ (convert : List Char → Option ℚ) (text : String) (d : Dataset),
      (d.loadFromCSV convert (some text)).1.samples
        = (Dataset.dataLines text.data).filterMap (Dataset.parseRow convert) ∧
      ((d.loadFromCSV convert (some text)).2 ≠ none →
        (Dataset.dataLines text.data).filterMap (Dataset.parseRow convert) = [])) ∧
    (∀ (convert : List Char → Option ℚ) (line : List Char) (x y : ℚ),
      Dataset.parseRow convert line = some (x, y) ↔
        ∃ x_str y_str : List Char, Dataset.splitRow line = some (x_str, y_str) ∧
          convert x_str = some x ∧ convert y_str = some y) ∧
    (∀ (convert : List Char → Option ℚ) (line : List Char),
      Dataset.parseRow convert line = none ↔
        (Dataset.splitRow line = none ∨
          ∃ x_str y_str : List Char, Dataset.splitRow line = some (x_str, y_str) ∧
            (convert x_str = none ∨ convert y_str = none))) ∧
    (∀ line : List Char, isTwoNumericFields line = true →
      Dataset.parseRow stod line = strictRow line ∧
      ∃ a b : List Char, commaFields line = [a, b] ∧
        (strictRow line).isSome = ((stod a).isSome && (stod b).isSome)) ∧
    (∀ field : List Char, isNumericField field = true →
      ∃ v : ℚ, strtod field = some (v, []) ∧ (stod field).isSome = !rangeError v) ∧
    Dataset.parseRow stod "12abc,5".data = some (12, 5) ∧
    Dataset.parseRow stod "1,2,3".data = some (1, 2) ∧
    Dataset.parseRow stod "abc,5".data = none ∧
    Dataset.parseRow stod "7".data = none ∧
    Dataset.parseRow stod "7,".data = none ∧
    Dataset.parseRow stod "0.1,2.5".data = some (oneTenth, 5 / 2) ∧
    isTwoNumericFields "1e999,1".data = true ∧
    Dataset.parseRow stod "1e999,1".data = none ∧
    isTwoNumericFields "1,1e-999".data = true ∧
    Dataset.parseRow stod "1,1e-999".data = none ∧
    Dataset.loadFromCSV stod (some "x,y\n1e999,1\n2,3\n") Dataset.new
      = ({ x_values := [2], y_values := [3], x_label := "x", y_label := "y" }, none) := by
  refine ⟨?_, ?_, ?_, ?_, ?_, by decide!, by decide!, by decide!, by decide!, by decide!,
    by decide!, by decide!, by decide!, by decide!, by decide!, by decide!⟩
  · intro convert text d
    refine ⟨loadFromCSV_samples convert text d, ?_⟩
    rw [loadFromCSV_some]
    by_cases h : (Dataset.dataLines text.data).filterMap (Dataset.parseRow convert) = []
    · simp [h]
    · simp [h]
  · intro convert line x y
    exact parseRow_eq_some_iff convert line x y
  · intro convert line
    exact parseRow_eq_none_iff convert line
  · intro line h
    obtain ⟨a, b, hf, -, -, -, hp, hsome⟩ := rows_of_isTwoNumericFields line h
    exact ⟨hp, a, b, hf, hsome⟩
  · intro field h
    exact stod_of_isNumericField field h


/-! ## Training: repeatability and the stored error -/

theorem gradientDescent_train_prior (g : GradientDescentModel) (prior : RegressionModel)
    (d : Dataset) (h : d.x_values ≠ []) :
    GradientDescentModel.train { g with toRegressionModel := prior } d
      = GradientDescentModel.train g d := by
  simp only [GradientDescentModel.train, Dataset.getXValues, Dataset.getYValues,
    List.isEmpty_eq_true, h, if_false]
  rfl

/-- C21: on every non-empty dataset, the result of `train` does not depend on the slope,
intercept and mse that the strategy held before the call, for least squares and for
gradient descent (whose configuration is kept), and training a strategy that has just
been trained on the dataset returns normally and changes none of its fields. -/
theorem C21_training_repeatable (d : Dataset) (h : d.x_values ≠ []) :
    (∀ m m1 : RegressionModel, LeastSquaresModel.train m d = LeastSquaresModel.train m1 d) ∧
    (∀ (g : GradientDescentModel) (prior : RegressionModel),
      GradientDescentModel.train { g with toRegressionModel := prior } d
        = GradientDescentModel.train g d) ∧
    (∀ m : Strategy,
      (m.train d).1.train d = ((m.train d).1, none) ∧
      ((m.train d).1.train d).1.getSlope = (m.train d).1.getSlope ∧
      ((m.train d).1.train d).1.getIntercept = (m.train d).1.getIntercept ∧
      ((m.train d).1.train d).1.getMSE = (m.train d).1.getMSE) := by
  refine ⟨fun m m1 => leastSquares_train_prior m m1 d h,
    fun g prior => gradientDescent_train_prior g prior d h, ?_⟩
  intro m
  rw [strategy_train_idem m d h]
  exact ⟨rfl, rfl, rfl, rfl⟩

/-- C21, at scenario A of the specification. -/
theorem C21_training_repeatable_witness :
    scenarioA.x_values ≠ [] ∧
    (∀ m m1 : RegressionModel,
      LeastSquaresModel.train m scenarioA = LeastSquaresModel.train m1 scenarioA) ∧
    (∀ (g : GradientDescentModel) (prior : RegressionModel),
      GradientDescentModel.train { g with toRegressionModel := prior } scenarioA
        = GradientDescentModel.train g scenarioA) ∧
    (∀ m : Strategy,
      (m.train scenarioA).1.train scenarioA = ((m.train scenarioA).1, none) ∧
      ((m.train scenarioA).1.train scenarioA).1.getSlope = (m.train scenarioA).1.getSlope ∧
      ((m.train scenarioA).1.train scenarioA).1.getIntercept
        = (m.train scenarioA).1.getIntercept ∧
      ((m.train scenarioA).1.train scenarioA).1.getMSE = (m.train scenarioA).1.getMSE) :=
  ⟨by decide, C21_training_repeatable scenarioA (by decide)⟩

theorem calculateMSE_of_finite (slope intercept : ℚ) (mse : Double) (d : Dataset)
    (h : d.x_values ≠ []) (hlen : d.x_values.length = d.y_values.length) :
    RegressionModel.calculateMSE
      { slope := Double.finite slope, intercept := Double.finite intercept, mse := mse } d
      = Double.finite (1 / (d.getSize : ℚ) * sumSquaredResiduals d slope intercept) := by
  have hn : (d.x_values.length : ℚ) ≠ 0 := by
    have := List.length_pos.mpr h
    exact_mod_cast this.ne'
  have hcond : ¬ (d.x_values.length ≠ d.y_values.length ∨ d.x_values.isEmpty = true) := by
    simp [hlen, h]
  simp only [RegressionModel.calculateMSE, Dataset.getXValues, Dataset.getYValues]
  rw [if_neg hcond, foldl_squared_errors]
  simp only [Double.divBy]
  rw [Double.quot_of_ne_zero _ _ hn]
  simp only [sumSquaredResiduals, Dataset.samples, Dataset.getSize, zero_add]
  congr 1
  field_simp

theorem sum_of_all_eq (l : List ℚ) (c : ℚ) (h : ∀ x ∈ l, x = c) : l.sum = l.length * c := by
  induction l with
  | nil => simp
  | cons a l ih =>
    have ha : a = c := h a (List.mem_cons_self a l)
    have hl : ∀ x ∈ l, x = c := fun x hx => h x (List.mem_cons_of_mem a hx)
    simp only [List.sum_cons, List.length_cons, Nat.cast_succ, ih hl, ha]
    ring

theorem mean_of_all_eq (l : List ℚ) (hne : l ≠ []) (h : ∀ a ∈ l, ∀ b ∈ l, a = b) :
    ∀ x ∈ l, x = mean l := by
  obtain ⟨c, hc⟩ := List.exists_mem_of_ne_nil l hne
  have hall : ∀ x ∈ l, x = c := fun x hx => h x hx c hc
  have hn : (l.length : ℚ) ≠ 0 := by
    have := List.length_pos.mpr hne
    exact_mod_cast this.ne'
  have hmean : mean l = c := by
    unfold mean
    rw [sum_of_all_eq l c hall]
    field_simp
  intro x hx
  rw [hmean]
  exact hall x hx

theorem sumSquaredDeviations_eq_zero_iff (d : Dataset) (h : d.x_values ≠ [])
    (hlen : d.x_values.length = d.y_values.length) :
    sumSquaredDeviations d = 0 ↔ ∀ a ∈ d.x_values, ∀ b ∈ d.x_values, a = b := by
  constructor
  · intro h0 a ha b hb
    have hall := eq_of_sum_sq_dev_eq_zero d.samples (mean d.x_values) h0
    rw [← samples_map_fst d hlen] at ha hb
    obtain ⟨p, hp, rfl⟩ := List.mem_map.mp ha
    obtain ⟨q, hq, rfl⟩ := List.mem_map.mp hb
    exact (hall p hp).trans (hall q hq).symm
  · intro hall
    have hmean := mean_of_all_eq d.x_values h hall
    unfold sumSquaredDeviations
    apply List.sum_eq_zero
    intro t ht
    obtain ⟨p, hp, rfl⟩ := List.mem_map.mp ht
    have hp1 : p.1 ∈ d.x_values := (List.of_mem_zip hp).1
    rw [hmean p.1 hp1]
    simp

theorem denominator_eq (d : Dataset) (hlen : d.x_values.length = d.y_values.length) :
    (LeastSquaresModel.sums d.x_values d.y_values
        (LeastSquaresModel.accumulate d.x_values / (d.x_values.length : ℚ))
        (LeastSquaresModel.accumulate d.y_values / (d.x_values.length : ℚ))).2
      = sumSquaredDeviations d := by
  have hs := sums_eq d
  unfold mean at hs
  rw [← hlen] at hs
  rw [accumulate_eq_sum, accumulate_eq_sum, hs]

/-- C23, refuted as stated: on three samples whose x-values are all the double 0.1, the
mean that `LeastSquaresModel::train` computes is 0.10000000000000002, the denominator is
not 0 and the slope is the finite value 0; on the samples `(2^-600, 1)`, `(2^-599, 2)`,
whose x-values are distinct, the squares underflow, the denominator is 0 and the slope is
the positive infinity. -/
theorem C23_rounded_denominator :
    tenthsData.x_values.all Binary64.isBinary64 = true ∧
    tenthsData.y_values.all Binary64.isBinary64 = true ∧
    tenthsData.x_values.length = tenthsData.y_values.length ∧
    (∀ a ∈ tenthsData.x_values, ∀ b ∈ tenthsData.x_values, a = b) ∧
    IEEE.LeastSquaresModel.accumulate tenthsData.x_values / Binary64.ofNat 3
      = Binary64.fin (7205759403792795 / 72057594037927936) ∧
    (IEEE.LeastSquaresModel.sums tenthsData.x_values tenthsData.y_values
        (IEEE.LeastSquaresModel.accumulate tenthsData.x_values / Binary64.ofNat 3)
        (IEEE.LeastSquaresModel.accumulate tenthsData.y_values / Binary64.ofNat 3)).2
      = Binary64.fin (3 / 5192296858534827628530496329220096) ∧
    (IEEE.LeastSquaresModel.train IEEE.RegressionModel.new tenthsData).1.slope
      = Binary64.fin 0 ∧
    underflowData.x_values.all Binary64.isBinary64 = true ∧
    underflowData.y_values.all Binary64.isBinary64 = true ∧
    underflowData.x_values.length = underflowData.y_values.length ∧
    (∃ a ∈ underflowData.x_values, ∃ b ∈ underflowData.x_values, a ≠ b) ∧
    (IEEE.LeastSquaresModel.sums underflowData.x_values underflowData.y_values
        (IEEE.LeastSquaresModel.accumulate underflowData.x_values / Binary64.ofNat 2)
        (IEEE.LeastSquaresModel.accumulate underflowData.y_values / Binary64.ofNat 2)).2
      = Binary64.fin 0 ∧
    (IEEE.LeastSquaresModel.train IEEE.RegressionModel.new underflowData).1.slope
      = Binary64.pinf := by
  decide!

/-- C23, amended: for every non-empty dataset, in exact arithmetic the `denominator` of
`LeastSquaresModel::train` is 0 exactly when all x-values are identical, the slope then
being no finite value, and it is positive, the slope being its finite quotient, when two
x-values differ.  The method itself, in binary64 arithmetic, returns normally whatever the
denominator is (the division is unguarded), and whenever the denominator it computes is 0
the slope it returns is an infinity or NaN. -/
theorem C23_denominator_zero_iff (m : RegressionModel) (m64 : IEEE.RegressionModel)
    (d : Dataset) (h : d.x_values ≠ [])
    (hlen : d.x_values.length = d.y_values.length) :
    ((LeastSquaresModel.sums d.x_values d.y_values
        (LeastSquaresModel.accumulate d.x_values / (d.x_values.length : ℚ))
        (LeastSquaresModel.accumulate d.y_values / (d.x_values.length : ℚ))).2 = 0
      ↔ ∀ a ∈ d.x_values, ∀ b ∈ d.x_values, a = b) ∧
    ((∀ a ∈ d.x_values, ∀ b ∈ d.x_values, a = b) →
      (LeastSquaresModel.train m d).2 = none ∧
      (LeastSquaresModel.train m d).1.slope = Double.nonfinite) ∧
    ((∃ a ∈ d.x_values, ∃ b ∈ d.x_values, a ≠ b) →
      0 < (LeastSquaresModel.sums d.x_values d.y_values
        (LeastSquaresModel.accumulate d.x_values / (d.x_values.length : ℚ))
        (LeastSquaresModel.accumulate d.y_values / (d.x_values.length : ℚ))).2 ∧
      (LeastSquaresModel.train m d).2 = none ∧
      (LeastSquaresModel.train m d).1.slope
        = Double.finite (sumCrossDeviations d / sumSquaredDeviations d)) ∧
    (IEEE.LeastSquaresModel.train m64 d).2 = none ∧
    ((IEEE.LeastSquaresModel.sums d.x_values d.y_values
        (IEEE.LeastSquaresModel.accumulate d.x_values / Binary64.ofNat d.x_values.length)
        (IEEE.LeastSquaresModel.accumulate d.y_values / Binary64.ofNat d.x_values.length)).2
        = Binary64.fin 0 →
      (IEEE.LeastSquaresModel.train m64 d).1.slope = Binary64.pinf ∨
      (IEEE.LeastSquaresModel.train m64 d).1.slope = Binary64.ninf ∨
      (IEEE.LeastSquaresModel.train m64 d).1.slope = Binary64.nan) := by
  refine ⟨?_, ?_, ?_, (binary64_leastSquares_train_eq m64 d h).1, ?_⟩
  · rw [denominator_eq d hlen]
    exact sumSquaredDeviations_eq_zero_iff d h hlen
  · intro hall
    have h0 := (sumSquaredDeviations_eq_zero_iff d h hlen).mpr hall
    rw [leastSquares_train_eq m d h hlen]
    refine ⟨rfl, ?_⟩
    simp [Double.quot, h0]
  · intro hdist
    have hpos := sumSquaredDeviations_pos d hlen hdist
    rw [denominator_eq d hlen, leastSquares_train_eq m d h hlen]
    refine ⟨hpos, rfl, ?_⟩
    simp [Double.quot_of_ne_zero _ _ hpos.ne']
  · intro h0
    rw [(binary64_leastSquares_train_eq m64 d h).2, h0]
    exact binary64_div_zero _

/-- C23, at a dataset whose three x-values are all 2: in binary64 arithmetic too the
denominator is 0 there, and the slope is NaN. -/
theorem C23_denominator_zero_iff_witness :
    verticalData.x_values ≠ [] ∧
    verticalData.x_values.length = verticalData.y_values.length ∧
    IEEE.LeastSquaresModel.train IEEE.RegressionModel.new verticalData
      = ({ slope := Binary64.nan, intercept := Binary64.nan, mse := Binary64.nan }, none) ∧
    ((LeastSquaresModel.sums verticalData.x_values verticalData.y_values
        (LeastSquaresModel.accumulate verticalData.x_values
          / (verticalData.x_values.length : ℚ))
        (LeastSquaresModel.accumulate verticalData.y_values
          / (verticalData.x_values.length : ℚ))).2 = 0
      ↔ ∀ a ∈ verticalData.x_values, ∀ b ∈ verticalData.x_values, a = b) ∧
    ((∀ a ∈ verticalData.x_values, ∀ b ∈ verticalData.x_values, a = b) →
      (LeastSquaresModel.train RegressionModel.new verticalData).2 = none ∧
      (LeastSquaresModel.train RegressionModel.new verticalData).1.slope
        = Double.nonfinite) ∧
    ((∃ a ∈ verticalData.x_values, ∃ b ∈ verticalData.x_values, a ≠ b) →
      0 < (LeastSquaresModel.sums verticalData.x_values verticalData.y_values
        (LeastSquaresModel.accumulate verticalData.x_values
          / (verticalData.x_values.length : ℚ))
        (LeastSquaresModel.accumulate verticalData.y_values
          / (verticalData.x_values.length : ℚ))).2 ∧
      (LeastSquaresModel.train RegressionModel.new verticalData).2 = none ∧
      (LeastSquaresModel.train RegressionModel.new verticalData).1.slope
        = Double.finite
            (sumCrossDeviations verticalData / sumSquaredDeviations verticalData)) ∧
    (IEEE.LeastSquaresModel.train IEEE.RegressionModel.new verticalData).2 = none ∧
    ((IEEE.LeastSquaresModel.sums verticalData.x_values verticalData.y_values
        (IEEE.LeastSquaresModel.accumulate verticalData.x_values
          / Binary64.ofNat verticalData.x_values.length)
        (IEEE.LeastSquaresModel.accumulate verticalData.y_values
          / Binary64.ofNat verticalData.x_values.length)).2
        = Binary64.fin 0 →
      (IEEE.LeastSquaresModel.train IEEE.RegressionModel.new verticalData).1.slope
          = Binary64.pinf ∨
      (IEEE.LeastSquaresModel.train IEEE.RegressionModel.new verticalData).1.slope
          = Binary64.ninf ∨
      (IEEE.LeastSquaresModel.train IEEE.RegressionModel.new verticalData).1.slope
          = Binary64.nan) :=
  ⟨by decide, rfl, by decide!,
    C23_denominator_zero_iff RegressionModel.new IEEE.RegressionModel.new verticalData
      (by decide) rfl⟩

/-- C24: when `loadFromCSV` throws, with either error, the dataset holds 0 samples
afterwards, whatever it held before: on the five samples of scenario A a file that cannot
be opened, or one that holds only a header line, leaves a dataset of size 0. -/
theorem C24_failed_load_clears (stod : List Char → Option ℚ) (file : Option String)
    (d : Dataset) :
    ((d.loadFromCSV stod file).2 ≠ none →
      (d.loadFromCSV stod file).1.x_values = [] ∧
      (d.loadFromCSV stod file).1.y_values = [] ∧
      (d.loadFromCSV stod file).1.getSize = 0) ∧
    scenarioA.getSize = 5 ∧
    (scenarioA.loadFromCSV stod none).2 = some Error.cannotOpenFile ∧
    (scenarioA.loadFromCSV stod none).1.getSize = 0 ∧
    (scenarioA.loadFromCSV stod (some "X,Y")).2 = some Error.noValidData ∧
    (scenarioA.loadFromCSV stod (some "X,Y")).1.getSize = 0 := by
  have hgen : ∀ (f : Option String) (d0 : Dataset), (d0.loadFromCSV stod f).2 ≠ none →
      (d0.loadFromCSV stod f).1.x_values = [] ∧
      (d0.loadFromCSV stod f).1.y_values = [] ∧
      (d0.loadFromCSV stod f).1.getSize = 0 := by
    intro f d0
    cases f with
    | none =>
      intro _
      exact ⟨rfl, rfl, rfl⟩
    | some text =>
      rw [loadFromCSV_some]
      by_cases hr : (Dataset.dataLines text.data).filterMap (Dataset.parseRow stod) = []
      · intro _
        simp [hr, Dataset.getSize]
      · intro hne
        simp [hr] at hne
  have hhead : (scenarioA.loadFromCSV stod (some "X,Y")).2 = some Error.noValidData := by
    rw [loadFromCSV_some]
    have hd : Dataset.dataLines "X,Y".data = [] := by decide
    simp [hd]
  refine ⟨hgen file d, rfl, rfl, rfl, hhead, ?_⟩
  exact (hgen (some "X,Y") scenarioA (by rw [hhead]; simp)).2.2

/-! ## Gradient descent: divergence and termination -/

/-- The method `GradientDescentModel::train` on the divergent dataset: the parameters it
returns are those at which the loop ends. -/
theorem divergent_binary64_train (max_iter : ℤ) :
    (IEEE.GradientDescentModel.train
        (IEEE.GradientDescentModel.new (Binary64.nearest (1 / 100)) max_iter
          (Binary64.nearest (1 / 1000000))) divergentData).2 = none ∧
    (IEEE.GradientDescentModel.train
        (IEEE.GradientDescentModel.new (Binary64.nearest (1 / 100)) max_iter
          (Binary64.nearest (1 / 1000000))) divergentData).1.slope
      = (IEEE.GradientDescentModel.iterate divergentData.x_values divergentData.y_values
          (Binary64.nearest (1 / 100)) (Binary64.nearest (1 / 1000000)) max_iter.toNat
          (Binary64.fin 0, Binary64.fin 0)).1 ∧
    (IEEE.GradientDescentModel.train
        (IEEE.GradientDescentModel.new (Binary64.nearest (1 / 100)) max_iter
          (Binary64.nearest (1 / 1000000))) divergentData).1.intercept
      = (IEEE.GradientDescentModel.iterate divergentData.x_values divergentData.y_values
          (Binary64.nearest (1 / 100)) (Binary64.nearest (1 / 1000000)) max_iter.toNat
          (Binary64.fin 0, Binary64.fin 0)).2 ∧
    (IEEE.GradientDescentModel.train
        (IEEE.GradientDescentModel.new (Binary64.nearest (1 / 100)) max_iter
          (Binary64.nearest (1 / 1000000))) divergentData).1.mse
      = IEEE.RegressionModel.calculateMSE
          { slope := (IEEE.GradientDescentModel.iterate divergentData.x_values
              divergentData.y_values (Binary64.nearest (1 / 100))
              (Binary64.nearest (1 / 1000000)) max_iter.toNat
              (Binary64.fin 0, Binary64.fin 0)).1,
            intercept := (IEEE.GradientDescentModel.iterate divergentData.x_values
              divergentData.y_values (Binary64.nearest (1 / 100))
              (Binary64.nearest (1 / 1000000)) max_iter.toNat
              (Binary64.fin 0, Binary64.fin 0)).2,
            mse := Binary64.fin 0 } divergentData :=
  binary64_gradientDescent_train_eq
    (IEEE.GradientDescentModel.new (Binary64.nearest (1 / 100)) max_iter
          (Binary64.nearest (1 / 1000000))) divergentData
    (by decide)

/-- C25, refuted as stated: in binary64 arithmetic no dataset, positive learning rate and
tolerance keep the absolute value of the returned slope above the bound `2^1024` for all
large `max_iterations`.  On every dataset that is not empty and for every number `N`, some
`max_iterations` from `N` on returns a slope whose absolute value does not exceed
`2^1024`: a finite slope is below `2^1024`, and an infinite slope returned for some
`max_iterations` makes the slope NaN for the next.  On the samples `(1000, 1000)` and
`(-1000, -1000)` with the learning rate 0.01 and the tolerance 1e-6 the slope is NaN for
every `max_iterations` from 73 on. -/
theorem C25_slope_not_beyond_every_bound :
    (∀ (d : Dataset) (lr tol : ℚ), d.x_values ≠ [] →
      d.x_values.length = d.y_values.length → 0 < lr →
      ∀ N : ℕ, ∃ M : ℕ, N ≤ M ∧
        Binary64.lt (Binary64.fin (Binary64.pow2 1024))
          (Binary64.abs (IEEE.GradientDescentModel.train
            (IEEE.GradientDescentModel.new (Binary64.fin lr) (M : ℤ) (Binary64.fin tol))
            d).1.slope) = false) ∧
    2 ≤ divergentData.getSize ∧
    (∀ (max_iter : ℤ) (bound : ℚ), 73 ≤ max_iter →
      (IEEE.GradientDescentModel.train
        (IEEE.GradientDescentModel.new (Binary64.nearest (1 / 100)) max_iter
          (Binary64.nearest (1 / 1000000))) divergentData).1.slope = Binary64.nan ∧
      Binary64.lt (Binary64.fin bound)
        (Binary64.abs (IEEE.GradientDescentModel.train
        (IEEE.GradientDescentModel.new (Binary64.nearest (1 / 100)) max_iter
          (Binary64.nearest (1 / 1000000))) divergentData).1.slope)
        = false) := by
  refine ⟨?_, by decide, ?_⟩
  · intro d lr tol hne hlen hlr N
    have hslope : ∀ M : ℕ, (IEEE.GradientDescentModel.train
        (IEEE.GradientDescentModel.new (Binary64.fin lr) (M : ℤ) (Binary64.fin tol)) d).1.slope
        = (IEEE.GradientDescentModel.iterate d.x_values d.y_values (Binary64.fin lr)
            (Binary64.fin tol) M (Binary64.fin 0, Binary64.fin 0)).1 := by
      intro M
      have h := (binary64_gradientDescent_train_eq
        (IEEE.GradientDescentModel.new (Binary64.fin lr) (M : ℤ) (Binary64.fin tol)) d hne).2.1
      rw [h]
      simp only [IEEE.GradientDescentModel.new, Int.toNat_ofNat]
    have hnext : ∀ p : Binary64 × Binary64, p.1 = Binary64.pinf ∨ p.1 = Binary64.ninf →
        (if IEEE.GradientDescentModel.converged d.x_values d.y_values (Binary64.fin lr)
            (Binary64.fin tol) p then p
          else IEEE.GradientDescentModel.proposal d.x_values d.y_values (Binary64.fin lr) p).1
        = Binary64.nan := by
      intro p hp
      have hnan := proposal_of_infinite_slope d.x_values d.y_values lr p hne hlen hlr hp
      rw [not_converged_of_nan d.x_values d.y_values (Binary64.fin lr) (Binary64.fin tol) p hnan]
      simpa using hnan
    cases hs : (IEEE.GradientDescentModel.iterate d.x_values d.y_values (Binary64.fin lr)
        (Binary64.fin tol) N (Binary64.fin 0, Binary64.fin 0)).1 with
    | fin r =>
      refine ⟨N, le_refl N, ?_⟩
      rw [hslope, hs]
      have hb := iterate_slope_bound d.x_values d.y_values (Binary64.fin lr) (Binary64.fin tol)
        N r hs
      simp only [Binary64.abs, Binary64.lt, decide_eq_false_iff_not, not_lt]
      exact hb.le
    | nan =>
      refine ⟨N, le_refl N, ?_⟩
      rw [hslope, hs]
      rfl
    | pinf =>
      refine ⟨N + 1, Nat.le_succ N, ?_⟩
      rw [hslope, binary64_iterate_succ, hnext _ (Or.inl hs)]
      rfl
    | ninf =>
      refine ⟨N + 1, Nat.le_succ N, ?_⟩
      rw [hslope, binary64_iterate_succ, hnext _ (Or.inr hs)]
      rfl
  · intro max_iter bound h
    have hk : 73 ≤ max_iter.toNat := by omega
    rw [(divergent_binary64_train max_iter).2.1, divergent_binary64_from_73 _ hk]
    exact ⟨rfl, rfl⟩

/-- C25, amended: divergence is possible and undetected.  On the samples `(1000, 1000)`
and `(-1000, -1000)`, with the learning rate 0.01 and the tolerance 1e-6,
`GradientDescentModel::train` returns normally for every `max_iterations`; the slope it
returns is 20000, -399960000, 7998800060000 for `max_iterations` 1, 2, 3, is still finite,
about `2.35e305`, for 71, is the negative infinity for 72, and from 73 on the slope, the
intercept and the stored mse are NaN. -/
theorem C25_divergence_undetected :
    2 ≤ divergentData.getSize ∧
    Binary64.lt (Binary64.fin 0) (Binary64.nearest (1 / 100)) = true ∧
    Binary64.lt (Binary64.fin 0) (Binary64.nearest (1 / 1000000)) = true ∧
    (∀ max_iter : ℤ,
      (IEEE.GradientDescentModel.train
        (IEEE.GradientDescentModel.new (Binary64.nearest (1 / 100)) max_iter
          (Binary64.nearest (1 / 1000000))) divergentData).2 = none) ∧
    (IEEE.GradientDescentModel.train
        (IEEE.GradientDescentModel.new (Binary64.nearest (1 / 100)) 1
          (Binary64.nearest (1 / 1000000))) divergentData).1.slope = Binary64.fin 20000 ∧
    (IEEE.GradientDescentModel.train
        (IEEE.GradientDescentModel.new (Binary64.nearest (1 / 100)) 2
          (Binary64.nearest (1 / 1000000))) divergentData).1.slope = Binary64.fin (-399960000) ∧
    (IEEE.GradientDescentModel.train
        (IEEE.GradientDescentModel.new (Binary64.nearest (1 / 100)) 3
          (Binary64.nearest (1 / 1000000))) divergentData).1.slope = Binary64.fin 7998800060000 ∧
    (IEEE.GradientDescentModel.train
        (IEEE.GradientDescentModel.new (Binary64.nearest (1 / 100)) 71
          (Binary64.nearest (1 / 1000000))) divergentData).1.slope
      = Binary64.fin (3017880811961859 * Binary64.pow2 963) ∧
    (IEEE.GradientDescentModel.train
        (IEEE.GradientDescentModel.new (Binary64.nearest (1 / 100)) 72
          (Binary64.nearest (1 / 1000000))) divergentData).1.slope = Binary64.ninf ∧
    (∀ max_iter : ℤ, 73 ≤ max_iter →
      (IEEE.GradientDescentModel.train
        (IEEE.GradientDescentModel.new (Binary64.nearest (1 / 100)) max_iter
          (Binary64.nearest (1 / 1000000))) divergentData).1.slope = Binary64.nan ∧
      (IEEE.GradientDescentModel.train
        (IEEE.GradientDescentModel.new (Binary64.nearest (1 / 100)) max_iter
          (Binary64.nearest (1 / 1000000))) divergentData).1.intercept = Binary64.nan ∧
      (IEEE.GradientDescentModel.train
        (IEEE.GradientDescentModel.new (Binary64.nearest (1 / 100)) max_iter
          (Binary64.nearest (1 / 1000000))) divergentData).1.mse = Binary64.nan) := by
  refine ⟨by decide, by decide!, by decide!, fun max_iter => (divergent_binary64_train max_iter).1,
    by decide!, by decide!, by decide!, ?_, ?_, ?_⟩
  · exact (divergent_binary64_train 71).2.1.trans (congrArg Prod.fst divergent_binary64_0_71)
  · exact (divergent_binary64_train 72).2.1.trans (congrArg Prod.fst divergent_binary64_72)
  · intro max_iter h
    have hk : 73 ≤ max_iter.toNat := by omega
    obtain ⟨-, hs, hi, hm⟩ := divergent_binary64_train max_iter
    rw [hs, hi, hm, divergent_binary64_from_73 _ hk]
    exact ⟨rfl, rfl, by decide!⟩

/-- C26: for every non-empty dataset and every configuration, `GradientDescentModel::train`
returns normally with the `k`-th iterate of the update step from `(0, 0)` for some `k` that
is at most `max(max_iterations, 0)`, so it commits at most that many updates; when
`max_iterations` is zero or negative it returns slope 0 and intercept 0. -/
theorem C26_gradient_descent_terminates (m : GradientDescentModel) (d : Dataset)
    (h : d.x_values ≠ []) :
    (GradientDescentModel.train m d).2 = none ∧
    (∃ k : ℕ, (k : ℤ) ≤ max m.max_iterations 0 ∧
      (GradientDescentModel.train m d).1.slope
        = Double.finite ((gradientStep d m.learning_rate)^[k] (0, 0)).1 ∧
      (GradientDescentModel.train m d).1.intercept
        = Double.finite ((gradientStep d m.learning_rate)^[k] (0, 0)).2) ∧
    (m.max_iterations ≤ 0 →
      (GradientDescentModel.train m d).1.slope = Double.finite 0 ∧
      (GradientDescentModel.train m d).1.intercept = Double.finite 0) := by
  obtain ⟨herr, hslope, hintercept⟩ := gradientDescent_train_eq m d h
  obtain ⟨k, hk, hres, -, -⟩ :=
    iterate_spec d m.learning_rate m.tolerance m.max_iterations.toNat (0, 0)
  refine ⟨herr, ⟨k, ?_, by rw [hslope, hres], by rw [hintercept, hres]⟩, ?_⟩
  · have h1 : (k : ℤ) ≤ (m.max_iterations.toNat : ℤ) := by exact_mod_cast hk
    rw [Int.toNat_eq_max] at h1
    exact h1
  · intro hle
    have h0 : m.max_iterations.toNat = 0 := Int.toNat_eq_zero.mpr hle
    rw [hslope, hintercept, h0]
    exact ⟨rfl, rfl⟩

/-- C26, at scenario A with `max_iterations = -3`. -/
theorem C26_gradient_descent_terminates_witness :
    scenarioA.x_values ≠ [] ∧
    (GradientDescentModel.train (GradientDescentModel.new (1 / 100) (-3) (1 / 1000000))
      scenarioA).2 = none ∧
    (∃ k : ℕ, (k : ℤ)
        ≤ max (GradientDescentModel.new (1 / 100) (-3) (1 / 1000000)).max_iterations 0 ∧
      (GradientDescentModel.train (GradientDescentModel.new (1 / 100) (-3) (1 / 1000000))
        scenarioA).1.slope
        = Double.finite ((gradientStep scenarioA
            (GradientDescentModel.new (1 / 100) (-3) (1 / 1000000)).learning_rate)^[k]
            (0, 0)).1 ∧
      (GradientDescentModel.train (GradientDescentModel.new (1 / 100) (-3) (1 / 1000000))
        scenarioA).1.intercept
        = Double.finite ((gradientStep scenarioA
            (GradientDescentModel.new (1 / 100) (-3) (1 / 1000000)).learning_rate)^[k]
            (0, 0)).2) ∧
    ((GradientDescentModel.new (1 / 100) (-3) (1 / 1000000)).max_iterations ≤ 0 →
      (GradientDescentModel.train (GradientDescentModel.new (1 / 100) (-3) (1 / 1000000))
        scenarioA).1.slope = Double.finite 0 ∧
      (GradientDescentModel.train (GradientDescentModel.new (1 / 100) (-3) (1 / 1000000))
        scenarioA).1.intercept = Double.finite 0) :=
  ⟨by decide,
    C26_gradient_descent_terminates (GradientDescentModel.new (1 / 100) (-3) (1 / 1000000))
      scenarioA (by decide)⟩

/-! ## Least squares on collinear samples, and the fixed point of the update step -/

theorem sum_line_expand (l : List (ℚ × ℚ)) (a b : ℚ) :
    (l.map (fun xy => a * xy.1 + b)).sum = a * (l.map Prod.fst).sum + l.length * b := by
  induction l with
  | nil => simp
  | cons p l ih =>
    simp only [List.map_cons, List.sum_cons, List.length_cons, Nat.cast_succ, ih]
    ring

theorem mean_of_line (d : Dataset) (a b : ℚ) (h : d.x_values ≠ [])
    (hlen : d.x_values.length = d.y_values.length)
    (hline : ∀ xy ∈ d.samples, xy.2 = a * xy.1 + b) :
    mean d.y_values = a * mean d.x_values + b := by
  have hn : (d.x_values.length : ℚ) ≠ 0 := by
    have := List.length_pos.mpr h
    exact_mod_cast this.ne'
  have hy : d.y_values.sum = a * d.x_values.sum + d.x_values.length * b := by
    have h1 : d.samples.map Prod.snd = d.samples.map (fun xy => a * xy.1 + b) :=
      List.map_congr_left hline
    rw [← samples_map_snd d hlen, h1, sum_line_expand, samples_map_fst d hlen,
      samples_length d hlen]
  unfold mean
  rw [← hlen, hy]
  field_simp
  ring

theorem sumCrossDeviations_of_line (d : Dataset) (a b : ℚ) (h : d.x_values ≠ [])
    (hlen : d.x_values.length = d.y_values.length)
    (hline : ∀ xy ∈ d.samples, xy.2 = a * xy.1 + b) :
    sumCrossDeviations d = a * sumSquaredDeviations d := by
  have hmean := mean_of_line d a b h hlen hline
  unfold sumCrossDeviations sumSquaredDeviations
  rw [← List.sum_map_mul_left]
  congr 1
  apply List.map_congr_left
  intro xy hxy
  rw [hline xy hxy, hmean]
  ring

theorem sumSquaredResiduals_of_line (d : Dataset) (a b : ℚ)
    (hline : ∀ xy ∈ d.samples, xy.2 = a * xy.1 + b) :
    sumSquaredResiduals d a b = 0 := by
  unfold sumSquaredResiduals
  apply List.sum_eq_zero
  intro t ht
  obtain ⟨xy, hxy, rfl⟩ := List.mem_map.mp ht
  rw [hline xy hxy]
  simp

/-- C27, refuted as stated: the samples `(1, 0)`, `(2, 1)`, `(4, 3)` lie on the line
`y = 1 * x + (-1)` and their x-values differ, and `LeastSquaresModel::train` returns the
slope 1.0000000000000002, the intercept -1.0000000000000007 and the mse 8.2e-32, not
1, -1 and 0. -/
theorem C27_collinear_samples_not_recovered :
    roundedData.x_values.all Binary64.isBinary64 = true ∧
    roundedData.y_values.all Binary64.isBinary64 = true ∧
    roundedData.x_values.length = roundedData.y_values.length ∧
    (∀ xy ∈ roundedData.samples, xy.2 = 1 * xy.1 + -1) ∧
    (∃ u ∈ roundedData.x_values, ∃ v ∈ roundedData.x_values, u ≠ v) ∧
    IEEE.LeastSquaresModel.train IEEE.RegressionModel.new roundedData
      = ({ slope := Binary64.fin (4503599627370497 / 4503599627370496),
           intercept := Binary64.fin (-4503599627370499 / 4503599627370496),
           mse := Binary64.fin
             (7505999378950827 / 91343852333181432387730302044767688728495783936) },
         none) ∧
    (IEEE.LeastSquaresModel.train IEEE.RegressionModel.new roundedData).1.slope
      ≠ Binary64.fin 1 ∧
    (IEEE.LeastSquaresModel.train IEEE.RegressionModel.new roundedData).1.intercept
      ≠ Binary64.fin (-1) ∧
    (IEEE.LeastSquaresModel.train IEEE.RegressionModel.new roundedData).1.mse
      ≠ Binary64.fin 0 := by
  decide!

/-- C27, amended: when every sample of a dataset satisfies `y = a * x + b` and two of its
x-values differ, the formulas of `LeastSquaresModel::train` denote, in exact arithmetic,
the slope `a`, the intercept `b` and the mse 0.  The method itself, in binary64
arithmetic, returns normally, and the finite slope and intercept it returns leave all
residuals 0 exactly when they are equal to `a` and `b`. -/
theorem C27_collinear_samples_recovered (m : RegressionModel) (m64 : IEEE.RegressionModel)
    (d : Dataset) (a b : ℚ)
    (hlen : d.x_values.length = d.y_values.length)
    (hline : ∀ xy ∈ d.samples, xy.2 = a * xy.1 + b)
    (hdist : ∃ u ∈ d.x_values, ∃ v ∈ d.x_values, u ≠ v) :
    (LeastSquaresModel.train m d).2 = none ∧
    (LeastSquaresModel.train m d).1.slope = Double.finite a ∧
    (LeastSquaresModel.train m d).1.intercept = Double.finite b ∧
    (LeastSquaresModel.train m d).1.mse = Double.finite 0 ∧
    (IEEE.LeastSquaresModel.train m64 d).2 = none ∧
    ∀ s c : ℚ, (IEEE.LeastSquaresModel.train m64 d).1.slope = Binary64.fin s →
      (IEEE.LeastSquaresModel.train m64 d).1.intercept = Binary64.fin c →
      (sumSquaredResiduals d s c = 0 ↔ (s = a ∧ c = b)) := by
  have hne : d.x_values ≠ [] := by
    obtain ⟨u, hu, _⟩ := hdist
    exact List.ne_nil_of_mem hu
  have hpos := sumSquaredDeviations_pos d hlen hdist
  have hslope : sumCrossDeviations d / sumSquaredDeviations d = a := by
    rw [sumCrossDeviations_of_line d a b hne hlen hline]
    field_simp
  have hq : Double.quot (sumCrossDeviations d) (sumSquaredDeviations d) = Double.finite a := by
    rw [Double.quot_of_ne_zero _ _ hpos.ne', hslope]
  have hicpt : mean d.y_values - a * mean d.x_values = b := by
    rw [mean_of_line d a b hne hlen hline]
    ring
  have hi : Double.finite (mean d.y_values) - Double.finite a * Double.finite (mean d.x_values)
      = Double.finite b := by
    rw [mean_of_line d a b hne hlen hline]
    simp
  have hzero := sumSquaredResiduals_of_line d a b hline
  rw [leastSquares_train_eq m d hne hlen, hq, hi]
  refine ⟨rfl, rfl, rfl, ?_, (binary64_leastSquares_train_eq m64 d hne).1, ?_⟩
  · simp only
    rw [calculateMSE_of_finite a b m.mse d hne hlen, hzero]
    simp
  · intro s c _ _
    have hmin := leastSquares_minimiser d hlen hdist s c
    rw [hslope, hicpt] at hmin
    constructor
    · intro h0
      apply hmin.mp
      intro m1 b1
      rw [h0]
      exact sumSquaredResiduals_nonneg d m1 b1
    · rintro ⟨rfl, rfl⟩
      exact hzero

/-- C27, at scenario A of the specification, whose samples lie on `y = 10 * x + 35`:
there `train` returns the slope 10, the intercept 35 and the mse 0 in binary64 arithmetic
too. -/
theorem C27_collinear_samples_recovered_witness :
    scenarioA.x_values.length = scenarioA.y_values.length ∧
    (∀ xy ∈ scenarioA.samples, xy.2 = 10 * xy.1 + 35) ∧
    (∃ u ∈ scenarioA.x_values, ∃ v ∈ scenarioA.x_values, u ≠ v) ∧
    IEEE.LeastSquaresModel.train IEEE.RegressionModel.new scenarioA
      = ({ slope := Binary64.fin 10, intercept := Binary64.fin 35, mse := Binary64.fin 0 },
         none) ∧
    (LeastSquaresModel.train RegressionModel.new scenarioA).2 = none ∧
    (LeastSquaresModel.train RegressionModel.new scenarioA).1.slope = Double.finite 10 ∧
    (LeastSquaresModel.train RegressionModel.new scenarioA).1.intercept = Double.finite 35 ∧
    (LeastSquaresModel.train RegressionModel.new scenarioA).1.mse = Double.finite 0 ∧
    (IEEE.LeastSquaresModel.train IEEE.RegressionModel.new scenarioA).2 = none ∧
    ∀ s c : ℚ,
      (IEEE.LeastSquaresModel.train IEEE.RegressionModel.new scenarioA).1.slope
        = Binary64.fin s →
      (IEEE.LeastSquaresModel.train IEEE.RegressionModel.new scenarioA).1.intercept
        = Binary64.fin c →
      (sumSquaredResiduals scenarioA s c = 0 ↔ (s = 10 ∧ c = 35)) :=
  ⟨rfl, by decide!, ⟨1, by decide, 2, by decide, by decide⟩, scenarioA_binary64_train,
    C27_collinear_samples_recovered RegressionModel.new IEEE.RegressionModel.new scenarioA
      10 35 rfl (by decide!) ⟨1, by decide, 2, by decide, by decide⟩⟩

theorem sum_error_times_x_expand (l : List (ℚ × ℚ)) (s b : ℚ) :
    (l.map (fun xy => (s * xy.1 + b - xy.2) * xy.1)).sum
      = s * (l.map (fun xy => xy.1 ^ 2)).sum + b * (l.map Prod.fst).sum
        - (l.map (fun xy => xy.1 * xy.2)).sum := by
  induction l with
  | nil => simp
  | cons p l ih =>
    simp only [List.map_cons, List.sum_cons, ih]
    ring

theorem sum_error_expand (l : List (ℚ × ℚ)) (s b : ℚ) :
    (l.map (fun xy => s * xy.1 + b - xy.2)).sum
      = s * (l.map Prod.fst).sum + l.length * b - (l.map Prod.snd).sum := by
  induction l with
  | nil => simp
  | cons p l ih =>
    simp only [List.map_cons, List.sum_cons, List.length_cons, Nat.cast_succ, ih]
    ring

theorem fixed_point_algebra (n xb yb D N Sx Sy Sxx Sxy s b lr : ℚ) (hn : n ≠ 0)
    (hD : D ≠ 0) (hlr : lr ≠ 0) (hSx : Sx = n * xb) (hSy : Sy = n * yb)
    (hDdef : D = Sxx - 2 * xb * Sx + n * xb ^ 2)
    (hNdef : N = Sxy - xb * Sy - yb * Sx + n * xb * yb) :
    (s - lr * (2 / n) * (s * Sxx + b * Sx - Sxy) = s ∧
      b - lr * (2 / n) * (s * Sx + n * b - Sy) = b)
      ↔ (s = N / D ∧ b = yb - N / D * xb) := by
  have hSxx : Sxx = D + n * xb ^ 2 := by rw [hDdef, hSx]; ring
  have hSxy : Sxy = N + n * xb * yb := by rw [hNdef, hSx, hSy]; ring
  have hc : lr * (2 / n) ≠ 0 := mul_ne_zero hlr (div_ne_zero two_ne_zero hn)
  constructor
  · rintro ⟨h1, h2⟩
    have hA : s * Sxx + b * Sx - Sxy = 0 := by
      have : lr * (2 / n) * (s * Sxx + b * Sx - Sxy) = 0 := by linarith
      rcases mul_eq_zero.mp this with h | h
      · exact absurd h hc
      · exact h
    have hB : s * Sx + n * b - Sy = 0 := by
      have : lr * (2 / n) * (s * Sx + n * b - Sy) = 0 := by linarith
      rcases mul_eq_zero.mp this with h | h
      · exact absurd h hc
      · exact h
    have hb : b = yb - s * xb := by
      have : n * (s * xb + b - yb) = 0 := by rw [hSx, hSy] at hB; linarith
      rcases mul_eq_zero.mp this with h | h
      · exact absurd h hn
      · linarith
    have hs : s * D = N := by
      rw [hSxx, hSxy, hSx, hb] at hA
      linarith
    have hs1 : s = N / D := by
      rw [eq_div_iff hD]
      exact hs
    exact ⟨hs1, by rw [← hs1]; exact hb⟩
  · rintro ⟨hs, hb⟩
    have hs1 : s * D = N := by
      rw [hs]
      field_simp
    rw [← hs] at hb
    have hA : s * Sxx + b * Sx - Sxy = 0 := by
      rw [hSxx, hSxy, hSx, hb]
      linarith
    have hB : s * Sx + n * b - Sy = 0 := by
      rw [hSx, hSy, hb]
      ring
    rw [hA, hB]
    simp

/-- In exact arithmetic the update step fixes exactly the least-squares pair. -/
theorem fixed_point_iff_least_squares (model : RegressionModel) (d : Dataset)
    (hlen : d.x_values.length = d.y_values.length)
    (hdist : ∃ u ∈ d.x_values, ∃ v ∈ d.x_values, u ≠ v)
    (lr : ℚ) (hlr : lr ≠ 0) (s b : ℚ) :
    GradientDescentModel.proposal d.x_values d.y_values lr (s, b) = (s, b)
      ↔ ((LeastSquaresModel.train model d).1.slope = Double.finite s ∧
         (LeastSquaresModel.train model d).1.intercept = Double.finite b) := by
  have hne : d.x_values ≠ [] := by
    obtain ⟨u, hu, _⟩ := hdist
    exact List.ne_nil_of_mem hu
  have hpos := sumSquaredDeviations_pos d hlen hdist
  have hn : ((d.samples.length : ℕ) : ℚ) ≠ 0 := by
    rw [samples_length d hlen]
    have := List.length_pos.mpr hne
    exact_mod_cast this.ne'
  have hx : (d.samples.map Prod.fst).sum = (d.samples.length : ℚ) * mean d.x_values := by
    rw [samples_map_fst d hlen, samples_length d hlen, mean]
    rw [samples_length d hlen] at hn
    field_simp
  have hy : (d.samples.map Prod.snd).sum = (d.samples.length : ℚ) * mean d.y_values := by
    rw [samples_map_snd d hlen, samples_length d hlen, mean, ← hlen]
    rw [samples_length d hlen] at hn
    field_simp
  have hD : sumSquaredDeviations d
      = (d.samples.map (fun xy => xy.1 ^ 2)).sum
        - 2 * mean d.x_values * (d.samples.map Prod.fst).sum
        + d.samples.length * mean d.x_values ^ 2 :=
    sum_sq_dev_expand _ _
  have hN : sumCrossDeviations d
      = (d.samples.map (fun xy => xy.1 * xy.2)).sum
        - mean d.x_values * (d.samples.map Prod.snd).sum
        - mean d.y_values * (d.samples.map Prod.fst).sum
        + d.samples.length * mean d.x_values * mean d.y_values :=
    sum_cross_expand _ _ _
  have halg := fixed_point_algebra _ _ _ _ _ _ _ _ _ s b lr hn hpos.ne' hlr hx hy hD hN
  rw [proposal_eq_gradientStep, leastSquares_train_eq model d hne hlen,
    Double.quot_of_ne_zero _ _ hpos.ne']
  simp only [gradientStep, sum_error_times_x_expand, sum_error_expand, Dataset.getSize,
    ← samples_length d hlen, Prod.mk.injEq, Double.finite_mul, Double.finite_sub,
    Double.finite.injEq]
  rw [halg]
  constructor
  · rintro ⟨h1, h2⟩
    exact ⟨h1.symm, h2.symm⟩
  · rintro ⟨h1, h2⟩
    exact ⟨h1.symm, h2.symm⟩

/-- C28, refuted as stated: on the samples `(1, 0)`, `(2, 1)`, `(4, 3)` the update step of
`GradientDescentModel::train` leaves the pair `(1, -1)` unchanged for every finite
learning rate (all errors are exactly 0 there), while `LeastSquaresModel::train` returns
the slope 1.0000000000000002 and the intercept -1.0000000000000007; and with the
learning rate 1 the update step changes the pair that `LeastSquaresModel::train`
returns. -/
theorem C28_fixed_point_not_least_squares :
    roundedData.x_values.all Binary64.isBinary64 = true ∧
    roundedData.y_values.all Binary64.isBinary64 = true ∧
    roundedData.x_values.length = roundedData.y_values.length ∧
    (∃ u ∈ roundedData.x_values, ∃ v ∈ roundedData.x_values, u ≠ v) ∧
    (∀ lr : ℚ,
      IEEE.GradientDescentModel.proposal roundedData.x_values roundedData.y_values
        (Binary64.fin lr) (Binary64.fin 1, Binary64.fin (-1))
        = (Binary64.fin 1, Binary64.fin (-1))) ∧
    (IEEE.LeastSquaresModel.train IEEE.RegressionModel.new roundedData).1.slope
      = Binary64.fin (4503599627370497 / 4503599627370496) ∧
    (IEEE.LeastSquaresModel.train IEEE.RegressionModel.new roundedData).1.intercept
      = Binary64.fin (-4503599627370499 / 4503599627370496) ∧
    (IEEE.LeastSquaresModel.train IEEE.RegressionModel.new roundedData).1.slope
      ≠ Binary64.fin 1 ∧
    IEEE.GradientDescentModel.proposal roundedData.x_values roundedData.y_values
        (Binary64.fin 1)
        (Binary64.fin (4503599627370497 / 4503599627370496),
          Binary64.fin (-4503599627370499 / 4503599627370496))
      = (Binary64.fin (1125899906842625 / 1125899906842624),
          Binary64.fin (-4503599627370497 / 4503599627370496)) := by
  refine ⟨by decide!, by decide!, by decide!, by decide!, ?_, by decide!, by decide!,
    by decide!, by decide!⟩
  intro lr
  unfold IEEE.GradientDescentModel.proposal
  simp only [roundedData_gradients]
  have h0 : Binary64.fin lr * Binary64.fin 0 = Binary64.fin 0 := by
    rw [binary64_mul_def]
    simp [Binary64.mul, Binary64.nearest]
  have h1 : Binary64.fin 1 - Binary64.fin 0 = Binary64.fin 1 := by decide!
  have h2 : Binary64.fin (-1) - Binary64.fin 0 = Binary64.fin (-1) := by decide!
  rw [h0, h1, h2]

/-- C28, amended: in exact arithmetic, for every dataset with two distinct x-values and
every non-zero learning rate, the update that one iteration of
`GradientDescentModel::train` proposes at `(s, b)` is `(s, b)` itself exactly when `s` and
`b` are the slope and the intercept that the formulas of `LeastSquaresModel::train`
denote.  In binary64 arithmetic the update step leaves a pair of doubles unchanged
whenever both gradients are computed as 0 there. -/
theorem C28_fixed_point_is_least_squares (model : RegressionModel) (d : Dataset)
    (hlen : d.x_values.length = d.y_values.length)
    (hdist : ∃ u ∈ d.x_values, ∃ v ∈ d.x_values, u ≠ v)
    (lr : ℚ) (hlr : lr ≠ 0) (s b : ℚ) :
    (GradientDescentModel.proposal d.x_values d.y_values lr (s, b) = (s, b)
      ↔ ((LeastSquaresModel.train model d).1.slope = Double.finite s ∧
         (LeastSquaresModel.train model d).1.intercept = Double.finite b)) ∧
    (Binary64.isBinary64 s = true → Binary64.isBinary64 b = true →
      IEEE.GradientDescentModel.gradients d.x_values d.y_values (Binary64.fin s)
        (Binary64.fin b) = (Binary64.fin 0, Binary64.fin 0) →
      IEEE.GradientDescentModel.proposal d.x_values d.y_values (Binary64.fin lr)
        (Binary64.fin s, Binary64.fin b) = (Binary64.fin s, Binary64.fin b)) := by
  refine ⟨fixed_point_iff_least_squares model d hlen hdist lr hlr s b, ?_⟩
  intro hs hb hg
  have hs1 : Binary64.nearest s = Binary64.fin s := of_decide_eq_true hs
  have hb1 : Binary64.nearest b = Binary64.fin b := of_decide_eq_true hb
  unfold IEEE.GradientDescentModel.proposal
  simp only [hg]
  have h0 : Binary64.fin lr * Binary64.fin 0 = Binary64.fin 0 := by
    rw [binary64_mul_def]
    simp [Binary64.mul, Binary64.nearest]
  rw [h0, binary64_sub_def, binary64_sub_def]
  simp [Binary64.add, Binary64.neg, hs1, hb1]

/-- C28, at scenario A of the specification, the learning rate 0.01 and the line
`y = 10 * x + 35`: in binary64 arithmetic too both gradients are 0 at `(10, 35)`, which is
what `LeastSquaresModel::train` returns there. -/
theorem C28_fixed_point_is_least_squares_witness :
    scenarioA.x_values.length = scenarioA.y_values.length ∧
    (∃ u ∈ scenarioA.x_values, ∃ v ∈ scenarioA.x_values, u ≠ v) ∧ (1 / 100 : ℚ) ≠ 0 ∧
    IEEE.GradientDescentModel.gradients scenarioA.x_values scenarioA.y_values
      (Binary64.fin 10) (Binary64.fin 35) = (Binary64.fin 0, Binary64.fin 0) ∧
    IEEE.LeastSquaresModel.train IEEE.RegressionModel.new scenarioA
      = ({ slope := Binary64.fin 10, intercept := Binary64.fin 35, mse := Binary64.fin 0 },
         none) ∧
    (GradientDescentModel.proposal scenarioA.x_values scenarioA.y_values (1 / 100) (10, 35)
        = (10, 35)
      ↔ ((LeastSquaresModel.train RegressionModel.new scenarioA).1.slope = Double.finite 10 ∧
         (LeastSquaresModel.train RegressionModel.new scenarioA).1.intercept
          = Double.finite 35)) ∧
    (Binary64.isBinary64 10 = true → Binary64.isBinary64 35 = true →
      IEEE.GradientDescentModel.gradients scenarioA.x_values scenarioA.y_values
        (Binary64.fin 10) (Binary64.fin 35) = (Binary64.fin 0, Binary64.fin 0) →
      IEEE.GradientDescentModel.proposal scenarioA.x_values scenarioA.y_values
        (Binary64.fin (1 / 100)) (Binary64.fin 10, Binary64.fin 35)
        = (Binary64.fin 10, Binary64.fin 35)) :=
  ⟨rfl, ⟨1, by decide, 2, by decide, by decide⟩, by norm_num, by decide!,
    scenarioA_binary64_train,
    C28_fixed_point_is_least_squares RegressionModel.new scenarioA rfl
      ⟨1, by decide, 2, by decide, by decide⟩ (1 / 100) (by norm_num) 10 35⟩

/-! ## The two halves of the guard -/

theorem predict_error_iff_guard (t : LinearRegression) (x : ℚ) :
    (∃ e, t.predict x = Except.error e) ↔ t.notTrainedGuard = true := by
  unfold LinearRegression.predict LinearRegression.notTrainedGuard
  cases t.model with
  | none => simp
  | some m => cases t.is_trained <;> simp

theorem displayResults_error_iff_guard (t : LinearRegression) :
    (∃ e, t.displayResults = Except.error e) ↔ t.notTrainedGuard = true := by
  unfold LinearRegression.displayResults
  cases hg : t.notTrainedGuard with
  | true => simp
  | false =>
    unfold LinearRegression.notTrainedGuard at hg
    cases hm : t.model with
    | none => simp [hm] at hg
    | some m => simp

/-- C29: in every state that a sequence of calls reaches from a new session, a true
`is_trained` comes with a selected strategy, so the guard `!is_trained || !model` has the
value of `!is_trained`: `predict` and `displayResults`, which throw exactly when the guard
holds, throw exactly when `is_trained` is false. -/
theorem C29_trained_implies_strategy (stod : List Char → Option ℚ) (calls : List Call)
    (x : ℚ) :
    ((runCalls stod calls LinearRegression.new).is_trained = true →
      ∃ m : Strategy, (runCalls stod calls LinearRegression.new).model = some m) ∧
    (runCalls stod calls LinearRegression.new).notTrainedGuard
      = !(runCalls stod calls LinearRegression.new).is_trained ∧
    ((∃ e, (runCalls stod calls LinearRegression.new).predict x = Except.error e)
      ↔ (runCalls stod calls LinearRegression.new).is_trained = false) ∧
    ((∃ e, (runCalls stod calls LinearRegression.new).displayResults = Except.error e)
      ↔ (runCalls stod calls LinearRegression.new).is_trained = false) ∧
    (∀ t : LinearRegression,
      ((∃ e, t.predict x = Except.error e) ↔ t.notTrainedGuard = true) ∧
      ((∃ e, t.displayResults = Except.error e) ↔ t.notTrainedGuard = true)) := by
  have hinv := runCalls_model_of_trained stod calls LinearRegression.new
    (by simp [LinearRegression.new])
  have hguard : (runCalls stod calls LinearRegression.new).notTrainedGuard
      = !(runCalls stod calls LinearRegression.new).is_trained := by
    unfold LinearRegression.notTrainedGuard
    cases htr : (runCalls stod calls LinearRegression.new).is_trained with
    | false => simp
    | true =>
      obtain ⟨m, hm⟩ := Option.ne_none_iff_exists'.mp (hinv htr)
      simp [hm]
  refine ⟨fun htr => Option.ne_none_iff_exists'.mp (hinv htr), hguard, ?_, ?_,
    fun t => ⟨predict_error_iff_guard t x, displayResults_error_iff_guard t⟩⟩
  · rw [predict_error_iff_guard, hguard]
    simp
  · rw [displayResults_error_iff_guard, hguard]
    simp

end LinReg
